import Mathlib

/-!
Car inventory service (package api): storage contract, status labels, JSON mapping, handlers

A shallow embedding of `internal/api/db.go`, `internal/api/handlers.go` and of the
in-memory store of `internal/api/server_test.go`.

Conventions of the embedding.

* Go `int`, `int64` and `IDType` values are mathematical integers (`Int`), for a platform
  whose `int` has 64 bits; where the Go value is produced by arithmetic (`LastID++`) the result
  is wrapped to 64 bits, and where a decimal literal is converted the 64-bit range check of
  `strconv` is kept.
* `Status` is the Go type `int8` seen as an integer; the four named constants are 0..3.
* A Go `string` is a sequence of bytes. The fields `Brand` and `Model` and the arguments
  that fill them hold whatever the caller supplies and are byte sequences (`ByteString`);
  `utf8` gives the bytes of a text, `decodeRune` reads bytes as `unicode/utf8` does, and
  `validString` is `utf8.ValidString`.
* Strings that are valid UTF-8 wherever the program writes or compares them (the status
  labels, the texts of errors, route variables, and JSON text: `json.Marshal` writes valid
  UTF-8 only) are kept as the text they encode (`String`, `List Char`). A request body is kept
  as text too: `json.Unmarshal` reads a byte that starts no character as U+FFFD inside a
  string literal and rejects it elsewhere, which is what it does with the character U+FFFD at
  the same place.
* A Go method with a pointer receiver returns the new value of the receiver next to its result.
* A Go result pair `(*CarModel, error)` is a pair of options; `nil` is `none`.
* `context.Context` arguments carry cancellation only and are left out.
-/

set_option autoImplicit false
set_option linter.dupNamespace false
set_option maxRecDepth 100000

namespace api

/-! ## Errors, identifiers, status labels (db.go) -/

/-- Go error values. The three package-level sentinels of db.go are compared by identity, so
each is its own constructor; every other error value (created by `errors.New` at the place of
the failure, or returned by a library) is `other` with its text. -/
inductive Error where
  | ErrNotFound
  | ErrBadPrice
  | ErrBadMileage
  | other (msg : String)
deriving DecidableEq

/-- The method `Error()` of an error value: its text. -/
def Error.Error : Error → String
  | .ErrNotFound => "car model not found"
  | .ErrBadPrice => "\x27price\x27 field is invalid"
  | .ErrBadMileage => "\x27mileage\x27 field is invalid"
  | .other msg => msg

/-- Go `type IDType int`. Identifiers take part in arithmetic and comparisons, so the fields
and parameters of this type are declared `Int` directly. -/
abbrev IDType := Int

/-- Go `type Status int8`. -/
abbrev Status := Int

/-- Go slices, under a name that does not collide with the methods called `List`. -/
abbrev Slice (α : Type) := List α

/-- A Go `string` with arbitrary content: a sequence of bytes. -/
abbrev ByteString := Slice UInt8

def ontheway : Status := 0
def stored : Status := 1
def sold : Status := 2
def withdrawnfromsale : Status := 3

/-- The map literal `statusToString` of db.go, as its list of entries. -/
def statusToString : List (Status × String) :=
  [ (ontheway, "В пути"),
    (stored, "На складе"),
    (sold, "Продан"),
    (withdrawnfromsale, "Снят с продажи") ]

/-- The map literal `stringToStatus` of db.go, as its list of entries. -/
def stringToStatus : List (String × Status) :=
  [ ("В пути", ontheway),
    ("На складе", stored),
    ("Продан", sold),
    ("Снят с продажи", withdrawnfromsale) ]

/-- Go map index expression `m[k]`: the entry for `k`, or the zero value when there is none. -/
def mapIndex {κ ν : Type} [BEq κ] (m : List (κ × ν)) (k : κ) (zero : ν) : ν :=
  (m.lookup k).getD zero

/-- The values of `interface{}` handed to `Scan` and returned by `Value`
(`database/sql/driver.Value`; the float and time cases play no part here). -/
inductive DriverValue where
  | nil
  | int64 (i : Int)
  | bool (b : Bool)
  | bytes (b : ByteString)
  | string (s : String)
deriving DecidableEq

/-- The function `func (s *Status) Scan(value interface{}) error`: the new `*s` and the error. -/
def Status.Scan (s : Status) (value : DriverValue) : Status × Option Error :=
  match value with
  | .string asString => (mapIndex stringToStatus asString 0, none)
  | _ => (s, some (Error.other "Scan source is not string"))

/-- The function `func (s Status) Value() (driver.Value, error)`. -/
def Status.Value (s : Status) : DriverValue × Option Error :=
  match statusToString.lookup s with
  | none => (DriverValue.nil, some (Error.other "Wrong value for Status"))
  | some value => (DriverValue.string value, none)

/-- The function `func (s Status) Stringify() string`. -/
def Status.Stringify (s : Status) : String :=
  mapIndex statusToString s ""

/-- The record type `CarModel` of db.go. The fields `Brand` and `Model` are Go strings with
whatever content the caller supplies: byte sequences. -/
structure CarModel where
  Id : Int
  Brand : ByteString
  Model : ByteString
  Price : Int
  Status : Status
  Mileage : Int
deriving DecidableEq

/-- Wrap-around of 64-bit signed arithmetic. -/
def wrapInt64 (x : Int) : Int :=
  (x + 2 ^ 63) % 2 ^ 64 - 2 ^ 63

/-- The range of a 64-bit signed integer. -/
def inInt64 (x : Int) : Prop :=
  -(2 ^ 63) ≤ x ∧ x < 2 ^ 63

instance (x : Int) : Decidable (inInt64 x) := by
  unfold inInt64; infer_instance

/-- What a `DB` method returning `(*CarModel, error)` returns. -/
abbrev RecordResult := Option CarModel × Option Error

/-- The interface `DB` of db.go over a store state `σ`: every method takes the state and
returns its results with the state after the call (`Close` releases resources only and is
left out). -/
structure DB (σ : Type) where
  Get : σ → Int → RecordResult × σ
  Create : σ → ByteString → ByteString → Int → Status → Int → RecordResult × σ
  Update : σ → Int → ByteString → ByteString → Int → Status → Int → RecordResult × σ
  Delete : σ → Int → Option Error × σ
  List : σ → (Slice CarModel × Option Error) × σ

/-! ## The relational store (PSQLdb, db.go) -/

/-- A row of the query result as `Scan` receives it: the columns id, brand, model, price,
status, mileage in the order of the SELECT list. The status column reaches `Status.Scan` as a
driver value. -/
structure Row where
  id : Int
  brand : ByteString
  model : ByteString
  price : Int
  status : DriverValue
  mileage : Int
deriving DecidableEq

/-- The connection pool `*pgxpool.Pool` embedded in `PSQLdb`, as far as db.go uses it: one
operation per SQL statement of db.go, over the state `σ` of the database behind the pool.
The library is not part of the repository, so it is a parameter of every `PSQLdb` method.

* `selectAll`: `Query` with `SELECT id, brand, model, price, status, mileage FROM CarModel`;
  the error of `Query`, or the rows and the final `rows.Err()`.
* `selectById`: `QueryRow` with `... WHERE id=$1`; the error `Scan` reports before it converts
  a column (query failure, no row), or the row.
* `insertReturningId`: `QueryRow` with `INSERT INTO CarModel (brand, model, price, status,
  mileage) VALUES ($1, $2, $3, $4, $5) RETURNING id`, scanned into `id`.
* `execUpdate`: `Exec` with `UPDATE CarModel SET brand=$1, model=$2, price=$3, status=$4,
  mileage=$5 WHERE id=$6`; the error, or `RowsAffected()`.
* `execDelete`: `Exec` with `DELETE FROM CarModel WHERE id=$1`; the error, or `RowsAffected()`.
-/
structure Pool (σ : Type) where
  selectAll : σ → Except Error (Slice Row × Option Error)
  selectById : σ → Int → Except Error Row
  insertReturningId :
    σ → ByteString → ByteString → Int → Status → Int → Except Error Int × σ
  execUpdate :
    σ → ByteString → ByteString → Int → Status → Int → Int → Except Error Nat × σ
  execDelete : σ → Int → Except Error Nat × σ

/-- The call `rows.Scan(&cm.Id, &cm.Brand, &cm.Model, &cm.Price, &cm.Status, &cm.Mileage)` on
a fresh `CarModel`: the status column goes through `Status.Scan`. -/
def scanRow (row : Row) : RecordResult :=
  match Status.Scan 0 row.status with
  | (_, some err) => (none, some err)
  | (status, none) =>
    (some { Id := row.id, Brand := row.brand, Model := row.model, Price := row.price,
            Status := status, Mileage := row.mileage }, none)

/-- The loop `for rows.Next()` of `PSQLdb.List`: the first row that fails to scan ends it. -/
def scanRows : Slice Row → Slice CarModel → Slice CarModel × Option Error
  | [], cms => (cms, none)
  | row :: rest, cms =>
    match scanRow row with
    | (some cm, none) => scanRows rest (cms ++ [cm])
    | (_, some err) => ([], some err)
    | (none, none) => ([], none)

/-- The function `func (db *PSQLdb) List`. -/
def PSQLdb.List {σ : Type} (pool : Pool σ) (s : σ) : (Slice CarModel × Option Error) × σ :=
  match pool.selectAll s with
  | .error err => (([], some err), s)
  | .ok (rows, rowsErr) =>
    match scanRows rows [] with
    | (_, some err) => (([], some err), s)
    | (cms, none) =>
      match rowsErr with
      | some err => (([], some err), s)
      | none => ((cms, none), s)

/-- The function `func (db *PSQLdb) Get`. -/
def PSQLdb.Get {σ : Type} (pool : Pool σ) (s : σ) (id : Int) : RecordResult × σ :=
  match pool.selectById s id with
  | .error err => ((none, some err), s)
  | .ok row =>
    match scanRow row with
    | (_, some err) => ((none, some err), s)
    | (cm, none) => ((cm, none), s)

/-- The function `func (db *PSQLdb) Create`. -/
def PSQLdb.Create {σ : Type} (pool : Pool σ) (s : σ) (brand model : ByteString) (price : Int)
    (status : Status) (mileage : Int) : RecordResult × σ :=
  if price < 0 then ((none, some Error.ErrBadPrice), s)
  else if mileage < 0 then ((none, some Error.ErrBadMileage), s)
  else
    match pool.insertReturningId s brand model price status mileage with
    | (.error err, s1) => ((none, some err), s1)
    | (.ok id, s1) =>
      ((some { Id := id, Brand := brand, Model := model, Price := price, Status := status,
               Mileage := mileage }, none), s1)

/-- The function `func (db *PSQLdb) Update`. -/
def PSQLdb.Update {σ : Type} (pool : Pool σ) (s : σ) (id : Int) (brand model : ByteString)
    (price : Int) (status : Status) (mileage : Int) : RecordResult × σ :=
  if price < 0 then ((none, some Error.ErrBadPrice), s)
  else if mileage < 0 then ((none, some Error.ErrBadMileage), s)
  else
    match pool.execUpdate s brand model price status mileage id with
    | (.error err, s1) => ((none, some err), s1)
    | (.ok nRows, s1) =>
      if nRows = 0 then ((none, some Error.ErrNotFound), s1)
      else
        ((some { Id := id, Brand := brand, Model := model, Price := price, Status := status,
                 Mileage := mileage }, none), s1)

/-- The function `func (db *PSQLdb) Delete`. -/
def PSQLdb.Delete {σ : Type} (pool : Pool σ) (s : σ) (id : Int) : Option Error × σ :=
  match pool.execDelete s id with
  | (.error err, s1) => (some err, s1)
  | (.ok nRows, s1) => if nRows = 0 then (some Error.ErrNotFound, s1) else (none, s1)

/-- The type `PSQLdb` as an implementation of the interface `DB`. -/
def PSQLdb.asDB {σ : Type} (pool : Pool σ) : DB σ where
  Get := PSQLdb.Get pool
  Create := PSQLdb.Create pool
  Update := PSQLdb.Update pool
  Delete := PSQLdb.Delete pool
  List := PSQLdb.List pool

/-! ## A reference database behind the pool -/

/-- A stored row of the table `CarModel`: the status column holds the label, the text columns
hold the bytes they were given. -/
structure TableRow where
  id : Int
  brand : ByteString
  model : ByteString
  price : Int
  status : String
  mileage : Int
deriving DecidableEq

/-- A database with the single table `CarModel` and the sequence that feeds its `id` column. -/
structure Table where
  rows : List TableRow
  nextId : Int
deriving DecidableEq

/-- The error `pgx.ErrNoRows`, which `Row.Scan` returns when the query found no row. -/
def pgxErrNoRows : Error := Error.other "no rows in result set"

/-- The largest value of the sequence behind the `id` column: the largest `int64`. -/
def maxSequenceValue : Int := 2 ^ 63 - 1

/-- A reference database that executes the five statements of db.go on a `Table`. A `Status`
argument is sent as the label `Status.Value` gives (the type implements `driver.Valuer`), and
a statement whose argument cannot be encoded fails without touching the table. An INSERT takes
the next value of the sequence as the id of the new row and fails when the sequence is used
up. A text column takes the bytes it is given. It stands for a working database wherever
`PSQLdb` is run on concrete inputs or on the tables reached from the empty one. -/
def pgTable : Pool Table where
  selectAll := fun t =>
    .ok (t.rows.map (fun r => { id := r.id, brand := r.brand, model := r.model,
                                price := r.price, status := DriverValue.string r.status,
                                mileage := r.mileage }), none)
  selectById := fun t id =>
    match t.rows.find? (fun r => r.id = id) with
    | none => .error pgxErrNoRows
    | some r => .ok { id := r.id, brand := r.brand, model := r.model, price := r.price,
                      status := DriverValue.string r.status, mileage := r.mileage }
  insertReturningId := fun t brand model price status mileage =>
    match Status.Value status with
    | (DriverValue.string label, none) =>
      if maxSequenceValue < t.nextId then
        (.error (Error.other "nextval: reached maximum value of sequence"), t)
      else
        (.ok t.nextId,
         { rows := t.rows ++ [{ id := t.nextId, brand := brand, model := model, price := price,
                                status := label, mileage := mileage }],
           nextId := t.nextId + 1 })
    | (_, some err) => (.error err, t)
    | (_, none) => (.error (Error.other "cannot encode status"), t)
  execUpdate := fun t brand model price status mileage id =>
    match Status.Value status with
    | (DriverValue.string label, none) =>
      (.ok (t.rows.filter (fun r => r.id = id)).length,
       { t with rows := t.rows.map (fun r =>
           if r.id = id then { id := r.id, brand := brand, model := model, price := price,
                               status := label, mileage := mileage } else r) })
    | (_, some err) => (.error err, t)
    | (_, none) => (.error (Error.other "cannot encode status"), t)
  execDelete := fun t id =>
    (.ok (t.rows.filter (fun r => r.id = id)).length,
     { t with rows := t.rows.filter (fun r => ¬ r.id = id) })

/-- The calls of `PSQLdb` that can change the table. -/
inductive tableOp where
  | Create (brand model : ByteString) (price : Int) (status : Status) (mileage : Int)
  | Update (id : Int) (brand model : ByteString) (price : Int) (status : Status)
      (mileage : Int)
  | Delete (id : Int)

/-- The table after one call of `PSQLdb` on the reference database. -/
def tableStep (t : Table) : tableOp → Table
  | .Create brand model price status mileage =>
    (PSQLdb.Create pgTable t brand model price status mileage).2
  | .Update id brand model price status mileage =>
    (PSQLdb.Update pgTable t id brand model price status mileage).2
  | .Delete id => (PSQLdb.Delete pgTable t id).2

/-- The empty table, its sequence at the first value. -/
def emptyTable : Table := { rows := [], nextId := 1 }

/-- The table reached from the empty table by a sequence of calls. -/
def tableRun (ops : List tableOp) : Table :=
  ops.foldl tableStep emptyTable

/-- The invariant of the reference database: every stored id is a value the sequence has
already handed out, and the sequence has advanced at most once per call. -/
def tableInv (t : Table) (calls : Nat) : Prop :=
  1 ≤ t.nextId ∧ t.nextId ≤ 1 + (calls : Int) ∧ ∀ r ∈ t.rows, 1 ≤ r.id ∧ r.id < t.nextId

/-! ## The in-memory store (mockDB, server_test.go) -/

/-- The type `mockDB` of server_test.go. The slice of pointers `[]*api.CarModel` is the list
of the records pointed to: `push` allocates every record anew, so no two entries alias. -/
structure mockDB where
  CarModels : List CarModel
  LastID : Int
deriving DecidableEq

/-- The loop of `mockDB.find`, from position `idx` on. -/
def mockDB.findFrom (id : Int) : List CarModel → Int → Int × Option CarModel × Option Error
  | [], _ => (-1, none, some Error.ErrNotFound)
  | cm :: rest, idx => if cm.Id = id then (idx, some cm, none) else findFrom id rest (idx + 1)

/-- The function `func (db *mockDB) find`. -/
def mockDB.find (db : mockDB) (id : Int) : Int × Option CarModel × Option Error :=
  mockDB.findFrom id db.CarModels 0

/-- The function `func (db *mockDB) push`: the new record and the store after the call. -/
def mockDB.push (db : mockDB) (brand model : ByteString) (price : Int) (status : Status)
    (mileage : Int) : CarModel × mockDB :=
  let cm : CarModel := { Id := db.LastID, Brand := brand, Model := model, Price := price,
                         Status := status, Mileage := mileage }
  (cm, { CarModels := db.CarModels ++ [cm], LastID := wrapInt64 (db.LastID + 1) })

/-- The function `func (db *mockDB) List`. -/
def mockDB.List (db : mockDB) : (Slice CarModel × Option Error) × mockDB :=
  ((db.CarModels, none), db)

/-- The function `func (db *mockDB) Get`. -/
def mockDB.Get (db : mockDB) (id : Int) : RecordResult × mockDB :=
  match mockDB.find db id with
  | (_, cm, err) => ((cm, err), db)

/-- The function `func (db *mockDB) Create`. -/
def mockDB.Create (db : mockDB) (brand model : ByteString) (price : Int) (status : Status)
    (mileage : Int) : RecordResult × mockDB :=
  if price < 0 then ((none, some Error.ErrBadPrice), db)
  else if mileage < 0 then ((none, some Error.ErrBadMileage), db)
  else
    match mockDB.push db brand model price status mileage with
    | (cm, db1) => ((some cm, none), db1)

/-- The function `func (db *mockDB) Update`: the record found is changed in place, its `Id` stays. -/
def mockDB.Update (db : mockDB) (id : Int) (brand model : ByteString) (price : Int)
    (status : Status) (mileage : Int) : RecordResult × mockDB :=
  if price < 0 then ((none, some Error.ErrBadPrice), db)
  else if mileage < 0 then ((none, some Error.ErrBadMileage), db)
  else
    match mockDB.find db id with
    | (_, _, some err) => ((none, some err), db)
    | (_, none, none) => ((none, none), db)
    | (idx, some cm, none) =>
      let cm1 : CarModel := { cm with Brand := brand, Model := model, Price := price,
                                      Status := status, Mileage := mileage }
      ((some cm1, none), { db with CarModels := db.CarModels.set idx.toNat cm1 })

/-- The function `func (db *mockDB) Delete`: the entry found and the last entry change places, then the
slice loses its last entry. (The index expressions cannot fail: `find` returned `idx`.) -/
def mockDB.Delete (db : mockDB) (id : Int) : Option Error × mockDB :=
  match mockDB.find db id with
  | (_, _, some err) => (some err, db)
  | (idx, _, none) =>
    let cms := db.CarModels
    match cms[idx.toNat]?, cms[cms.length - 1]? with
    | some atIdx, some atLast =>
      (none, { db with
        CarModels := ((cms.set (cms.length - 1) atIdx).set idx.toNat atLast).dropLast })
    | _, _ => (none, db)

/-- The type `mockDB` as an implementation of the interface `DB`. -/
def mockDB.asDB : DB mockDB where
  Get := mockDB.Get
  Create := mockDB.Create
  Update := mockDB.Update
  Delete := mockDB.Delete
  List := mockDB.List

/-- The calls that change or read an in-memory store. -/
inductive mockOp where
  | push (brand model : ByteString) (price : Int) (status : Status) (mileage : Int)
  | Create (brand model : ByteString) (price : Int) (status : Status) (mileage : Int)
  | Update (id : Int) (brand model : ByteString) (price : Int) (status : Status)
      (mileage : Int)
  | Delete (id : Int)

/-- The store after one call. -/
def mockDB.step (db : mockDB) : mockOp → mockDB
  | .push brand model price status mileage => (mockDB.push db brand model price status mileage).2
  | .Create brand model price status mileage =>
    (mockDB.Create db brand model price status mileage).2
  | .Update id brand model price status mileage =>
    (mockDB.Update db id brand model price status mileage).2
  | .Delete id => (mockDB.Delete db id).2

/-- The store `new(mockDB)`. -/
def mockDB.new : mockDB := { CarModels := [], LastID := 0 }

/-- The store reached from `new(mockDB)` by a sequence of calls. -/
def mockRun (ops : List mockOp) : mockDB :=
  ops.foldl mockDB.step mockDB.new

/-- The invariant of the in-memory store: every stored `Id` lies in `[0, LastID)` and no two
records share an `Id`. -/
def mockInv (db : mockDB) : Prop :=
  0 ≤ db.LastID ∧ (∀ cm ∈ db.CarModels, 0 ≤ cm.Id ∧ cm.Id < db.LastID) ∧
    (db.CarModels.map (fun cm => cm.Id)).Nodup

/-! ## UTF-8 (unicode/utf8)

`Brand` and `Model` are byte sequences; JSON text is kept as the characters it encodes. The
two functions below pass between them as `utf8.DecodeRuneInString` and `utf8.EncodeRune` do. -/

/-- The constant `utf8.RuneError`, U+FFFD. -/
def RuneError : Char := Char.ofNat 0xfffd

/-- The low three bits of the entry of the table `first` for a lead byte: the width of the
sequence the byte starts, 1 for an ASCII byte, and 0 for a byte that starts no sequence (0x80
to 0xC1 and 0xF5 to 0xFF). -/
def leadSize (b0 : Nat) : Nat :=
  if b0 < 0x80 then 1
  else if b0 < 0xc2 then 0
  else if b0 < 0xe0 then 2
  else if b0 < 0xf0 then 3
  else if b0 < 0xf5 then 4
  else 0

/-- The lower end of the range `acceptRanges` gives for the second byte after a lead byte. -/
def acceptLo (b0 : Nat) : Nat :=
  if b0 = 0xe0 then 0xa0 else if b0 = 0xf0 then 0x90 else 0x80

/-- The upper end of the range `acceptRanges` gives for the second byte after a lead byte. -/
def acceptHi (b0 : Nat) : Nat :=
  if b0 = 0xed then 0x9f else if b0 = 0xf4 then 0x8f else 0xbf

/-- The library call `utf8.DecodeRuneInString`: the first character of a byte sequence and its
width in bytes, `(RuneError, 1)` when the sequence starts with bytes that encode no character
and `(RuneError, 0)` when it is empty. The masks `& 0x1F`, `& 0x0F`, `& 0x07`, `& 0x3F` and the
shifts are written as remainders and products. -/
def decodeRune : ByteString → Char × Nat
  | [] => (RuneError, 0)
  | s0 :: rest =>
    if leadSize s0.toNat = 1 then (Char.ofNat s0.toNat, 1)
    else if leadSize s0.toNat = 0 then (RuneError, 1)
    else
      match rest with
      | [] => (RuneError, 1)
      | s1 :: rest1 =>
        if s1.toNat < acceptLo s0.toNat ∨ acceptHi s0.toNat < s1.toNat then (RuneError, 1)
        else if leadSize s0.toNat = 2 then
          (Char.ofNat ((s0.toNat % 32) * 64 + s1.toNat % 64), 2)
        else
          match rest1 with
          | [] => (RuneError, 1)
          | s2 :: rest2 =>
            if s2.toNat < 0x80 ∨ 0xbf < s2.toNat then (RuneError, 1)
            else if leadSize s0.toNat = 3 then
              (Char.ofNat (((s0.toNat % 16) * 64 + s1.toNat % 64) * 64 + s2.toNat % 64), 3)
            else
              match rest2 with
              | [] => (RuneError, 1)
              | s3 :: _ =>
                if s3.toNat < 0x80 ∨ 0xbf < s3.toNat then (RuneError, 1)
                else
                  (Char.ofNat ((((s0.toNat % 8) * 64 + s1.toNat % 64) * 64 + s2.toNat % 64)
                    * 64 + s3.toNat % 64), 4)

/-- The library call `utf8.EncodeRune`: the bytes of a character. (A `Char` is neither a
surrogate nor above U+10FFFF, the values Go writes as `RuneError`.) -/
def encodeRune (r : Char) : ByteString :=
  if r.toNat ≤ 0x7f then [UInt8.ofNat r.toNat]
  else if r.toNat ≤ 0x7ff then
    [UInt8.ofNat (0xc0 + r.toNat / 64), UInt8.ofNat (0x80 + r.toNat % 64)]
  else if r.toNat ≤ 0xffff then
    [UInt8.ofNat (0xe0 + r.toNat / 4096), UInt8.ofNat (0x80 + r.toNat / 64 % 64),
     UInt8.ofNat (0x80 + r.toNat % 64)]
  else
    [UInt8.ofNat (0xf0 + r.toNat / 262144), UInt8.ofNat (0x80 + r.toNat / 4096 % 64),
     UInt8.ofNat (0x80 + r.toNat / 64 % 64), UInt8.ofNat (0x80 + r.toNat % 64)]

/-- The bytes of a text: the Go string a string literal or a conversion `string(runes)` gives. -/
def utf8 (s : String) : ByteString :=
  s.data.flatMap encodeRune

/-- The loop of `utf8.ValidString`: no position at which a character is to start holds bytes
that encode none. The first argument counts the bytes still to be passed over, those of the
character just read. -/
def validFrom : Nat → ByteString → Bool
  | _, [] => true
  | skip + 1, _ :: bs => validFrom skip bs
  | 0, b :: bs =>
    if (decodeRune (b :: bs)).1 = RuneError ∧ (decodeRune (b :: bs)).2 = 1 then false
    else validFrom ((decodeRune (b :: bs)).2 - 1) bs

/-- The library call `utf8.ValidString`: whether a Go string consists of valid UTF-8 only. -/
def validString (s : ByteString) : Bool :=
  validFrom 0 s

/-! ## Decimal integers (strconv) -/

/-- The decimal digit `'0' + d`. -/
def digitChar (d : Nat) : Char := Char.ofNat (48 + d)

/-- The loop of `strconv.FormatInt` in base 10: the low digit is written in front of what has
been written, until the rest is below ten. -/
def formatUintAux : Nat → Nat → List Char → List Char
  | 0, _, acc => acc
  | fuel + 1, n, acc =>
    if n < 10 then digitChar n :: acc
    else formatUintAux fuel (n / 10) (digitChar (n % 10) :: acc)

/-- The decimal digits of a natural number. -/
def formatUint (n : Nat) : List Char := formatUintAux (n + 1) n []

/-- The library call `strconv.FormatInt(i, 10)`, which `encoding/json` writes for an integer field. -/
def formatInt (i : Int) : List Char :=
  if i < 0 then '-' :: formatUint (-i).toNat else formatUint i.toNat

/-- The value of a string of decimal digits, read from the left. -/
def digitsValue (cs : List Char) : Nat :=
  cs.foldl (fun n c => 10 * n + (c.toNat - 48)) 0

/-- The library call `strconv.ParseInt(s, 10, 64)`: an optional sign, then one or more decimal digits, with a
value in the 64-bit signed range; `none` stands for every `*NumError`. -/
def parseInt (s : List Char) : Option Int :=
  match s with
  | [] => none
  | c :: rest =>
    let neg := decide (c = '-')
    let ds := if c = '-' ∨ c = '+' then rest else s
    if ds = [] ∨ ¬ ds.all Char.isDigit then none
    else if neg then
      (if digitsValue ds ≤ 2 ^ 63 then some (-(digitsValue ds : Int)) else none)
    else
      (if digitsValue ds < 2 ^ 63 then some (digitsValue ds : Int) else none)

/-- The library call `strconv.Atoi` on a 64-bit platform: `ParseInt(s, 10, 0)`. -/
def strconvAtoi (s : String) : Option Int := parseInt s.data

/-! ## JSON text (encoding/json)

The functions below follow `encoding/json` as far as the package `api` uses it: `Marshal` of a
`CarModel`, `Unmarshal` into a `CarModel`, into the request type of the handlers and into a
`string`. The texts of the errors of `encoding/json` are not reproduced: a syntax error and a
value of the wrong kind each have one text here. -/

/-- The syntax error of `json.Unmarshal`. -/
def jsonSyntaxError : Error := Error.other "json: invalid JSON text"

/-- The error of `json.Unmarshal` for a value that does not fit the Go type. -/
def jsonTypeError : Error := Error.other "json: cannot unmarshal value into Go value"

/-- The digits of `const hex = "0123456789abcdef"`. -/
def hexDigit (n : Nat) : Char :=
  if n < 10 then Char.ofNat (48 + n) else Char.ofNat (87 + n)

/-- How `Marshal` writes one character of a string (HTML escaping is on by default): quote and
backslash get a backslash, newline, carriage return and tab their letter, the other control
characters and `<`, `>`, `&` the form `\u00XX`, U+2028 and U+2029 the form `\u202X`. (From
Go 1.22 on, U+0008 and U+000C are written `\b` and `\f`; the scanner below reads both forms.) -/
def escapeChar (c : Char) : List Char :=
  if c = '"' then ['\\', '"']
  else if c = '\\' then ['\\', '\\']
  else if c = '\n' then ['\\', 'n']
  else if c = '\r' then ['\\', 'r']
  else if c = '\t' then ['\\', 't']
  else if c.toNat < 0x20 ∨ c = '<' ∨ c = '>' ∨ c = '&' then
    ['\\', 'u', '0', '0', hexDigit (c.toNat / 16), hexDigit (c.toNat % 16)]
  else if c.toNat = 0x2028 ∨ c.toNat = 0x2029 then
    ['\\', 'u', '2', '0', '2', hexDigit (c.toNat % 16)]
  else [c]

/-- The loop of `encodeState.string` over the bytes of a Go string: every character is read
with `utf8.DecodeRuneInString` and written as `escapeChar` says, and a byte that starts no
character is written `\ufffd`. The first argument counts the bytes still to be passed over,
those of the character just read. -/
def escapeFrom : Nat → ByteString → List Char
  | _, [] => []
  | skip + 1, _ :: bs => escapeFrom skip bs
  | 0, b :: bs =>
    (if (decodeRune (b :: bs)).1 = RuneError ∧ (decodeRune (b :: bs)).2 = 1 then
       ['\\', 'u', 'f', 'f', 'f', 'd']
     else escapeChar (decodeRune (b :: bs)).1) ++
    escapeFrom ((decodeRune (b :: bs)).2 - 1) bs

/-- The JSON string literal `Marshal` writes for a Go string. -/
def encodeString (s : ByteString) : List Char :=
  '"' :: (escapeFrom 0 s ++ ['"'])

/-- The white space of JSON. -/
def isSpace (c : Char) : Bool :=
  c = ' ' || c = '\t' || c = '\r' || c = '\n'

def skipSpace : List Char → List Char
  | [] => []
  | c :: cs => if isSpace c then skipSpace cs else c :: cs

/-- The value of a hexadecimal digit. -/
def hexVal (c : Char) : Option Nat :=
  if 48 ≤ c.toNat ∧ c.toNat ≤ 57 then some (c.toNat - 48)
  else if 97 ≤ c.toNat ∧ c.toNat ≤ 102 then some (c.toNat - 87)
  else if 65 ≤ c.toNat ∧ c.toNat ≤ 70 then some (c.toNat - 55)
  else none

/-- The number written by four hexadecimal digits (`getu4` after `\u`). -/
def hex4 (a b c d : Char) : Option Nat :=
  match hexVal a, hexVal b, hexVal c, hexVal d with
  | some x, some y, some z, some w => some (((x * 16 + y) * 16 + z) * 16 + w)
  | _, _, _, _ => none

/-- The escapes of one character: the character after the backslash and what it stands for. -/
def simpleEscape (e : Char) : Option Char :=
  if e = '"' then some '"'
  else if e = '\\' then some '\\'
  else if e = '/' then some '/'
  else if e = 'b' then some (Char.ofNat 8)
  else if e = 'f' then some (Char.ofNat 12)
  else if e = 'n' then some '\n'
  else if e = 'r' then some '\r'
  else if e = 't' then some '\t'
  else none

/-- The escape `\uXXXX` of a low surrogate at the front of the input: its code unit. -/
def lowSurrogate (cs : List Char) : Option Nat :=
  match cs with
  | b :: u :: g1 :: g2 :: g3 :: g4 :: _ =>
    if b = '\\' ∧ u = 'u' then
      match hex4 g1 g2 g3 g4 with
      | some rr1 => if 0xdc00 ≤ rr1 ∧ rr1 < 0xe000 then some rr1 else none
      | none => none
    else none
  | _ => none

/-- Puts a character in front of the text of a scanned string. -/
def consChar (c : Char) : Option (List Char × List Char) → Option (List Char × List Char)
  | some (s, rest) => some (c :: s, rest)
  | none => none

/-- A string literal after its opening quote: the text it stands for and what follows the
closing quote. Control characters and unknown escapes are syntax errors; `\uXXXX` gives the
code unit, two of them that form a surrogate pair give one character, and a surrogate without
its partner gives U+FFFD. The first argument counts characters still to be passed over: it is
6 right after a surrogate pair was read from its first half, and 0 otherwise. -/
def scanStringFrom : Nat → List Char → Option (List Char × List Char)
  | _, [] => none
  | skip + 1, _ :: cs => scanStringFrom skip cs
  | 0, c :: cs =>
    if c = '"' then some ([], cs)
    else if c = '\\' then
      match cs with
      | [] => none
      | e :: cs1 =>
        if e = 'u' then
          match cs1 with
          | h1 :: h2 :: h3 :: h4 :: cs2 =>
            match hex4 h1 h2 h3 h4 with
            | none => none
            | some rr =>
              if 0xd800 ≤ rr ∧ rr < 0xe000 then
                match lowSurrogate cs2 with
                | some rr1 =>
                  if rr < 0xdc00 then
                    consChar (Char.ofNat ((rr - 0xd800) * 0x400 + (rr1 - 0xdc00) + 0x10000))
                      (scanStringFrom 6 cs2)
                  else consChar (Char.ofNat 0xfffd) (scanStringFrom 0 cs2)
                | none => consChar (Char.ofNat 0xfffd) (scanStringFrom 0 cs2)
              else consChar (Char.ofNat rr) (scanStringFrom 0 cs2)
          | _ => none
        else
          match simpleEscape e with
          | some x => consChar x (scanStringFrom 0 cs1)
          | none => none
    else if c.toNat < 0x20 then none
    else consChar c (scanStringFrom 0 cs)

/-- A string literal after its opening quote. -/
def scanStringBody (cs : List Char) : Option (List Char × List Char) :=
  scanStringFrom 0 cs

/-- One or more decimal digits: the digits and what follows them. -/
def scanDigits (cs : List Char) : Option (List Char × List Char) :=
  if (cs.span Char.isDigit).1 = [] then none else some (cs.span Char.isDigit)

/-- The optional fraction and exponent of a number: their text and what follows. -/
def scanFracExp (cs : List Char) : Option (List Char × List Char) :=
  let frac : Option (List Char × List Char) :=
    match cs with
    | '.' :: r =>
      match scanDigits r with
      | some (ds, r1) => some ('.' :: ds, r1)
      | none => none
    | _ => some ([], cs)
  match frac with
  | none => none
  | some (f, r1) =>
    match r1 with
    | [] => some (f, r1)
    | e :: r2 =>
      if e = 'e' ∨ e = 'E' then
        match r2 with
        | [] => none
        | s :: r3 =>
          if s = '+' ∨ s = '-' then
            match scanDigits r3 with
            | some (ds, r4) => some (f ++ e :: s :: ds, r4)
            | none => none
          else
            match scanDigits r2 with
            | some (ds, r4) => some (f ++ e :: ds, r4)
            | none => none
      else some (f, r1)

/-- A number after its optional minus sign: `0` or a digit from 1 to 9 with further digits,
then the optional fraction and exponent. -/
def scanUnsigned (cs : List Char) : Option (List Char × List Char) :=
  match cs with
  | [] => none
  | d :: r =>
    if d = '0' then
      match scanFracExp r with
      | some (t, r1) => some (d :: t, r1)
      | none => none
    else if d.isDigit then
      match scanFracExp (r.span Char.isDigit).2 with
      | some (t, r1) => some (d :: ((r.span Char.isDigit).1 ++ t), r1)
      | none => none
    else none

/-- A number literal: its text and what follows. -/
def scanNumber (cs : List Char) : Option (List Char × List Char) :=
  match cs with
  | [] => none
  | c :: r =>
    if c = '-' then
      match scanUnsigned r with
      | some (t, r1) => some (c :: t, r1)
      | none => none
    else scanUnsigned cs

/-- Takes the word `w` from the front of the input. -/
def scanWord (w : List Char) (cs : List Char) : Option (List Char) :=
  if w.isPrefixOf cs then some (cs.drop w.length) else none

/-- A JSON value as the decoder sees it. An object keeps, for every member, the key, the text
of the value as it stands in the input (what an `Unmarshaler` receives) and the value. -/
inductive JSON where
  | null
  | bool (b : Bool)
  | number (lit : List Char)
  | string (s : List Char)
  | array (elems : List JSON)
  | object (members : List (List Char × List Char × JSON))

/-- The constant `maxNestingDepth` of the scanner of `encoding/json`: the number of objects and
arrays that may be open at one place of the text. -/
def maxNestingDepth : Nat := 10000

mutual
/-- A JSON value at the front of the input (no white space before it) and what follows it.
The first argument bounds the depth of nesting plus the number of members in a row; `parseJSON`
passes the length of the input plus one, and no text is rejected for the bound. The second
argument is the number of objects and arrays that are open around the value (the length of
`parseState` in the scanner): opening one more is a syntax error ("exceeded max depth") when
that makes more than `maxNestingDepth`. -/
def parseValue : Nat → Nat → List Char → Option (JSON × List Char)
  | 0, _, _ => none
  | fuel + 1, depth, cs =>
    match cs with
    | [] => none
    | c :: rest =>
      if c = '{' then
        if maxNestingDepth < depth + 1 then none
        else
          match skipSpace rest with
          | [] => none
          | c1 :: rest1 =>
            if c1 = '}' then some (JSON.object [], rest1)
            else
              match parseMembers fuel (depth + 1) (c1 :: rest1) [] with
              | some (ms, r) => some (JSON.object ms, r)
              | none => none
      else if c = '[' then
        if maxNestingDepth < depth + 1 then none
        else
          match skipSpace rest with
          | [] => none
          | c1 :: rest1 =>
            if c1 = ']' then some (JSON.array [], rest1)
            else
              match parseElements fuel (depth + 1) (c1 :: rest1) [] with
              | some (es, r) => some (JSON.array es, r)
              | none => none
      else if c = '"' then
        match scanStringBody rest with
        | some (s, r) => some (JSON.string s, r)
        | none => none
      else if c = '-' ∨ c.isDigit then
        match scanNumber cs with
        | some (lit, r) => some (JSON.number lit, r)
        | none => none
      else if c = 't' then
        match scanWord ['t', 'r', 'u', 'e'] cs with
        | some r => some (JSON.bool true, r)
        | none => none
      else if c = 'f' then
        match scanWord ['f', 'a', 'l', 's', 'e'] cs with
        | some r => some (JSON.bool false, r)
        | none => none
      else if c = 'n' then
        match scanWord ['n', 'u', 'l', 'l'] cs with
        | some r => some (JSON.null, r)
        | none => none
      else none
/-- The elements of an array from the first element on (no white space before it), up to and
including the closing bracket; `depth` counts the array itself. -/
def parseElements : Nat → Nat → List Char → List JSON → Option (List JSON × List Char)
  | 0, _, _, _ => none
  | fuel + 1, depth, cs, acc =>
    match parseValue fuel depth cs with
    | none => none
    | some (v, rest) =>
      match skipSpace rest with
      | [] => none
      | c :: rest1 =>
        if c = ',' then parseElements fuel depth (skipSpace rest1) (acc ++ [v])
        else if c = ']' then some (acc ++ [v], rest1)
        else none
/-- The members of an object from the first key on (no white space before it), up to and
including the closing brace; `depth` counts the object itself. -/
def parseMembers : Nat → Nat → List Char → List (List Char × List Char × JSON) →
    Option (List (List Char × List Char × JSON) × List Char)
  | 0, _, _, _ => none
  | fuel + 1, depth, cs, acc =>
    match cs with
    | [] => none
    | q :: afterQuote =>
      if q = '"' then
        match scanStringBody afterQuote with
        | none => none
        | some (key, afterKey) =>
          match skipSpace afterKey with
          | [] => none
          | colon :: afterColon =>
            if colon = ':' then
              match parseValue fuel depth (skipSpace afterColon) with
              | none => none
              | some (v, rest) =>
                let raw := (skipSpace afterColon).take
                  ((skipSpace afterColon).length - rest.length)
                match skipSpace rest with
                | [] => none
                | c :: rest1 =>
                  if c = ',' then
                    parseMembers fuel depth (skipSpace rest1) (acc ++ [(key, raw, v)])
                  else if c = '}' then some (acc ++ [(key, raw, v)], rest1)
                  else none
            else none
      else none
end

/-- The input as one JSON value with white space around it (`checkValid` and the scan of the
decoder); nothing is open around the value. -/
def parseJSON (data : List Char) : Option JSON :=
  match parseValue ((skipSpace data).length + 1) 0 (skipSpace data) with
  | some (v, rest) => if skipSpace rest = [] then some v else none
  | none => none

/-- The library call `json.Unmarshal(data, &str)` for a Go string `str`: the new value of `str` and the
error. A string literal is stored, `null` leaves the variable as it is. The string is kept as
the text it holds (what is stored is valid UTF-8, and the caller only looks it up in
`stringToStatus`). -/
def jsonUnmarshalString (data : List Char) (str : String) : String × Option Error :=
  match parseJSON data with
  | none => (str, some jsonSyntaxError)
  | some (JSON.string s) => (String.mk s, none)
  | some JSON.null => (str, none)
  | some _ => (str, some jsonTypeError)

/-- The function `func (s Status) MarshalJSON() ([]byte, error)`. -/
def Status.MarshalJSON (s : Status) : List Char × Option Error :=
  ('"' :: ((mapIndex statusToString s "").data ++ ['"']), none)

/-- The function `func (s *Status) UnmarshalJSON(b []byte) error`: the new `*s` and the error. -/
def Status.UnmarshalJSON (s : Status) (b : List Char) : Status × Option Error :=
  match jsonUnmarshalString b "" with
  | (_, some err) => (s, some err)
  | (str, none) => (mapIndex stringToStatus str 0, none)

/-- What `compact` copies of a value written by a `MarshalJSON` method: white space outside
strings is dropped and `<`, `>`, `&`, U+2028, U+2029 are escaped. The flags say whether the
position is inside a string and whether it follows a backslash there. -/
def compactText : Bool → Bool → List Char → List Char
  | _, _, [] => []
  | inString, escaped, c :: cs =>
    (if c = '<' ∨ c = '>' ∨ c = '&' then
       ['\\', 'u', '0', '0', hexDigit (c.toNat / 16), hexDigit (c.toNat % 16)]
     else if c.toNat = 0x2028 ∨ c.toNat = 0x2029 then
       ['\\', 'u', '2', '0', '2', hexDigit (c.toNat % 16)]
     else if ¬ inString ∧ isSpace c then []
     else [c]) ++
    compactText (if escaped then inString else if c = '"' then !inString else inString)
      (inString && !escaped && c = '\\') cs

/-- The function `compact` of `encoding/json` on the output of a `MarshalJSON` method: an
error when the output is not one JSON value, else the compacted text. -/
def compact (src : List Char) : Option (List Char) :=
  match parseJSON src with
  | none => none
  | some _ => some (compactText false false src)

/-- The library call `json.Marshal` of a `CarModel`: the fields in the order of the struct under the names of
their tags, integers in decimal, strings escaped, and the status as `Status.MarshalJSON`
writes it, checked and compacted. -/
def jsonMarshalCarModel (cm : CarModel) : List Char × Option Error :=
  match Status.MarshalJSON cm.Status with
  | (_, some err) => ([], some err)
  | (b, none) =>
    match compact b with
    | none => ([], some (Error.other "json: error calling MarshalJSON for type api.Status"))
    | some status =>
      ("\x7b\"id\":".data ++ formatInt cm.Id ++
       ",\"brand\":".data ++ encodeString cm.Brand ++
       ",\"model\":".data ++ encodeString cm.Model ++
       ",\"price\":".data ++ formatInt cm.Price ++
       ",\"status\":".data ++ status ++
       ",\"mileage\":".data ++ formatInt cm.Mileage ++ "\x7d".data, none)

/-- The library call `json.Marshal` of a `*CarModel` (or of a pointer to one): `null` for the nil pointer. -/
def jsonMarshalRecord (cm : Option CarModel) : List Char × Option Error :=
  match cm with
  | none => ("null".data, none)
  | some cm => jsonMarshalCarModel cm

/-- The elements of a slice of records, separated by commas. -/
def jsonMarshalElements : Slice CarModel → List Char × Option Error
  | [] => ([], none)
  | cm :: rest =>
    match jsonMarshalCarModel cm with
    | (_, some err) => ([], some err)
    | (b, none) =>
      match rest with
      | [] => (b, none)
      | _ :: _ =>
        match jsonMarshalElements rest with
        | (_, some err) => ([], some err)
        | (bs, none) => (b ++ ',' :: bs, none)

/-- The library call `json.Marshal` of a `[]*CarModel`. (A nil slice, which Go writes as `null`, is not told
apart from the empty slice here.) -/
def jsonMarshalSlice (cms : Slice CarModel) : List Char × Option Error :=
  match jsonMarshalElements cms with
  | (_, some err) => ([], some err)
  | (bs, none) => ('[' :: (bs ++ [']']), none)

/-- Case folding of a character of an object key, as far as it can meet the field names of
this package: ASCII capitals, and the two letters that fold to `s` and `k`. -/
def foldChar (c : Char) : Char :=
  if 65 ≤ c.toNat ∧ c.toNat ≤ 90 then Char.ofNat (c.toNat + 32)
  else if c.toNat = 0x17f then 's'
  else if c.toNat = 0x212a then 'k'
  else c

/-- Whether an object key selects the field with the (lower-case) JSON name `name`: equal to
it up to case. -/
def keyIs (name : String) (key : List Char) : Bool :=
  key.map foldChar = name.data

/-- Storing a JSON value in a `string` field: the bytes of a string are stored (`unquote`
writes every character with `utf8.EncodeRune`), `null` leaves the field. -/
def storeString (v : JSON) (cur : ByteString) : Except Error ByteString :=
  match v with
  | .string s => .ok (utf8 (String.mk s))
  | .null => .ok cur
  | _ => .error jsonTypeError

/-- Storing a JSON value in an `int64` (or 64-bit `int`) field: a number whose text
`strconv.ParseInt` accepts is stored, `null` leaves the field. -/
def storeInt (v : JSON) (cur : Int) : Except Error Int :=
  match v with
  | .number lit =>
    match parseInt lit with
    | some n => .ok n
    | none => .error jsonTypeError
  | .null => .ok cur
  | _ => .error jsonTypeError

/-- Storing a JSON value in a `Status` field: the text of the value goes to `UnmarshalJSON`. -/
def storeStatus (raw : List Char) (cur : Status) : Except Error Status :=
  match Status.UnmarshalJSON cur raw with
  | (_, some err) => .error err
  | (s, none) => .ok s

/-- One member of an object decoded into a `CarModel`; a key that names no field is skipped. -/
def CarModel.setField (cm : CarModel) (key raw : List Char) (v : JSON) :
    Except Error CarModel :=
  if keyIs "id" key then (storeInt v cm.Id).map (fun x => { cm with Id := x })
  else if keyIs "brand" key then (storeString v cm.Brand).map (fun x => { cm with Brand := x })
  else if keyIs "model" key then (storeString v cm.Model).map (fun x => { cm with Model := x })
  else if keyIs "price" key then (storeInt v cm.Price).map (fun x => { cm with Price := x })
  else if keyIs "status" key then
    (storeStatus raw cm.Status).map (fun x => { cm with Status := x })
  else if keyIs "mileage" key then
    (storeInt v cm.Mileage).map (fun x => { cm with Mileage := x })
  else .ok cm

/-- The members of an object decoded into a `CarModel`, in the order of the text. -/
def CarModel.setFields : List (List Char × List Char × JSON) → CarModel → Except Error CarModel
  | [], cm => .ok cm
  | (key, raw, v) :: rest, cm =>
    match CarModel.setField cm key raw v with
    | .error err => .error err
    | .ok cm1 => CarModel.setFields rest cm1

/-- The library call `json.Unmarshal(data, cm)` for a `*CarModel`: the record after the call, or the error (the
callers drop the record when there is an error). An object sets the fields it names, `null`
leaves the record as it is. -/
def jsonUnmarshalCarModel (data : List Char) (cm : CarModel) : Except Error CarModel :=
  match parseJSON data with
  | none => .error jsonSyntaxError
  | some (.object members) => CarModel.setFields members cm
  | some .null => .ok cm
  | some _ => .error jsonTypeError

/-- The record `new(api.CarModel)`. -/
def CarModel.zero : CarModel :=
  { Id := 0, Brand := [], Model := [], Price := 0, Status := 0, Mileage := 0 }

/-! ## The handlers (handlers.go) -/

/-- The local type `request` of the handlers `Create` and `Update`. -/
structure request where
  Brand : ByteString
  Model : ByteString
  Price : Int
  Status : Status
  Mileage : Int
deriving DecidableEq

/-- The value of `var req request`. -/
def request.zero : request :=
  { Brand := [], Model := [], Price := 0, Status := 0, Mileage := 0 }

/-- One member of an object decoded into a `request`. -/
def request.setField (req : request) (key raw : List Char) (v : JSON) : Except Error request :=
  if keyIs "brand" key then (storeString v req.Brand).map (fun x => { req with Brand := x })
  else if keyIs "model" key then
    (storeString v req.Model).map (fun x => { req with Model := x })
  else if keyIs "price" key then (storeInt v req.Price).map (fun x => { req with Price := x })
  else if keyIs "status" key then
    (storeStatus raw req.Status).map (fun x => { req with Status := x })
  else if keyIs "mileage" key then
    (storeInt v req.Mileage).map (fun x => { req with Mileage := x })
  else .ok req

/-- The members of an object decoded into a `request`, in the order of the text. -/
def request.setFields : List (List Char × List Char × JSON) → request → Except Error request
  | [], req => .ok req
  | (key, raw, v) :: rest, req =>
    match request.setField req key raw v with
    | .error err => .error err
    | .ok req1 => request.setFields rest req1

/-- The library call `json.Unmarshal(bytes, &req)`. -/
def jsonUnmarshalRequest (data : List Char) (req : request) : Except Error request :=
  match parseJSON data with
  | none => .error jsonSyntaxError
  | some (.object members) => request.setFields members req
  | some .null => .ok req
  | some _ => .error jsonTypeError

/-- The response as `httptest.ResponseRecorder` records it: status code and body. -/
structure ResponseRecorder where
  Code : Nat
  Body : List Char
deriving DecidableEq

/-- The library call `httptest.NewRecorder()`. -/
def NewRecorder : ResponseRecorder := { Code := 200, Body := [] }

def ResponseRecorder.WriteHeader (w : ResponseRecorder) (code : Nat) : ResponseRecorder :=
  { w with Code := code }

def ResponseRecorder.Write (w : ResponseRecorder) (b : List Char) : ResponseRecorder :=
  { w with Body := w.Body ++ b }

/-- The library call `http.Error(w, error, code)`: the status code, then the text as a line
(`fmt.Fprintln(w, error)`). -/
def httpError (w : ResponseRecorder) (error : String) (code : Nat) : ResponseRecorder :=
  (w.WriteHeader code).Write (error.data ++ ['\n'])

def StatusOK : Nat := 200
def StatusAccepted : Nat := 202
def StatusNoContent : Nat := 204
def StatusBadRequest : Nat := 400
def StatusUnprocessableEntity : Nat := 422
def StatusInternalServerError : Nat := 500

/-- The function `func handleErrors(w http.ResponseWriter, err error)`. -/
def handleErrors (w : ResponseRecorder) (err : Error) : ResponseRecorder :=
  httpError w err.Error StatusInternalServerError

/-- The request as far as the handlers read it: what `ioutil.ReadAll(r.Body)` returns and the
route variables `mux.Vars(r)`. -/
structure Request where
  Body : List Char × Option Error
  Vars : List (String × String)

/-- The type `Server` of server.go as far as the handlers use it: the store. -/
structure Server (σ : Type) where
  DB : DB σ

/-- The handler `func (s *Server) List()`: the response and the store after the call. -/
def Server.List {σ : Type} (s : Server σ) (st : σ) (w : ResponseRecorder) (_r : Request) :
    ResponseRecorder × σ :=
  match s.DB.List st with
  | ((_, some err), st1) => (handleErrors w err, st1)
  | ((cms, none), st1) =>
    match jsonMarshalSlice cms with
    | (_, some err) => (handleErrors w err, st1)
    | (json, none) => ((w.WriteHeader StatusOK).Write json, st1)

/-- The handler `func (s *Server) Get()`. -/
def Server.Get {σ : Type} (s : Server σ) (st : σ) (w : ResponseRecorder) (r : Request) :
    ResponseRecorder × σ :=
  match strconvAtoi (mapIndex r.Vars "id" "") with
  | none => (httpError w "bad \x27id\x27 url argument" StatusBadRequest, st)
  | some id =>
    match s.DB.Get st id with
    | ((_, some err), st1) => (handleErrors w err, st1)
    | ((cm, none), st1) =>
      match jsonMarshalRecord cm with
      | (_, some err) => (handleErrors w err, st1)
      | (json, none) => ((w.WriteHeader StatusOK).Write json, st1)

/-- The handler `func (s *Server) Create()`. -/
def Server.Create {σ : Type} (s : Server σ) (st : σ) (w : ResponseRecorder) (r : Request) :
    ResponseRecorder × σ :=
  match r.Body with
  | (_, some err) => (handleErrors w err, st)
  | (bytes, none) =>
    match jsonUnmarshalRequest bytes request.zero with
    | .error err => (httpError w err.Error StatusUnprocessableEntity, st)
    | .ok req =>
      match s.DB.Create st req.Brand req.Model req.Price req.Status req.Mileage with
      | ((_, some err), st1) => (handleErrors w err, st1)
      | ((cm, none), st1) =>
        match jsonMarshalRecord cm with
        | (_, some err) => (handleErrors w err, st1)
        | (json, none) => ((w.WriteHeader StatusAccepted).Write json, st1)

/-- The handler `func (s *Server) Update()`. The call of the store passes `req.Brand` in the
place of the brand and in the place of the model, as the source does. -/
def Server.Update {σ : Type} (s : Server σ) (st : σ) (w : ResponseRecorder) (r : Request) :
    ResponseRecorder × σ :=
  match r.Body with
  | (_, some err) => (handleErrors w err, st)
  | (bytes, none) =>
    match jsonUnmarshalRequest bytes request.zero with
    | .error err => (httpError w err.Error StatusUnprocessableEntity, st)
    | .ok req =>
      match strconvAtoi (mapIndex r.Vars "id" "") with
      | none => (httpError w "bad \x27id\x27 url argument" StatusBadRequest, st)
      | some id =>
        match s.DB.Update st id req.Brand req.Brand req.Price req.Status req.Mileage with
        | ((_, some err), st1) => (handleErrors w err, st1)
        | ((cm, none), st1) =>
          match jsonMarshalRecord cm with
          | (_, some err) => (handleErrors w err, st1)
          | (json, none) => ((w.WriteHeader StatusAccepted).Write json, st1)

/-- The handler `func (s *Server) Delete()`. -/
def Server.Delete {σ : Type} (s : Server σ) (st : σ) (w : ResponseRecorder) (r : Request) :
    ResponseRecorder × σ :=
  match strconvAtoi (mapIndex r.Vars "id" "") with
  | none => (httpError w "bad \x27id\x27 url argument" StatusBadRequest, st)
  | some id =>
    match s.DB.Delete st id with
    | (some err, st1) => (handleErrors w err, st1)
    | (none, st1) => (w.WriteHeader StatusNoContent, st1)

/-! ## The store of the handler tests (server_test.go) -/

/-- The 25 calls of `push` in `setupDB()`. The test draws the texts (16 letters each), the
price factor (below 256), the status (below 4) and the mileage (below 256) at random; fixed
values of the same kinds stand for the draws. The price of the first record is 0 whatever the
draw, since the factor is multiplied by the index. -/
def setupOps : List mockOp :=
  (List.range 25).map (fun i =>
    mockOp.push (utf8 "QwErTyUiOpAsDfGh") (utf8 "zXcVbNmLkJhGfDsA")
      (((i * 5 + 3) % 256 * i * 1000 : Nat) : Int)
      (((i + 2) % 4 : Nat) : Int) (((i * 11 + 37) % 256 : Nat) : Int))

/-- The store `setupDB()` returns. -/
def setupDB : mockDB := mockRun setupOps

/-- The server `setupServer(db)` returns. -/
def setupServer : Server mockDB := { DB := mockDB.asDB }

/-- The body of the request in `TestServer_Create` and `TestServer_Update`. -/
def testBody : List Char :=
  ("\x7b\"brand\": \"brand\", \"model\": \"model\", \"price\": 123456, " ++
   "\"status\": \"В пути\", \"mileage\": 123456\x7d").data


/-! ## Theorems -/

/-! ### The in-memory store: search, invariant -/

theorem wrapInt64_of_inInt64 (x : Int) (h : inInt64 x) : wrapInt64 x = x := by
  unfold inInt64 at h
  unfold wrapInt64
  have h1 : (x + 2 ^ 63) % 2 ^ 64 = x + 2 ^ 63 := by
    apply Int.emod_eq_of_lt <;> omega
  omega

theorem wrapInt64_inInt64 (x : Int) : inInt64 (wrapInt64 x) := by
  unfold inInt64 wrapInt64
  have h1 : 0 ≤ (x + 2 ^ 63) % 2 ^ 64 := Int.emod_nonneg _ (by norm_num)
  have h2 : (x + 2 ^ 63) % 2 ^ 64 < 2 ^ 64 := Int.emod_lt_of_pos _ (by norm_num)
  constructor <;> omega

/-- When no record has the id, the search reports `ErrNotFound`. -/
theorem findFrom_absent (id : Int) (cms : List CarModel) (k : Int)
    (h : ∀ cm ∈ cms, cm.Id ≠ id) :
    mockDB.findFrom id cms k = (-1, none, some Error.ErrNotFound) := by
  induction cms generalizing k with
  | nil => rfl
  | cons cm rest ih =>
    have hcm : cm.Id ≠ id := h cm (List.mem_cons_self _ _)
    have hrest : ∀ x ∈ rest, x.Id ≠ id := fun x hx => h x (List.mem_cons_of_mem _ hx)
    simp [mockDB.findFrom, hcm, ih _ hrest]

/-- When a record has the id, the search returns the first such record and its position. -/
theorem findFrom_present (id : Int) (cms : List CarModel) (k : Int)
    (h : ∃ cm ∈ cms, cm.Id = id) :
    ∃ l1 cm l2, cms = l1 ++ cm :: l2 ∧ cm.Id = id ∧ (∀ x ∈ l1, x.Id ≠ id) ∧
      mockDB.findFrom id cms k = (k + l1.length, some cm, none) := by
  induction cms generalizing k with
  | nil => simp at h
  | cons c rest ih =>
    by_cases hc : c.Id = id
    · exact ⟨[], c, rest, rfl, hc, by simp, by simp [mockDB.findFrom, hc]⟩
    · have hrest : ∃ cm ∈ rest, cm.Id = id := by
        obtain ⟨cm, hmem, hid⟩ := h
        rcases List.mem_cons.mp hmem with rfl | hmem
        · exact absurd hid hc
        · exact ⟨cm, hmem, hid⟩
      obtain ⟨l1, cm, l2, hsplit, hid, hl1, hfind⟩ := ih (k + 1) hrest
      refine ⟨c :: l1, cm, l2, by simp [hsplit], hid, ?_, ?_⟩
      · intro x hx
        rcases List.mem_cons.mp hx with rfl | hx
        · exact hc
        · exact hl1 x hx
      · simp [mockDB.findFrom, hc, hfind]
        omega

theorem findFrom_cases (id : Int) (cms : List CarModel) (k : Int) :
    ((∀ cm ∈ cms, cm.Id ≠ id) ∧ mockDB.findFrom id cms k = (-1, none, some Error.ErrNotFound)) ∨
    (∃ l1 cm l2, cms = l1 ++ cm :: l2 ∧ cm.Id = id ∧ (∀ x ∈ l1, x.Id ≠ id) ∧
      mockDB.findFrom id cms k = (k + l1.length, some cm, none)) := by
  by_cases h : ∃ cm ∈ cms, cm.Id = id
  · exact Or.inr (findFrom_present id cms k h)
  · left
    have h1 : ∀ cm ∈ cms, cm.Id ≠ id := by
      intro cm hcm hid
      exact h ⟨cm, hcm, hid⟩
    exact ⟨h1, findFrom_absent id cms k h1⟩

theorem findFrom_split (id : Int) (l1 l2 : List CarModel) (cm : CarModel) (k : Int)
    (hid : cm.Id = id) (hl1 : ∀ x ∈ l1, x.Id ≠ id) :
    mockDB.findFrom id (l1 ++ cm :: l2) k = (k + l1.length, some cm, none) := by
  induction l1 generalizing k with
  | nil => simp [mockDB.findFrom, hid]
  | cons c rest ih =>
    have hc : c.Id ≠ id := hl1 c (List.mem_cons_self _ _)
    have hrest : ∀ x ∈ rest, x.Id ≠ id := fun x hx => hl1 x (List.mem_cons_of_mem _ hx)
    simp [mockDB.findFrom, hc, ih (k + 1) hrest]
    omega

/-- The call `Delete` of the last record: the slice loses it. -/
theorem mockDelete_last (l1 : List CarModel) (cm : CarModel) (n id : Int)
    (hid : cm.Id = id) (hl1 : ∀ x ∈ l1, x.Id ≠ id) :
    mockDB.Delete ⟨l1 ++ [cm], n⟩ id = (none, ⟨l1, n⟩) := by
  have hfind := findFrom_split id l1 [] cm 0 hid hl1
  simp only [mockDB.Delete, mockDB.find, hfind]
  simp

/-- The call `Delete` of a record that is not the last: the last record takes its place. -/
theorem mockDelete_inner (l1 l2 : List CarModel) (cm b : CarModel) (n id : Int)
    (hid : cm.Id = id) (hl1 : ∀ x ∈ l1, x.Id ≠ id) :
    mockDB.Delete ⟨l1 ++ cm :: (l2 ++ [b]), n⟩ id = (none, ⟨l1 ++ b :: l2, n⟩) := by
  have hfind := findFrom_split id l1 (l2 ++ [b]) cm 0 hid hl1
  simp only [mockDB.Delete, mockDB.find, hfind]
  simp
  have h1 : (l1 ++ cm :: (l2 ++ [b]))[l1.length + (l2.length + 1)]? = some b := by
    rw [List.getElem?_append_right (by omega)]
    simp
  have h2 : l1.length + (l2.length + 1) < (l1 ++ cm :: (l2 ++ [b])).length := by simp
  have h3 := List.getElem?_eq_getElem h2
  rw [h3] at h1
  have h4 := Option.some.inj h1
  rw [h4, List.dropLast_cons_of_ne_nil (by simp), List.dropLast_concat]

theorem mockInv_push (db : mockDB) (brand model : ByteString) (price : Int) (status : Status)
    (mileage : Int) (h : mockInv db) (hlt : db.LastID < 2 ^ 63 - 1) :
    mockInv (mockDB.push db brand model price status mileage).2 ∧
      (mockDB.push db brand model price status mileage).2.LastID = db.LastID + 1 := by
  obtain ⟨h0, hmem, hnd⟩ := h
  have hw : wrapInt64 (db.LastID + 1) = db.LastID + 1 :=
    wrapInt64_of_inInt64 _ (by unfold inInt64; constructor <;> omega)
  refine ⟨⟨?_, ?_, ?_⟩, ?_⟩
  · simp only [mockDB.push, hw]; omega
  · intro cm hcm
    simp only [mockDB.push, hw, List.mem_append, List.mem_singleton] at hcm ⊢
    rcases hcm with hcm | rfl
    · have := hmem cm hcm
      constructor <;> omega
    · simp only
      constructor <;> omega
  · simp only [mockDB.push, List.map_append, List.map_cons, List.map_nil]
    rw [List.nodup_append]
    refine ⟨hnd, List.nodup_singleton _, ?_⟩
    intro a ha hb
    simp only [List.mem_singleton] at hb
    subst hb
    obtain ⟨cm, hcm, hid⟩ := List.mem_map.mp ha
    have := (hmem cm hcm).2
    omega
  · simp only [mockDB.push, hw]

theorem mockInv_update (db : mockDB) (id : Int) (brand model : ByteString) (price : Int)
    (status : Status) (mileage : Int) (h : mockInv db) :
    mockInv (mockDB.Update db id brand model price status mileage).2 ∧
      (mockDB.Update db id brand model price status mileage).2.LastID = db.LastID := by
  unfold mockDB.Update
  split
  · exact ⟨h, rfl⟩
  split
  · exact ⟨h, rfl⟩
  rcases findFrom_cases id db.CarModels 0 with ⟨_, hfind⟩ | ⟨l1, cm, l2, hsplit, hid, hl1, hfind⟩
  · simp only [mockDB.find, hfind]
    exact ⟨h, trivial⟩
  · simp only [mockDB.find, hfind]
    obtain ⟨h0, hmem, hnd⟩ := h
    have hset : db.CarModels.set (0 + (l1.length : Int)).toNat
        { cm with Brand := brand, Model := model, Price := price, Status := status,
                  Mileage := mileage } =
        l1 ++ { cm with Brand := brand, Model := model, Price := price, Status := status,
                        Mileage := mileage } :: l2 := by
      rw [hsplit]
      simp
    refine ⟨⟨h0, ?_, ?_⟩, trivial⟩
    · intro x hx
      simp only [hset, List.mem_append, List.mem_cons] at hx
      rcases hx with hx | rfl | hx
      · exact hmem x (by rw [hsplit]; simp [hx])
      · exact hmem cm (by rw [hsplit]; simp)
      · exact hmem x (by rw [hsplit]; simp [hx])
    · simp only [hset]
      rw [hsplit] at hnd
      simpa using hnd

theorem mockInv_delete (db : mockDB) (id : Int) (h : mockInv db) :
    mockInv (mockDB.Delete db id).2 ∧ (mockDB.Delete db id).2.LastID = db.LastID := by
  obtain ⟨cms, n⟩ := db
  rcases findFrom_cases id cms 0 with ⟨_, hfind⟩ | ⟨l1, cm, l2, hsplit, hid, hl1, _⟩
  · simp only [mockDB.Delete, mockDB.find, hfind]
    exact ⟨h, trivial⟩
  · obtain ⟨h0, hmem, hnd⟩ := h
    simp only at h0 hmem hnd
    subst hsplit
    rcases List.eq_nil_or_concat l2 with rfl | ⟨l3, b, rfl⟩
    · rw [mockDelete_last l1 cm n id hid hl1]
      refine ⟨⟨h0, ?_, ?_⟩, rfl⟩
      · intro x hx
        exact hmem x (by simp at hx ⊢; exact Or.inl hx)
      · simp only [List.map_append, List.map_cons, List.map_nil] at hnd ⊢
        exact (List.nodup_append.mp hnd).1
    · rw [List.concat_eq_append] at *
      rw [mockDelete_inner l1 l3 cm b n id hid hl1]
      refine ⟨⟨h0, ?_, ?_⟩, rfl⟩
      · intro x hx
        apply hmem x
        simp only [List.mem_append, List.mem_cons, List.mem_singleton] at hx ⊢
        tauto
      · simp only [List.map_append, List.map_cons, List.map_nil] at hnd ⊢
        have hperm : List.Perm (List.map (fun cm => cm.Id) l1 ++ b.Id :: List.map (fun cm => cm.Id) l3)
            (List.map (fun cm => cm.Id) l1 ++ (List.map (fun cm => cm.Id) l3 ++ [b.Id])) := by
          apply List.Perm.append_left
          exact (List.perm_append_singleton _ _).symm
        rw [hperm.nodup_iff]
        have hsub : List.Sublist
            (List.map (fun cm => cm.Id) l1 ++ (List.map (fun cm => cm.Id) l3 ++ [b.Id]))
            (List.map (fun cm => cm.Id) l1 ++
              cm.Id :: (List.map (fun cm => cm.Id) l3 ++ [b.Id])) :=
          List.Sublist.append_left (List.sublist_cons_self _ _) _
        exact hnd.sublist hsub

theorem mockInv_step (db : mockDB) (op : mockOp) (h : mockInv db) (hlt : db.LastID < 2 ^ 63 - 1) :
    mockInv (mockDB.step db op) ∧ (mockDB.step db op).LastID ≤ db.LastID + 1 := by
  cases op with
  | push brand model price status mileage =>
    have := mockInv_push db brand model price status mileage h hlt
    exact ⟨this.1, le_of_eq this.2⟩
  | Create brand model price status mileage =>
    simp only [mockDB.step, mockDB.Create]
    split
    · exact ⟨h, by simp⟩
    split
    · exact ⟨h, by simp⟩
    have := mockInv_push db brand model price status mileage h hlt
    exact ⟨this.1, le_of_eq this.2⟩
  | Update id brand model price status mileage =>
    have := mockInv_update db id brand model price status mileage h
    exact ⟨this.1, by simp only [mockDB.step]; omega⟩
  | Delete id =>
    have := mockInv_delete db id h
    exact ⟨this.1, by simp only [mockDB.step]; omega⟩

theorem mockRun_concat (ops : List mockOp) (op : mockOp) :
    mockRun (ops ++ [op]) = mockDB.step (mockRun ops) op := by
  simp [mockRun, List.foldl_append]

/-- Every store reached from the empty store in fewer than `2^63` calls satisfies the
invariant, and its counter has not passed the number of calls. -/
theorem mockInv_run (ops : List mockOp) (hlen : (ops.length : Int) < 2 ^ 63) :
    mockInv (mockRun ops) ∧ (mockRun ops).LastID ≤ ops.length := by
  induction ops using List.reverseRecOn with
  | nil =>
    refine ⟨⟨by simp [mockRun, mockDB.new], ?_, ?_⟩, ?_⟩ <;> simp [mockRun, mockDB.new]
  | append_singleton ops op ih =>
    simp only [List.length_append, List.length_singleton, Nat.cast_add, Nat.cast_one] at hlen ⊢
    have ih1 := ih (by omega)
    rw [mockRun_concat]
    have := mockInv_step (mockRun ops) op ih1.1 (by omega)
    exact ⟨this.1, by omega⟩

/-! ### The reference database: status argument, invariant -/

/-- The four variants have a label, which `Value` returns. -/
theorem Status_Value_labelled (status : Status)
    (hs : status ∈ [ontheway, stored, sold, withdrawnfromsale]) :
    Status.Value status = (DriverValue.string (mapIndex statusToString status ""), none) := by
  simp only [List.mem_cons, List.mem_singleton, List.not_mem_nil, or_false] at hs
  rcases hs with rfl | rfl | rfl | rfl <;> rfl

/-- Every other value of the type has no label, and `Value` returns its error. -/
theorem Status_Value_unlabelled (status : Status)
    (hs : status ∉ [ontheway, stored, sold, withdrawnfromsale]) :
    Status.Value status = (DriverValue.nil, some (Error.other "Wrong value for Status")) := by
  simp only [List.mem_cons, List.mem_singleton, List.not_mem_nil, or_false, not_or] at hs
  obtain ⟨h0, h1, h2, h3⟩ := hs
  have hl : statusToString.lookup status = none := by
    simp only [statusToString, List.lookup]
    rw [beq_eq_false_iff_ne.mpr h0, beq_eq_false_iff_ne.mpr h1, beq_eq_false_iff_ne.mpr h2,
      beq_eq_false_iff_ne.mpr h3]
  simp only [Status.Value, hl]

/-- An UPDATE or DELETE for an id that no row carries matches no row. -/
theorem filter_id_absent (rows : List TableRow) (id : Int) (h : ∀ r ∈ rows, r.id ≠ id) :
    rows.filter (fun r => r.id = id) = [] := by
  rw [List.filter_eq_nil_iff]
  intro r hr
  simpa using h r hr

/-- An UPDATE for an id that no row carries leaves every row as it is. -/
theorem map_update_absent (rows : List TableRow) (id : Int) (f : TableRow → TableRow)
    (h : ∀ r ∈ rows, r.id ≠ id) :
    rows.map (fun r => if r.id = id then f r else r) = rows := by
  induction rows with
  | nil => rfl
  | cons r rest ih =>
    have hr : r.id ≠ id := h r (List.mem_cons_self _ _)
    have hrest : ∀ x ∈ rest, x.id ≠ id := fun x hx => h x (List.mem_cons_of_mem _ hx)
    simp only [List.map_cons, hr, if_false, ih hrest]

/-- The state a call of `PSQLdb.Create` leaves is the one it was given or the one the INSERT
statement left. -/
theorem PSQLdb_Create_state {σ : Type} (pool : Pool σ) (s : σ) (brand model : ByteString)
    (price : Int) (status : Status) (mileage : Int) :
    (PSQLdb.Create pool s brand model price status mileage).2 = s ∨
    (PSQLdb.Create pool s brand model price status mileage).2
      = (pool.insertReturningId s brand model price status mileage).2 := by
  unfold PSQLdb.Create
  split
  · exact Or.inl rfl
  split
  · exact Or.inl rfl
  right
  split <;> simp [*]

/-- The state a call of `PSQLdb.Update` leaves is the one it was given or the one the UPDATE
statement left. -/
theorem PSQLdb_Update_state {σ : Type} (pool : Pool σ) (s : σ) (id : Int)
    (brand model : ByteString) (price : Int) (status : Status) (mileage : Int) :
    (PSQLdb.Update pool s id brand model price status mileage).2 = s ∨
    (PSQLdb.Update pool s id brand model price status mileage).2
      = (pool.execUpdate s brand model price status mileage id).2 := by
  unfold PSQLdb.Update
  split
  · exact Or.inl rfl
  split
  · exact Or.inl rfl
  right
  split
  · simp [*]
  · split <;> simp [*]

/-- The state a call of `PSQLdb.Delete` leaves is the one the DELETE statement left. -/
theorem PSQLdb_Delete_state {σ : Type} (pool : Pool σ) (s : σ) (id : Int) :
    (PSQLdb.Delete pool s id).2 = (pool.execDelete s id).2 := by
  unfold PSQLdb.Delete
  split
  · simp [*]
  · split <;> simp [*]

/-- The INSERT of the reference database leaves the table as it is or appends one row whose id
is the next value of the sequence. -/
theorem pgTable_insert_state (t : Table) (brand model : ByteString) (price : Int)
    (status : Status) (mileage : Int) :
    (pgTable.insertReturningId t brand model price status mileage).2 = t ∨
    ∃ label, (pgTable.insertReturningId t brand model price status mileage).2
      = ⟨t.rows ++ [⟨t.nextId, brand, model, price, label, mileage⟩], t.nextId + 1⟩ := by
  simp only [pgTable]
  split
  · split
    · exact Or.inl rfl
    · exact Or.inr ⟨_, rfl⟩
  · exact Or.inl rfl
  · exact Or.inl rfl

/-- The UPDATE of the reference database keeps the sequence and the id of every row. -/
theorem pgTable_update_state (t : Table) (id : Int) (brand model : ByteString) (price : Int)
    (status : Status) (mileage : Int) :
    (pgTable.execUpdate t brand model price status mileage id).2.nextId = t.nextId ∧
    (pgTable.execUpdate t brand model price status mileage id).2.rows.map (fun r => r.id)
      = t.rows.map (fun r => r.id) := by
  simp only [pgTable]
  split
  · refine ⟨rfl, ?_⟩
    simp only [List.map_map]
    apply List.map_congr_left
    intro r _
    simp only [Function.comp]
    split <;> rfl
  · exact ⟨rfl, rfl⟩
  · exact ⟨rfl, rfl⟩

theorem tableInv_of_ids (t t1 : Table) (n : Nat) (h : tableInv t n)
    (hn : t1.nextId = t.nextId)
    (hids : ∀ r ∈ t1.rows, ∃ r0 ∈ t.rows, r.id = r0.id) : tableInv t1 (n + 1) := by
  obtain ⟨h1, h2, h3⟩ := h
  refine ⟨by omega, by push_cast; omega, ?_⟩
  intro r hr
  obtain ⟨r0, hr0, he⟩ := hids r hr
  have := h3 r0 hr0
  omega

/-- One call of `PSQLdb` keeps the invariant of the reference database. -/
theorem tableInv_step (t : Table) (op : tableOp) (n : Nat) (h : tableInv t n) :
    tableInv (tableStep t op) (n + 1) := by
  have hkeep : tableInv t (n + 1) :=
    tableInv_of_ids t t n h rfl (fun r hr => ⟨r, hr, rfl⟩)
  cases op with
  | Create brand model price status mileage =>
    simp only [tableStep]
    rcases PSQLdb_Create_state pgTable t brand model price status mileage with hs | hs
    · rw [hs]; exact hkeep
    · rw [hs]
      rcases pgTable_insert_state t brand model price status mileage with hi | ⟨label, hi⟩
      · rw [hi]; exact hkeep
      · rw [hi]
        obtain ⟨h1, h2, h3⟩ := h
        refine ⟨by simp only; omega, by simp only; push_cast; omega, ?_⟩
        intro r hr
        simp only [List.mem_append, List.mem_singleton] at hr
        rcases hr with hr | rfl
        · have := h3 r hr
          simp only
          omega
        · simp only
          omega
  | Update id brand model price status mileage =>
    simp only [tableStep]
    rcases PSQLdb_Update_state pgTable t id brand model price status mileage with hs | hs
    · rw [hs]; exact hkeep
    · rw [hs]
      obtain ⟨hn, hids⟩ := pgTable_update_state t id brand model price status mileage
      apply tableInv_of_ids t _ n h hn
      intro r hr
      have hm : r.id ∈ (pgTable.execUpdate t brand model price status mileage id).2.rows.map
          (fun r => r.id) := List.mem_map_of_mem _ hr
      rw [hids] at hm
      obtain ⟨r0, hr0, he⟩ := List.mem_map.mp hm
      exact ⟨r0, hr0, he.symm⟩
  | Delete id =>
    simp only [tableStep]
    rw [PSQLdb_Delete_state]
    refine tableInv_of_ids t (pgTable.execDelete t id).2 n h rfl ?_
    intro r hr
    exact ⟨r, List.mem_of_mem_filter hr, rfl⟩

theorem tableRun_concat (ops : List tableOp) (op : tableOp) :
    tableRun (ops ++ [op]) = tableStep (tableRun ops) op := by
  simp [tableRun, List.foldl_append]

/-- Every table reached from the empty table satisfies the invariant. -/
theorem tableInv_run (ops : List tableOp) : tableInv (tableRun ops) ops.length := by
  induction ops using List.reverseRecOn with
  | nil => exact ⟨by decide, by decide, by simp [tableRun, emptyTable]⟩
  | append_singleton ops op ih =>
    rw [tableRun_concat, List.length_append, List.length_singleton]
    exact tableInv_step _ _ _ ih
/-! ### The storage contract: validation, creation, lookup, update of an absent record -/

/-- C1: `Create` and `Update`, of the relational store over any connection pool and of the
in-memory store, return `ErrBadPrice` with no record when `price < 0` (whatever the mileage),
return `ErrBadMileage` with no record when `0 ≤ price` and `mileage < 0`, and in both cases the
store is the one they were called on: no statement reaches the pool, no record is pushed. -/
theorem C1_invalid_price_or_mileage_rejected {σ : Type} (pool : Pool σ) (s : σ) (db : mockDB)
    (id : Int) (brand model : ByteString) (price : Int) (status : Status) (mileage : Int) :
    (price < 0 →
      PSQLdb.Create pool s brand model price status mileage
        = ((none, some Error.ErrBadPrice), s) ∧
      PSQLdb.Update pool s id brand model price status mileage
        = ((none, some Error.ErrBadPrice), s) ∧
      mockDB.Create db brand model price status mileage
        = ((none, some Error.ErrBadPrice), db) ∧
      mockDB.Update db id brand model price status mileage
        = ((none, some Error.ErrBadPrice), db)) ∧
    (0 ≤ price → mileage < 0 →
      PSQLdb.Create pool s brand model price status mileage
        = ((none, some Error.ErrBadMileage), s) ∧
      PSQLdb.Update pool s id brand model price status mileage
        = ((none, some Error.ErrBadMileage), s) ∧
      mockDB.Create db brand model price status mileage
        = ((none, some Error.ErrBadMileage), db) ∧
      mockDB.Update db id brand model price status mileage
        = ((none, some Error.ErrBadMileage), db)) := by
  constructor
  · intro hp
    simp [PSQLdb.Create, PSQLdb.Update, mockDB.Create, mockDB.Update, hp]
  · intro hp hm
    have hp1 : ¬ price < 0 := by omega
    simp [PSQLdb.Create, PSQLdb.Update, mockDB.Create, mockDB.Update, hp1, hm]

/-- C1, at a negative price with a negative mileage (the price error wins), on the reference
table with one row and on an in-memory store with one record. -/
theorem C1_invalid_price_or_mileage_rejected_witness :
    (-5 : Int) < 0 ∧
    PSQLdb.Create pgTable ⟨[⟨1, utf8 "a", utf8 "b", 10, "Продан", 20⟩], 2⟩ (utf8 "brand") (utf8 "model") (-5) sold (-7)
      = ((none, some Error.ErrBadPrice), ⟨[⟨1, utf8 "a", utf8 "b", 10, "Продан", 20⟩], 2⟩) ∧
    mockDB.Update ⟨[⟨0, utf8 "a", utf8 "b", 10, sold, 20⟩], 1⟩ 0 (utf8 "brand") (utf8 "model") (-5) sold (-7)
      = ((none, some Error.ErrBadPrice), ⟨[⟨0, utf8 "a", utf8 "b", 10, sold, 20⟩], 1⟩) :=
  have h := (C1_invalid_price_or_mileage_rejected pgTable
    ⟨[⟨1, utf8 "a", utf8 "b", 10, "Продан", 20⟩], 2⟩ ⟨[⟨0, utf8 "a", utf8 "b", 10, sold, 20⟩], 1⟩ 0
    (utf8 "brand") (utf8 "model") (-5) sold (-7)).1 (by decide)
  ⟨by decide, h.1, h.2.2.2⟩

/-- C2 as stated fails for the relational store: a status that is none of the four variants
has no label, `Status.Value` returns its error for it, and `Create` with a price and a mileage
that are not negative returns that error with no record and stores nothing. The in-memory
store accepts the same call. -/
theorem C2_create_rejects_unlabelled_status :
    (0 : Int) ≤ 10 ∧ (0 : Int) ≤ 20 ∧
    PSQLdb.Create pgTable emptyTable (utf8 "brand") (utf8 "model") 10 4 20
      = ((none, some (Error.other "Wrong value for Status")), emptyTable) ∧
    PSQLdb.Create pgTable ⟨[⟨1, utf8 "a", utf8 "b", 10, "Продан", 20⟩], 2⟩
        (utf8 "brand") (utf8 "model") 10 (-1) 20
      = ((none, some (Error.other "Wrong value for Status")),
         ⟨[⟨1, utf8 "a", utf8 "b", 10, "Продан", 20⟩], 2⟩) ∧
    (mockDB.Create mockDB.new (utf8 "brand") (utf8 "model") 10 4 20).1
      = (some ⟨0, utf8 "brand", utf8 "model", 10, 4, 20⟩, none) := by
  decide

/-- C2, amended: for `0 ≤ price` and `0 ≤ mileage`, `Create` succeeds and returns a record
carrying the five inputs and an id that no stored record carries. Relational store, run on the
reference database in every table reached from the empty table by fewer than `2^63 - 1` calls
of Create, Update and Delete: for a status that is one of the four variants the id is the next
value of the sequence, which no row carries, and the row is appended with the label of the
status; for any other status `Create` returns the error of `Status.Value` and the table is
unchanged. In-memory store, in every state reached from the empty store in fewer than `2^63`
calls of push, Create, Update and Delete, for every status: the id is the counter `LastID`,
which no stored record carries, and the record is appended to the store. -/
theorem C2_create_returns_inputs_with_fresh_id (brand model : ByteString) (price : Int)
    (status : Status) (mileage : Int) (hprice : 0 ≤ price) (hmileage : 0 ≤ mileage) :
    (∀ ops : List tableOp, (ops.length : Int) < 2 ^ 63 - 1 →
      (status ∈ [ontheway, stored, sold, withdrawnfromsale] →
        PSQLdb.Create pgTable (tableRun ops) brand model price status mileage
          = ((some ⟨(tableRun ops).nextId, brand, model, price, status, mileage⟩, none),
             ⟨(tableRun ops).rows ++
                [⟨(tableRun ops).nextId, brand, model, price,
                  mapIndex statusToString status "", mileage⟩],
              (tableRun ops).nextId + 1⟩) ∧
        ∀ r ∈ (tableRun ops).rows, r.id ≠ (tableRun ops).nextId) ∧
      (status ∉ [ontheway, stored, sold, withdrawnfromsale] →
        PSQLdb.Create pgTable (tableRun ops) brand model price status mileage
          = ((none, some (Error.other "Wrong value for Status")), tableRun ops))) ∧
    (∀ ops : List mockOp, (ops.length : Int) < 2 ^ 63 →
      mockDB.Create (mockRun ops) brand model price status mileage
        = ((some ⟨(mockRun ops).LastID, brand, model, price, status, mileage⟩, none),
           ⟨(mockRun ops).CarModels ++
              [⟨(mockRun ops).LastID, brand, model, price, status, mileage⟩],
            wrapInt64 ((mockRun ops).LastID + 1)⟩) ∧
      ∀ cm ∈ (mockRun ops).CarModels, cm.Id ≠ (mockRun ops).LastID) := by
  have hp : ¬ price < 0 := by omega
  have hm : ¬ mileage < 0 := by omega
  constructor
  · intro ops hlen
    obtain ⟨h1, h2, h3⟩ := tableInv_run ops
    constructor
    · intro hs
      have hseq : ¬ maxSequenceValue < (tableRun ops).nextId := by
        unfold maxSequenceValue
        omega
      constructor
      · simp only [PSQLdb.Create, hp, hm, if_false, pgTable, Status_Value_labelled status hs,
          hseq]
      · intro r hr
        have := (h3 r hr).2
        omega
    · intro hs
      simp only [PSQLdb.Create, hp, hm, if_false, pgTable, Status_Value_unlabelled status hs]
  · intro ops hlen
    constructor
    · simp [mockDB.Create, mockDB.push, hp, hm]
    · intro cm hcm
      have hinv := (mockInv_run ops hlen).1
      have := (hinv.2.1 cm hcm).2
      omega

/-- C2, amended, on the table reached by three calls of `Create` and the deletion of the
second row, and on the in-memory store reached by three pushes and the deletion of the first
record: the new record carries the inputs and the id 4, respectively 3, which no stored
record has. -/
theorem C2_create_returns_inputs_with_fresh_id_witness :
    (PSQLdb.Create pgTable
        (tableRun [.Create (utf8 "a") (utf8 "b") 1 sold 2, .Create (utf8 "c") (utf8 "d") 3 stored 4,
          .Create (utf8 "e") (utf8 "f") 5 sold 6, .Delete 2])
        (utf8 "brand") (utf8 "model") 123456 stored 7).1
      = (some ⟨4, utf8 "brand", utf8 "model", 123456, stored, 7⟩, none) ∧
    (PSQLdb.Create pgTable
        (tableRun [.Create (utf8 "a") (utf8 "b") 1 sold 2, .Create (utf8 "c") (utf8 "d") 3 stored 4,
          .Create (utf8 "e") (utf8 "f") 5 sold 6, .Delete 2])
        (utf8 "brand") (utf8 "model") 123456 stored 7).2.rows.map (fun r => (r.id, r.status))
      = [(1, "Продан"), (3, "Продан"), (4, "На складе")] ∧
    (mockDB.Create (mockRun [.push (utf8 "a") (utf8 "b") 1 sold 2,
        .push (utf8 "c") (utf8 "d") 3 stored 4, .push (utf8 "e") (utf8 "f") 5 sold 6, .Delete 0])
        (utf8 "brand") (utf8 "model") 123456 stored 7).1
      = (some ⟨3, utf8 "brand", utf8 "model", 123456, stored, 7⟩, none) ∧
    (mockRun [.push (utf8 "a") (utf8 "b") 1 sold 2, .push (utf8 "c") (utf8 "d") 3 stored 4,
        .push (utf8 "e") (utf8 "f") 5 sold 6, .Delete 0]).CarModels.map (fun cm => cm.Id)
      = [2, 1] := by
  have h := C2_create_returns_inputs_with_fresh_id (utf8 "brand") (utf8 "model") 123456 stored 7
    (by decide) (by decide)
  have h1 := ((h.1 [.Create (utf8 "a") (utf8 "b") 1 sold 2,
    .Create (utf8 "c") (utf8 "d") 3 stored 4, .Create (utf8 "e") (utf8 "f") 5 sold 6, .Delete 2]
    (by decide)).1 (by decide)).1
  have h2 := (h.2 [.push (utf8 "a") (utf8 "b") 1 sold 2, .push (utf8 "c") (utf8 "d") 3 stored 4,
    .push (utf8 "e") (utf8 "f") 5 sold 6, .Delete 0] (by decide)).1
  rw [h1, h2]
  decide

/-- Whatever error `Scan` reports for the query of `PSQLdb.Get`, `Get` returns that very error
with no record; it never replaces it by `ErrNotFound`. -/
theorem PSQLdb_Get_returns_scan_error {σ : Type} (pool : Pool σ) (s : σ) (id : Int) (err : Error)
    (h : pool.selectById s id = .error err) :
    PSQLdb.Get pool s id = ((none, some err), s) := by
  simp [PSQLdb.Get, h]

/-- When the query of `PSQLdb.Get` yields a row whose status column holds a string, `Get`
returns the row as a record, the status read through `Status.Scan`. -/
theorem PSQLdb_Get_returns_row {σ : Type} (pool : Pool σ) (s : σ) (id : Int) (row : Row)
    (label : String) (h : pool.selectById s id = .ok row)
    (hstatus : row.status = DriverValue.string label) :
    PSQLdb.Get pool s id
      = ((some ⟨row.id, row.brand, row.model, row.price, mapIndex stringToStatus label 0,
                row.mileage⟩, none), s) := by
  simp [PSQLdb.Get, h, scanRow, Status.Scan, hstatus]

/-- In the in-memory store `Get` returns the first record with the id when there is one, and
`ErrNotFound` with no record when there is none; the store is unchanged. -/
theorem mockDB_Get_spec (db : mockDB) (id : Int) :
    ((∀ cm ∈ db.CarModels, cm.Id ≠ id) →
      mockDB.Get db id = ((none, some Error.ErrNotFound), db)) ∧
    ((∃ cm ∈ db.CarModels, cm.Id = id) →
      ∃ cm ∈ db.CarModels, cm.Id = id ∧ mockDB.Get db id = ((some cm, none), db)) := by
  constructor
  · intro h
    simp [mockDB.Get, mockDB.find, findFrom_absent id db.CarModels 0 h]
  · intro h
    obtain ⟨l1, cm, l2, hsplit, hid, _, hfind⟩ := findFrom_present id db.CarModels 0 h
    refine ⟨cm, by rw [hsplit]; simp, hid, ?_⟩
    simp [mockDB.Get, mockDB.find, hfind]

/-- C4: `PSQLdb.Get` hands back the error of `Scan` as it is. For an id that no row carries the
driver reports `pgx.ErrNoRows`, so `Get` returns that error and not `ErrNotFound`; `Update` and
`Delete` of the same store, and `Get` of the in-memory store, return `ErrNotFound` there. -/
theorem C4_psql_get_absent_is_not_ErrNotFound :
    PSQLdb.Get pgTable ⟨[⟨1, utf8 "a", utf8 "b", 10, "Продан", 20⟩], 2⟩ 7
      = ((none, some (Error.other "no rows in result set")),
         ⟨[⟨1, utf8 "a", utf8 "b", 10, "Продан", 20⟩], 2⟩) ∧
    Error.other "no rows in result set" ≠ Error.ErrNotFound ∧
    (PSQLdb.Update pgTable ⟨[⟨1, utf8 "a", utf8 "b", 10, "Продан", 20⟩], 2⟩ 7 (utf8 "a") (utf8 "b") 10 sold 20).1
      = (none, some Error.ErrNotFound) ∧
    (PSQLdb.Delete pgTable ⟨[⟨1, utf8 "a", utf8 "b", 10, "Продан", 20⟩], 2⟩ 7).1
      = some Error.ErrNotFound ∧
    (mockDB.Get ⟨[⟨1, utf8 "a", utf8 "b", 10, sold, 20⟩], 2⟩ 7).1 = (none, some Error.ErrNotFound) ∧
    (PSQLdb.Get pgTable ⟨[⟨1, utf8 "a", utf8 "b", 10, "Продан", 20⟩], 2⟩ 1).1
      = (some ⟨1, utf8 "a", utf8 "b", 10, sold, 20⟩, none) := by
  decide

/-- C5 as stated fails for the relational store: for a status that is none of the four
variants, `Update` with an id that no row carries returns the error of `Status.Value`, which
is not `ErrNotFound`; the table is unchanged. The in-memory store returns `ErrNotFound`. -/
theorem C5_update_unlabelled_status_not_ErrNotFound :
    (0 : Int) ≤ 5 ∧ (0 : Int) ≤ 6 ∧
    PSQLdb.Update pgTable ⟨[⟨1, utf8 "a", utf8 "b", 10, "Продан", 20⟩], 2⟩ 7
        (utf8 "brand") (utf8 "model") 5 4 6
      = ((none, some (Error.other "Wrong value for Status")),
         ⟨[⟨1, utf8 "a", utf8 "b", 10, "Продан", 20⟩], 2⟩) ∧
    Error.other "Wrong value for Status" ≠ Error.ErrNotFound ∧
    mockDB.Update ⟨[⟨1, utf8 "a", utf8 "b", 10, sold, 20⟩], 2⟩ 7
        (utf8 "brand") (utf8 "model") 5 4 6
      = ((none, some Error.ErrNotFound), ⟨[⟨1, utf8 "a", utf8 "b", 10, sold, 20⟩], 2⟩) := by
  decide

/-- C5, amended: for `0 ≤ price` and `0 ≤ mileage`, `Update` with an id that matches no record
returns no record and leaves the store exactly as it was. Relational store, run on the
reference database in every table without a row of that id: the error is `ErrNotFound` for a
status that is one of the four variants, and the error of `Status.Value` for any other status.
In-memory store, in every state without a record of that id and for every status: the error
is `ErrNotFound`. -/
theorem C5_update_absent_id_not_found (id : Int) (brand model : ByteString) (price : Int)
    (status : Status) (mileage : Int) (hprice : 0 ≤ price) (hmileage : 0 ≤ mileage) :
    (∀ t : Table, (∀ r ∈ t.rows, r.id ≠ id) →
      (status ∈ [ontheway, stored, sold, withdrawnfromsale] →
        PSQLdb.Update pgTable t id brand model price status mileage
          = ((none, some Error.ErrNotFound), t)) ∧
      (status ∉ [ontheway, stored, sold, withdrawnfromsale] →
        PSQLdb.Update pgTable t id brand model price status mileage
          = ((none, some (Error.other "Wrong value for Status")), t))) ∧
    (∀ db : mockDB, (∀ cm ∈ db.CarModels, cm.Id ≠ id) →
      mockDB.Update db id brand model price status mileage
        = ((none, some Error.ErrNotFound), db)) := by
  have hp : ¬ price < 0 := by omega
  have hm : ¬ mileage < 0 := by omega
  constructor
  · intro t habsent
    constructor
    · intro hs
      simp only [PSQLdb.Update, hp, hm, if_false, pgTable, Status_Value_labelled status hs,
        filter_id_absent t.rows id habsent, map_update_absent t.rows id _ habsent,
        List.length_nil, if_true]
    · intro hs
      simp only [PSQLdb.Update, hp, hm, if_false, pgTable, Status_Value_unlabelled status hs]
  · intro db habsent
    simp [mockDB.Update, mockDB.find, hp, hm, findFrom_absent id db.CarModels 0 habsent]

/-- C5, amended, for id 7 and the status `stored` on the reference table and on an in-memory
store, each holding one other record: `ErrNotFound`, and the store is the one given. -/
theorem C5_update_absent_id_not_found_witness :
    PSQLdb.Update pgTable ⟨[⟨1, utf8 "a", utf8 "b", 10, "Продан", 20⟩], 2⟩ 7
        (utf8 "brand") (utf8 "model") 5 stored 6
      = ((none, some Error.ErrNotFound), ⟨[⟨1, utf8 "a", utf8 "b", 10, "Продан", 20⟩], 2⟩) ∧
    mockDB.Update ⟨[⟨1, utf8 "a", utf8 "b", 10, sold, 20⟩], 2⟩ 7
        (utf8 "brand") (utf8 "model") 5 stored 6
      = ((none, some Error.ErrNotFound), ⟨[⟨1, utf8 "a", utf8 "b", 10, sold, 20⟩], 2⟩) :=
  have h := C5_update_absent_id_not_found 7 (utf8 "brand") (utf8 "model") 5 stored 6
    (by decide) (by decide)
  ⟨(h.1 _ (by decide)).1 (by decide), h.2 _ (by decide)⟩
/-! ### Decimal integers: writing and reading -/

theorem isDigit_iff (c : Char) : c.isDigit = true ↔ 48 ≤ c.toNat ∧ c.toNat ≤ 57 := by
  simp [Char.isDigit, Char.toNat, UInt32.le_def, Fin.le_def]
  rfl

theorem char_eq_of_toNat_eq (c d : Char) (h : c.toNat = d.toNat) : c = d := by
  have h1 := Char.ofNat_toNat c
  have h2 := Char.ofNat_toNat d
  rw [← h1, ← h2, h]

theorem digitChar_toNat (d : Nat) (h : d < 10) : (digitChar d).toNat = 48 + d := by
  interval_cases d <;> rfl

theorem digitChar_isDigit (d : Nat) (h : d < 10) : (digitChar d).isDigit = true := by
  interval_cases d <;> rfl

theorem digitsValue_append (ds : List Char) (c : Char) :
    digitsValue (ds ++ [c]) = 10 * digitsValue ds + (c.toNat - 48) := by
  simp [digitsValue, List.foldl_append]

theorem formatUintAux_append (fuel n : Nat) (acc : List Char) :
    formatUintAux fuel n acc = formatUintAux fuel n [] ++ acc := by
  induction fuel generalizing n acc with
  | zero => simp [formatUintAux]
  | succ fuel ih =>
    simp only [formatUintAux]
    split
    · simp
    · rw [ih (n / 10) (digitChar (n % 10) :: acc), ih (n / 10) [digitChar (n % 10)]]
      simp

/-- The digits written for `n`: at least one, all decimal, with the value `n`, and with a
leading zero only for zero itself. -/
theorem formatUintAux_spec (fuel n : Nat) (h : n < fuel) :
    formatUintAux fuel n [] ≠ [] ∧
    (formatUintAux fuel n []).all Char.isDigit = true ∧
    digitsValue (formatUintAux fuel n []) = n ∧
    ((formatUintAux fuel n []).head? = some '0' → formatUintAux fuel n [] = ['0']) := by
  induction fuel generalizing n with
  | zero => omega
  | succ fuel ih =>
    simp only [formatUintAux]
    split
    · rename_i hlt
      refine ⟨by simp, by simp [digitChar_isDigit n hlt], ?_, ?_⟩
      · simp [digitsValue, digitChar_toNat n hlt]
      · intro hh
        simp only [List.head?_cons, Option.some.injEq] at hh
        rw [hh]
    · rename_i hge
      have hdiv : n / 10 < fuel := by omega
      obtain ⟨hne, hall, hval, hhead⟩ := ih (n / 10) hdiv
      rw [formatUintAux_append]
      have hmod : n % 10 < 10 := Nat.mod_lt _ (by norm_num)
      refine ⟨by simp, ?_, ?_, ?_⟩
      · simp only [List.all_append, hall, List.all_cons, digitChar_isDigit _ hmod, List.all_nil,
          Bool.and_self]
      · rw [digitsValue_append, hval, digitChar_toNat _ hmod]
        omega
      · intro hh
        rw [List.head?_append_of_ne_nil _ hne] at hh
        have h1 := hhead hh
        rw [h1] at hval
        simp [digitsValue] at hval
        omega

theorem formatUint_spec (n : Nat) :
    formatUint n ≠ [] ∧ (formatUint n).all Char.isDigit = true ∧
    digitsValue (formatUint n) = n ∧
    ((formatUint n).head? = some '0' → formatUint n = ['0']) :=
  formatUintAux_spec (n + 1) n (Nat.lt_succ_self n)

/-- Reading back what `FormatInt` wrote gives the number, for every 64-bit integer. -/
theorem parseInt_formatInt (i : Int) (h : inInt64 i) : parseInt (formatInt i) = some i := by
  unfold inInt64 at h
  unfold formatInt
  split
  · rename_i hneg
    obtain ⟨hne, hall, hval, _⟩ := formatUint_spec (-i).toNat
    simp only [parseInt, true_or, if_true, decide_True, hne, hall, hval, false_or,
      not_true_eq_false, if_false]
    have h1 : ((-i).toNat : Int) = -i := Int.toNat_of_nonneg (by omega)
    have h2 : (-i).toNat ≤ 2 ^ 63 := by omega
    simp only [h2, if_true, h1, neg_neg]
  · rename_i hpos
    obtain ⟨hne, hall, hval, _⟩ := formatUint_spec i.toNat
    obtain ⟨c, rest, hcr⟩ := List.exists_cons_of_ne_nil hne
    rw [hcr] at hall hval ⊢
    have hc : c.isDigit = true := by
      simp only [List.all_cons, Bool.and_eq_true] at hall
      exact hall.1
    have hc1 := (isDigit_iff c).mp hc
    have hm : c ≠ '-' := by
      intro hh; rw [hh] at hc1; revert hc1; decide
    have hp : c ≠ '+' := by
      intro hh; rw [hh] at hc1; revert hc1; decide
    have h1 : (i.toNat : Int) = i := Int.toNat_of_nonneg (by omega)
    have h2 : i.toNat < 2 ^ 63 := by omega
    simp only [parseInt, hm, hp, or_self, if_false, decide_False, hall, hval, false_or,
      not_true_eq_false, h2, if_true, h1, reduceCtorEq, Bool.false_eq_true]

/-! ### JSON numbers: scanning what `FormatInt` wrote -/

theorem span_isDigit_append (ds : List Char) (c : Char) (r : List Char)
    (hds : ds.all Char.isDigit = true) (hc : c.isDigit = false) :
    (ds ++ c :: r).span Char.isDigit = (ds, c :: r) := by
  rw [List.span_eq_take_drop]
  induction ds with
  | nil => simp [List.takeWhile_cons, List.dropWhile_cons, hc]
  | cons d ds ih =>
    simp only [List.all_cons, Bool.and_eq_true] at hds
    have ih1 := ih hds.2
    simp only [Prod.mk.injEq] at ih1
    simp [List.takeWhile_cons, List.dropWhile_cons, hds.1, ih1.1, ih1.2]

theorem scanFracExp_end (c : Char) (r : List Char) (h1 : c ≠ '.') (h2 : c ≠ 'e')
    (h3 : c ≠ 'E') : scanFracExp (c :: r) = some ([], c :: r) := by
  unfold scanFracExp
  split
  · rename_i heq
    simp only [List.cons.injEq] at heq
    exact absurd heq.1 h1
  · simp [h2, h3]

theorem scanUnsigned_formatUint (n : Nat) (c : Char) (r : List Char)
    (hc : c.isDigit = false) (h1 : c ≠ '.') (h2 : c ≠ 'e') (h3 : c ≠ 'E') :
    scanUnsigned (formatUint n ++ c :: r) = some (formatUint n, c :: r) := by
  obtain ⟨hne, hall, _, hhead⟩ := formatUint_spec n
  obtain ⟨d, tail, hD⟩ := List.exists_cons_of_ne_nil hne
  rw [hD] at hall hhead ⊢
  simp only [List.all_cons, Bool.and_eq_true] at hall
  by_cases hd : d = '0'
  · have htail : tail = [] := by
      have := hhead (by simp [hd])
      simp only [List.cons.injEq] at this
      exact this.2
    subst htail
    simp [scanUnsigned, hd, scanFracExp_end c r h1 h2 h3]
  · have hspan := span_isDigit_append tail c r hall.2 hc
    rw [List.span_eq_take_drop] at hspan
    simp only [Prod.mk.injEq] at hspan
    simp [scanUnsigned, hd, hall.1, hspan.1, hspan.2, scanFracExp_end c r h1 h2 h3]

theorem formatUint_head_ne_minus (n : Nat) : ∀ d tail, formatUint n = d :: tail → d ≠ '-' := by
  intro d tail hD
  obtain ⟨_, hall, _, _⟩ := formatUint_spec n
  rw [hD] at hall
  simp only [List.all_cons, Bool.and_eq_true] at hall
  have := (isDigit_iff d).mp hall.1
  intro hh
  rw [hh] at this
  revert this
  decide

theorem scanNumber_formatInt (i : Int) (c : Char) (r : List Char)
    (hc : c.isDigit = false) (h1 : c ≠ '.') (h2 : c ≠ 'e') (h3 : c ≠ 'E') :
    scanNumber (formatInt i ++ c :: r) = some (formatInt i, c :: r) := by
  unfold formatInt
  split
  · simp [scanNumber, scanUnsigned_formatUint _ c r hc h1 h2 h3]
  · obtain ⟨hne, _, _, _⟩ := formatUint_spec i.toNat
    obtain ⟨d, tail, hD⟩ := List.exists_cons_of_ne_nil hne
    have hd := formatUint_head_ne_minus i.toNat d tail hD
    have hs := scanUnsigned_formatUint i.toNat c r hc h1 h2 h3
    rw [hD] at hs ⊢
    simp only [List.cons_append] at hs ⊢
    simp [scanNumber, hd, hs]

/-- The first character of a written integer: a minus sign or a digit. -/
theorem formatInt_head (i : Int) :
    ∃ d tail, formatInt i = d :: tail ∧ (d = '-' ∨ d.isDigit = true) := by
  unfold formatInt
  split
  · exact ⟨'-', _, rfl, Or.inl rfl⟩
  · obtain ⟨hne, hall, _, _⟩ := formatUint_spec i.toNat
    obtain ⟨d, tail, hD⟩ := List.exists_cons_of_ne_nil hne
    rw [hD] at hall
    simp only [List.all_cons, Bool.and_eq_true] at hall
    exact ⟨d, tail, hD, Or.inr hall.1⟩

/-- A written integer in front of a character that cannot continue a number is parsed as that
number literal. -/
theorem parseValue_formatInt (fuel depth : Nat) (i : Int) (c : Char) (r : List Char)
    (hc : c.isDigit = false) (h1 : c ≠ '.') (h2 : c ≠ 'e') (h3 : c ≠ 'E') :
    parseValue (fuel + 1) depth (formatInt i ++ c :: r)
      = some (JSON.number (formatInt i), c :: r) := by
  obtain ⟨d, tail, hD, hd⟩ := formatInt_head i
  have hs := scanNumber_formatInt i c r hc h1 h2 h3
  rw [hD] at hs ⊢
  have hn1 : d ≠ '{' := by
    rcases hd with rfl | hd
    · decide
    · intro hh; rw [hh] at hd; revert hd; decide
  have hn2 : d ≠ '[' := by
    rcases hd with rfl | hd
    · decide
    · intro hh; rw [hh] at hd; revert hd; decide
  have hn3 : d ≠ '"' := by
    rcases hd with rfl | hd
    · decide
    · intro hh; rw [hh] at hd; revert hd; decide
  simp only [List.cons_append] at hs ⊢
  simp only [parseValue, hn1, hn2, hn3, if_false, hd, if_true, hs]

/-! ### UTF-8: reading the bytes of a character -/

/-- The code point of a character is below the surrogates, or above them and at most
U+10FFFF. -/
theorem char_toNat_valid (c : Char) :
    c.toNat < 0xd800 ∨ (0xdfff < c.toNat ∧ c.toNat < 0x110000) := by
  have := c.valid
  simpa [UInt32.isValidChar, Nat.isValidChar, Char.toNat] using this

theorem toNat_ofNat_byte (n : Nat) (h : n < 256) : (UInt8.ofNat n).toNat = n :=
  UInt8.toNat_ofNat_of_lt h

/-- The library call `utf8.DecodeRuneInString` reads the bytes that `utf8.EncodeRune` wrote for
a character as that character, with their number as the width. -/
theorem decodeRune_encodeRune (c : Char) (rest : ByteString) :
    decodeRune (encodeRune c ++ rest) = (c, (encodeRune c).length) := by
  have hv := char_toNat_valid c
  have hc := Char.ofNat_toNat c
  unfold encodeRune
  generalize c.toNat = n at hv hc ⊢
  by_cases h1 : n ≤ 0x7f
  · simp only [h1, if_true, List.singleton_append, List.length_singleton, decodeRune]
    rw [toNat_ofNat_byte n (by omega)]
    have : leadSize n = 1 := by unfold leadSize; rw [if_pos (by omega)]
    simp [this, hc]
  by_cases h2 : n ≤ 0x7ff
  · simp only [h1, h2, if_true, if_false, List.cons_append, List.nil_append, decodeRune,
      List.length_cons, List.length_nil]
    rw [toNat_ofNat_byte (0xc0 + n / 64) (by omega), toNat_ofNat_byte (0x80 + n % 64) (by omega)]
    have hl : leadSize (0xc0 + n / 64) = 2 := by
      unfold leadSize
      rw [if_neg (by omega), if_neg (by omega), if_pos (by omega)]
    have hacc : ¬ (0x80 + n % 64 < acceptLo (0xc0 + n / 64) ∨
        acceptHi (0xc0 + n / 64) < 0x80 + n % 64) := by
      unfold acceptLo acceptHi
      split_ifs <;> omega
    have hval : (0xc0 + n / 64) % 32 * 64 + (0x80 + n % 64) % 64 = n := by omega
    simp only [hl, hacc, hval, if_false, if_true, hc]
    simp
  by_cases h3 : n ≤ 0xffff
  · simp only [h1, h2, h3, if_true, if_false, List.cons_append, List.nil_append, decodeRune,
      List.length_cons, List.length_nil]
    rw [toNat_ofNat_byte (0xe0 + n / 4096) (by omega),
      toNat_ofNat_byte (0x80 + n / 64 % 64) (by omega),
      toNat_ofNat_byte (0x80 + n % 64) (by omega)]
    have hl : leadSize (0xe0 + n / 4096) = 3 := by
      unfold leadSize
      rw [if_neg (by omega), if_neg (by omega), if_neg (by omega), if_pos (by omega)]
    have hacc : ¬ (0x80 + n / 64 % 64 < acceptLo (0xe0 + n / 4096) ∨
        acceptHi (0xe0 + n / 4096) < 0x80 + n / 64 % 64) := by
      unfold acceptLo acceptHi
      split_ifs <;> omega
    have hval : (((0xe0 + n / 4096) % 16) * 64 + (0x80 + n / 64 % 64) % 64) * 64
        + (0x80 + n % 64) % 64 = n := by omega
    have hr : ¬ (0x80 + n % 64 < 0x80 ∨ 0xbf < 0x80 + n % 64) := by omega
    simp only [hl, hacc, hval, hr, if_false, if_true, hc]
    simp
  · simp only [h1, h2, h3, if_true, if_false, List.cons_append, List.nil_append, decodeRune,
      List.length_cons, List.length_nil]
    rw [toNat_ofNat_byte (0xf0 + n / 262144) (by omega),
      toNat_ofNat_byte (0x80 + n / 4096 % 64) (by omega),
      toNat_ofNat_byte (0x80 + n / 64 % 64) (by omega),
      toNat_ofNat_byte (0x80 + n % 64) (by omega)]
    have hl : leadSize (0xf0 + n / 262144) = 4 := by
      unfold leadSize
      rw [if_neg (by omega), if_neg (by omega), if_neg (by omega), if_neg (by omega),
        if_pos (by omega)]
    have hacc : ¬ (0x80 + n / 4096 % 64 < acceptLo (0xf0 + n / 262144) ∨
        acceptHi (0xf0 + n / 262144) < 0x80 + n / 4096 % 64) := by
      unfold acceptLo acceptHi
      split_ifs <;> omega
    have hval : ((((0xf0 + n / 262144) % 8) * 64 + (0x80 + n / 4096 % 64) % 64) * 64
        + (0x80 + n / 64 % 64) % 64) * 64 + (0x80 + n % 64) % 64 = n := by omega
    have hr2 : ¬ (0x80 + n / 64 % 64 < 0x80 ∨ 0xbf < 0x80 + n / 64 % 64) := by omega
    have hr : ¬ (0x80 + n % 64 < 0x80 ∨ 0xbf < 0x80 + n % 64) := by omega
    simp only [hl, hacc, hval, hr, hr2, if_false, if_true, hc]
    simp

/-- A character has at least one byte. -/
theorem encodeRune_cons (c : Char) : ∃ b tail, encodeRune c = b :: tail := by
  unfold encodeRune
  split_ifs <;> exact ⟨_, _, rfl⟩

/-- The character U+FFFD has three bytes, so reading it back is not mistaken for an error. -/
theorem encodeRune_RuneError_width (c : Char) :
    ¬ (c = RuneError ∧ (encodeRune c).length = 1) := by
  rintro ⟨rfl, h⟩
  revert h
  decide

/-- Passing over the remaining bytes of a character. -/
theorem escapeFrom_skip (tail bs : ByteString) :
    escapeFrom tail.length (tail ++ bs) = escapeFrom 0 bs := by
  induction tail with
  | nil => rfl
  | cons b tail ih =>
    simp only [List.length_cons, List.cons_append]
    rw [escapeFrom]
    exact ih

/-- The loop of `encodeState.string` on the bytes of a character followed by other bytes. -/
theorem escapeFrom_encodeRune (c : Char) (bs : ByteString) :
    escapeFrom 0 (encodeRune c ++ bs) = escapeChar c ++ escapeFrom 0 bs := by
  have hd := decodeRune_encodeRune c bs
  have hw := encodeRune_RuneError_width c
  obtain ⟨b, tail, hb⟩ := encodeRune_cons c
  rw [hb] at hd hw ⊢
  simp only [List.cons_append] at hd ⊢
  rw [escapeFrom]
  simp only [hd, List.length_cons, Nat.add_sub_cancel]
  rw [if_neg (by simpa using hw), escapeFrom_skip]

/-- On the bytes of a text, the loop of `encodeState.string` writes every character as
`escapeChar` says. -/
theorem escapeFrom_utf8 (s : String) : escapeFrom 0 (utf8 s) = s.data.flatMap escapeChar := by
  unfold utf8
  induction s.data with
  | nil => rfl
  | cons c cs ih => rw [List.flatMap_cons, List.flatMap_cons, escapeFrom_encodeRune, ih]

/-- Different texts have different bytes. -/
theorem utf8_injective (s t : String) (h : utf8 s = utf8 t) : s = t := by
  have key : ∀ cs ds : List Char, cs.flatMap encodeRune = ds.flatMap encodeRune → cs = ds := by
    intro cs
    induction cs with
    | nil =>
      intro ds hds
      cases ds with
      | nil => rfl
      | cons d ds =>
        obtain ⟨b, tail, hb⟩ := encodeRune_cons d
        simp [List.flatMap_cons, hb] at hds
    | cons c cs ih =>
      intro ds hds
      cases ds with
      | nil =>
        obtain ⟨b, tail, hb⟩ := encodeRune_cons c
        simp [List.flatMap_cons, hb] at hds
      | cons d ds =>
        rw [List.flatMap_cons, List.flatMap_cons] at hds
        have h1 := decodeRune_encodeRune c (cs.flatMap encodeRune)
        have h2 := decodeRune_encodeRune d (ds.flatMap encodeRune)
        rw [hds, h2] at h1
        have hcd : d = c := (Prod.mk.inj h1).1
        subst hcd
        rw [ih ds (List.append_cancel_left hds)]
  cases s; cases t
  simp only [utf8] at h
  rw [key _ _ h]
/-! ### UTF-8: valid strings are the bytes of texts -/

theorem char_toNat_ofNat (n : Nat) (h : n < 0xd800 ∨ (0xdfff < n ∧ n < 0x110000)) :
    (Char.ofNat n).toNat = n := by
  have hv : n.isValidChar := h
  unfold Char.ofNat
  rw [dif_pos hv]
  rfl

theorem byte_ofNat_toNat (b : UInt8) : UInt8.ofNat b.toNat = b :=
  UInt8.toNat.inj (toNat_ofNat_byte _ (UInt8.toNat_lt_size b))

theorem leadSize_cases (n : Nat) (h : n < 256) :
    (leadSize n = 1 ∧ n < 0x80) ∨ (leadSize n = 0 ∧ (0x80 ≤ n ∧ n < 0xc2 ∨ 0xf5 ≤ n)) ∨
    (leadSize n = 2 ∧ 0xc2 ≤ n ∧ n < 0xe0) ∨ (leadSize n = 3 ∧ 0xe0 ≤ n ∧ n < 0xf0) ∨
    (leadSize n = 4 ∧ 0xf0 ≤ n ∧ n < 0xf5) := by
  unfold leadSize
  split_ifs <;> omega

/-- When `utf8.DecodeRuneInString` does not report an error, the bytes it has read are the
bytes `utf8.EncodeRune` writes for the character it returns. -/
theorem decodeRune_valid (b : UInt8) (bs : ByteString)
    (h : ¬ ((decodeRune (b :: bs)).1 = RuneError ∧ (decodeRune (b :: bs)).2 = 1)) :
    ∃ rest, b :: bs = encodeRune (decodeRune (b :: bs)).1 ++ rest ∧
      (decodeRune (b :: bs)).2 = (encodeRune (decodeRune (b :: bs)).1).length := by
  have hb : b.toNat < 256 := UInt8.toNat_lt_size b
  rcases leadSize_cases b.toNat hb with ⟨hl, h0⟩ | ⟨hl, _⟩ | ⟨hl, h0, h1⟩ | ⟨hl, h0, h1⟩ |
    ⟨hl, h0, h1⟩
  · have hd : decodeRune (b :: bs) = (Char.ofNat b.toNat, 1) := by
      simp only [decodeRune, hl, if_true]
    rw [hd]
    simp only
    unfold encodeRune
    rw [char_toNat_ofNat _ (by omega), if_pos (by omega), byte_ofNat_toNat]
    exact ⟨bs, rfl, rfl⟩
  · exfalso
    apply h
    simp [decodeRune, hl]
  · cases bs with
    | nil => exfalso; apply h; simp [decodeRune, hl]
    | cons s1 rest1 =>
      have hs1 : s1.toNat < 256 := UInt8.toNat_lt_size s1
      have hlo : acceptLo b.toNat = 0x80 := by
        unfold acceptLo; rw [if_neg (by omega), if_neg (by omega)]
      have hhi : acceptHi b.toNat = 0xbf := by
        unfold acceptHi; rw [if_neg (by omega), if_neg (by omega)]
      by_cases hacc : s1.toNat < 0x80 ∨ 0xbf < s1.toNat
      · exfalso; apply h; simp [decodeRune, hl, hlo, hhi, hacc]
      · have hd : decodeRune (b :: s1 :: rest1)
            = (Char.ofNat (b.toNat % 32 * 64 + s1.toNat % 64), 2) := by
          simp [decodeRune, hl, hlo, hhi, hacc]
        rw [hd]
        simp only
        unfold encodeRune
        rw [char_toNat_ofNat _ (by omega), if_neg (by omega), if_pos (by omega)]
        have e0 : 0xc0 + (b.toNat % 32 * 64 + s1.toNat % 64) / 64 = b.toNat := by omega
        have e1 : 0x80 + (b.toNat % 32 * 64 + s1.toNat % 64) % 64 = s1.toNat := by omega
        rw [e0, e1, byte_ofNat_toNat, byte_ofNat_toNat]
        exact ⟨rest1, rfl, rfl⟩
  · have hne2 : ¬ leadSize b.toNat = 2 := by omega
    cases bs with
    | nil => exfalso; apply h; simp [decodeRune, hl]
    | cons s1 rest1 =>
      have hs1 : s1.toNat < 256 := UInt8.toNat_lt_size s1
      by_cases hacc : s1.toNat < acceptLo b.toNat ∨ acceptHi b.toNat < s1.toNat
      · exfalso; apply h; simp [decodeRune, hl, hacc]
      cases rest1 with
      | nil => exfalso; apply h; simp [decodeRune, hl, hacc]
      | cons s2 rest2 =>
        have hs2 : s2.toNat < 256 := UInt8.toNat_lt_size s2
        by_cases hc2 : s2.toNat < 0x80 ∨ 0xbf < s2.toNat
        · exfalso; apply h; simp [decodeRune, hl, hacc, hc2]
        · have hd : decodeRune (b :: s1 :: s2 :: rest2)
              = (Char.ofNat ((b.toNat % 16 * 64 + s1.toNat % 64) * 64 + s2.toNat % 64), 3) := by
            simp [decodeRune, hl, hacc, hc2]
          have hrange : 0x80 ≤ s1.toNat ∧ s1.toNat ≤ 0xbf ∧
              (b.toNat = 0xe0 → 0xa0 ≤ s1.toNat) ∧ (b.toNat = 0xed → s1.toNat ≤ 0x9f) := by
            unfold acceptLo acceptHi at hacc
            split_ifs at hacc <;> omega
          rw [hd]
          simp only
          unfold encodeRune
          rw [char_toNat_ofNat _ (by omega), if_neg (by omega), if_neg (by omega),
            if_pos (by omega)]
          have e0 : 0xe0 + ((b.toNat % 16 * 64 + s1.toNat % 64) * 64 + s2.toNat % 64) / 4096
              = b.toNat := by omega
          have e1 : 0x80 + ((b.toNat % 16 * 64 + s1.toNat % 64) * 64 + s2.toNat % 64) / 64 % 64
              = s1.toNat := by omega
          have e2 : 0x80 + ((b.toNat % 16 * 64 + s1.toNat % 64) * 64 + s2.toNat % 64) % 64
              = s2.toNat := by omega
          rw [e0, e1, e2, byte_ofNat_toNat, byte_ofNat_toNat, byte_ofNat_toNat]
          exact ⟨rest2, rfl, rfl⟩
  · have hne2 : ¬ leadSize b.toNat = 2 := by omega
    have hne3 : ¬ leadSize b.toNat = 3 := by omega
    cases bs with
    | nil => exfalso; apply h; simp [decodeRune, hl]
    | cons s1 rest1 =>
      have hs1 : s1.toNat < 256 := UInt8.toNat_lt_size s1
      by_cases hacc : s1.toNat < acceptLo b.toNat ∨ acceptHi b.toNat < s1.toNat
      · exfalso; apply h; simp [decodeRune, hl, hacc]
      cases rest1 with
      | nil => exfalso; apply h; simp [decodeRune, hl, hacc]
      | cons s2 rest2 =>
        have hs2 : s2.toNat < 256 := UInt8.toNat_lt_size s2
        by_cases hc2 : s2.toNat < 0x80 ∨ 0xbf < s2.toNat
        · exfalso; apply h; simp [decodeRune, hl, hacc, hc2]
        cases rest2 with
        | nil => exfalso; apply h; simp [decodeRune, hl, hacc, hc2]
        | cons s3 rest3 =>
          have hs3 : s3.toNat < 256 := UInt8.toNat_lt_size s3
          by_cases hc3 : s3.toNat < 0x80 ∨ 0xbf < s3.toNat
          · exfalso; apply h; simp [decodeRune, hl, hacc, hc2, hc3]
          · have hd : decodeRune (b :: s1 :: s2 :: s3 :: rest3)
                = (Char.ofNat (((b.toNat % 8 * 64 + s1.toNat % 64) * 64 + s2.toNat % 64) * 64
                    + s3.toNat % 64), 4) := by
              simp [decodeRune, hl, hacc, hc2, hc3]
            have hrange : 0x80 ≤ s1.toNat ∧ s1.toNat ≤ 0xbf ∧
                (b.toNat = 0xf0 → 0x90 ≤ s1.toNat) ∧ (b.toNat = 0xf4 → s1.toNat ≤ 0x8f) := by
              unfold acceptLo acceptHi at hacc
              split_ifs at hacc <;> omega
            rw [hd]
            simp only
            unfold encodeRune
            rw [char_toNat_ofNat _ (by omega), if_neg (by omega), if_neg (by omega),
              if_neg (by omega)]
            have e0 : 0xf0 + (((b.toNat % 8 * 64 + s1.toNat % 64) * 64 + s2.toNat % 64) * 64
                + s3.toNat % 64) / 262144 = b.toNat := by omega
            have e1 : 0x80 + (((b.toNat % 8 * 64 + s1.toNat % 64) * 64 + s2.toNat % 64) * 64
                + s3.toNat % 64) / 4096 % 64 = s1.toNat := by omega
            have e2 : 0x80 + (((b.toNat % 8 * 64 + s1.toNat % 64) * 64 + s2.toNat % 64) * 64
                + s3.toNat % 64) / 64 % 64 = s2.toNat := by omega
            have e3 : 0x80 + (((b.toNat % 8 * 64 + s1.toNat % 64) * 64 + s2.toNat % 64) * 64
                + s3.toNat % 64) % 64 = s3.toNat := by omega
            rw [e0, e1, e2, e3, byte_ofNat_toNat, byte_ofNat_toNat, byte_ofNat_toNat,
              byte_ofNat_toNat]
            exact ⟨rest3, rfl, rfl⟩

/-- Passing over the remaining bytes of a character in `utf8.ValidString`. -/
theorem validFrom_skip (tail bs : ByteString) :
    validFrom tail.length (tail ++ bs) = validFrom 0 bs := by
  induction tail with
  | nil => rfl
  | cons b tail ih =>
    simp only [List.length_cons, List.cons_append]
    rw [validFrom]
    exact ih

/-- The bytes of a text are valid UTF-8. -/
theorem validString_utf8 (s : String) : validString (utf8 s) = true := by
  unfold validString utf8
  induction s.data with
  | nil => rfl
  | cons c cs ih =>
    have hd := decodeRune_encodeRune c (cs.flatMap encodeRune)
    have hw := encodeRune_RuneError_width c
    obtain ⟨b, tail, hb⟩ := encodeRune_cons c
    rw [List.flatMap_cons]
    rw [hb] at hd hw ⊢
    simp only [List.cons_append] at hd ⊢
    rw [validFrom]
    simp only [hd, List.length_cons, Nat.add_sub_cancel]
    rw [if_neg (by simpa using hw), validFrom_skip]
    exact ih

/-- Valid UTF-8 is the bytes of a text. -/
theorem validString_text (bs : ByteString) (h : validString bs = true) :
    ∃ s : String, bs = utf8 s := by
  have key : ∀ (n : Nat) (bs : ByteString), bs.length ≤ n → validFrom 0 bs = true →
      ∃ cs : List Char, bs = cs.flatMap encodeRune := by
    intro n
    induction n with
    | zero =>
      intro bs hlen _
      have : bs = [] := List.length_eq_zero.mp (by omega)
      exact ⟨[], by rw [this]; rfl⟩
    | succ n ih =>
      intro bs hlen hv
      cases bs with
      | nil => exact ⟨[], rfl⟩
      | cons b rest =>
        rw [validFrom] at hv
        by_cases herr : (decodeRune (b :: rest)).1 = RuneError ∧ (decodeRune (b :: rest)).2 = 1
        · rw [if_pos herr] at hv
          exact absurd hv (by decide)
        · rw [if_neg herr] at hv
          obtain ⟨rest1, hsplit, hwidth⟩ := decodeRune_valid b rest herr
          obtain ⟨b1, tail, hb⟩ := encodeRune_cons (decodeRune (b :: rest)).1
          rw [hb] at hsplit hwidth
          simp only [List.cons_append, List.cons.injEq] at hsplit
          obtain ⟨_, hrest⟩ := hsplit
          rw [hwidth, hrest] at hv
          simp only [List.length_cons, Nat.add_sub_cancel] at hv
          rw [validFrom_skip] at hv
          have hlen1 : rest1.length ≤ n := by
            have : rest.length = tail.length + rest1.length := by
              rw [hrest, List.length_append]
            simp only [List.length_cons] at hlen
            omega
          obtain ⟨cs, hcs⟩ := ih rest1 hlen1 hv
          refine ⟨(decodeRune (b :: rest)).1 :: cs, ?_⟩
          rw [List.flatMap_cons, hb, ← hcs, List.cons_append, ← hrest]
          have hb1 : b = b1 := by
            have := decodeRune_valid b rest herr
            obtain ⟨r2, hs2, _⟩ := this
            rw [hb] at hs2
            simp only [List.cons_append, List.cons.injEq] at hs2
            exact hs2.1
          rw [hb1]
  obtain ⟨cs, hcs⟩ := key bs.length bs (Nat.le_refl _) h
  exact ⟨String.mk cs, hcs⟩
/-! ### JSON strings: scanning what `Marshal` wrote -/

theorem hexVal_hexDigit (k : Nat) (h : k < 16) : hexVal (hexDigit k) = some k := by
  interval_cases k <;> rfl

theorem hex4_low (a b : Nat) (ha : a < 16) (hb : b < 16) :
    hex4 '0' '0' (hexDigit a) (hexDigit b) = some (a * 16 + b) := by
  have h0 : hexVal '0' = some 0 := rfl
  simp [hex4, h0, hexVal_hexDigit a ha, hexVal_hexDigit b hb]

theorem scanStringFrom_quote (cs : List Char) : scanStringFrom 0 ('"' :: cs) = some ([], cs) := by
  rw [scanStringFrom.eq_def]
  simp

theorem scanStringFrom_simple (e x : Char) (cs : List Char) (he : e ≠ 'u')
    (hx : simpleEscape e = some x) :
    scanStringFrom 0 ('\\' :: e :: cs) = consChar x (scanStringFrom 0 cs) := by
  rw [scanStringFrom.eq_def]
  simp [he, hx]

theorem scanStringFrom_u (h1 h2 h3 h4 : Char) (rr : Nat) (cs : List Char)
    (hx : hex4 h1 h2 h3 h4 = some rr) (hns : ¬ (0xd800 ≤ rr ∧ rr < 0xe000)) :
    scanStringFrom 0 ('\\' :: 'u' :: h1 :: h2 :: h3 :: h4 :: cs)
      = consChar (Char.ofNat rr) (scanStringFrom 0 cs) := by
  rw [scanStringFrom.eq_def]
  simp [hx, hns]

theorem scanStringFrom_plain (c : Char) (cs : List Char) (hq : c ≠ '"') (hb : c ≠ '\\')
    (hc : ¬ c.toNat < 0x20) :
    scanStringFrom 0 (c :: cs) = consChar c (scanStringFrom 0 cs) := by
  rw [scanStringFrom.eq_def]
  simp [hq, hb, hc]

theorem scanStringFrom_u00 (c : Char) (tail : List Char) (h : c.toNat < 256) :
    scanStringFrom 0
      ('\\' :: 'u' :: '0' :: '0' :: hexDigit (c.toNat / 16) :: hexDigit (c.toNat % 16) :: tail)
      = consChar c (scanStringFrom 0 tail) := by
  have hx := hex4_low (c.toNat / 16) (c.toNat % 16) (by omega) (Nat.mod_lt _ (by norm_num))
  have hval : c.toNat / 16 * 16 + c.toNat % 16 = c.toNat := by omega
  rw [hval] at hx
  have hns : ¬ (0xd800 ≤ c.toNat ∧ c.toNat < 0xe000) := by omega
  rw [scanStringFrom_u _ _ _ _ _ _ hx hns, Char.ofNat_toNat]

theorem scanStringFrom_escapeChar (c : Char) (tail : List Char) :
    scanStringFrom 0 (escapeChar c ++ tail) = consChar c (scanStringFrom 0 tail) := by
  unfold escapeChar
  split
  · rename_i h; subst h
    exact scanStringFrom_simple _ _ tail (by decide) rfl
  split
  · rename_i h; subst h
    exact scanStringFrom_simple _ _ tail (by decide) rfl
  split
  · rename_i h; subst h
    exact scanStringFrom_simple _ _ tail (by decide) rfl
  split
  · rename_i h; subst h
    exact scanStringFrom_simple _ _ tail (by decide) rfl
  split
  · rename_i h; subst h
    exact scanStringFrom_simple _ _ tail (by decide) rfl
  split
  · rename_i h
    have hlt : c.toNat < 256 := by
      rcases h with h | h | h | h
      · omega
      · subst h; decide
      · subst h; decide
      · subst h; decide
    exact scanStringFrom_u00 c tail hlt
  split
  · rename_i h
    have hc : c = Char.ofNat 0x2028 ∨ c = Char.ofNat 0x2029 := by
      rcases h with h | h
      · left; exact char_eq_of_toNat_eq _ _ (by rw [h]; rfl)
      · right; exact char_eq_of_toNat_eq _ _ (by rw [h]; rfl)
    rcases hc with rfl | rfl
    · have hx : hex4 '2' '0' '2' (hexDigit ((Char.ofNat 0x2028).toNat % 16)) = some 0x2028 := rfl
      exact scanStringFrom_u _ _ _ _ _ tail hx (by decide)
    · have hx : hex4 '2' '0' '2' (hexDigit ((Char.ofNat 0x2029).toNat % 16)) = some 0x2029 := rfl
      exact scanStringFrom_u _ _ _ _ _ tail hx (by decide)
  · rename_i hq hb _ _ _ hctl _
    have hnc : ¬ c.toNat < 0x20 := fun hh => hctl (Or.inl hh)
    exact scanStringFrom_plain c tail hq hb hnc

theorem consChar_some (c : Char) (s rest : List Char) :
    consChar c (some (s, rest)) = some (c :: s, rest) := rfl

/-- The body of a written string literal is scanned back to the string. -/
theorem scanStringFrom_flatMap (s rest : List Char) :
    scanStringFrom 0 (s.flatMap escapeChar ++ '"' :: rest) = some (s, rest) := by
  induction s with
  | nil => exact scanStringFrom_quote rest
  | cons c s ih =>
    rw [List.flatMap_cons, List.append_assoc, scanStringFrom_escapeChar, ih, consChar_some]

/-- The string literal written for the bytes of a text: the text between quotes, every
character as `escapeChar` says. -/
theorem encodeString_utf8 (s : String) :
    encodeString (utf8 s) = '"' :: (s.data.flatMap escapeChar ++ ['"']) := by
  rw [encodeString, escapeFrom_utf8]

theorem scanStringBody_encodeString (s : String) (rest : List Char) :
    ∃ body, encodeString (utf8 s) ++ rest = '"' :: body ∧
      scanStringBody body = some (s.data, rest) := by
  refine ⟨s.data.flatMap escapeChar ++ '"' :: rest, by simp [encodeString_utf8], ?_⟩
  exact scanStringFrom_flatMap s.data rest

/-- A written string literal is parsed as that string. -/
theorem parseValue_encodeString (fuel depth : Nat) (s : String) (rest : List Char) :
    parseValue (fuel + 1) depth (encodeString (utf8 s) ++ rest)
      = some (JSON.string s.data, rest) := by
  obtain ⟨body, hb, hscan⟩ := scanStringBody_encodeString s rest
  rw [hb]
  have h1 : ('"' : Char) ≠ '{' := by decide
  have h2 : ('"' : Char) ≠ '[' := by decide
  simp only [parseValue, h1, h2, if_false, if_true, hscan]

/-! ### Status labels -/

theorem skipSpace_cons_of_not_space (c : Char) (cs : List Char) (h : isSpace c = false) :
    skipSpace (c :: cs) = c :: cs := by
  simp [skipSpace, h]

/-- The library call `json.Unmarshal` of the string literal written for a text into a Go string gives the
text. -/
theorem jsonUnmarshalString_encodeString (l cur : String) :
    jsonUnmarshalString (encodeString (utf8 l)) cur = (l, none) := by
  have hskip : skipSpace (encodeString (utf8 l)) = encodeString (utf8 l) :=
    skipSpace_cons_of_not_space _ _ (by decide)
  have hp := parseValue_encodeString (encodeString (utf8 l)).length 0 l []
  rw [List.append_nil] at hp
  unfold jsonUnmarshalString parseJSON
  rw [hskip, hp]
  simp only [skipSpace, if_true]

theorem stringToStatus_unknown (l : String) (h : l ∉ stringToStatus.map Prod.fst) :
    mapIndex stringToStatus l 0 = 0 := by
  simp only [stringToStatus, List.map_cons, List.map_nil, List.mem_cons, List.mem_singleton,
    List.not_mem_nil, or_false, not_or] at h
  obtain ⟨h1, h2, h3, h4⟩ := h
  have e1 : (l == "В пути") = false := beq_eq_false_iff_ne.mpr h1
  have e2 : (l == "На складе") = false := beq_eq_false_iff_ne.mpr h2
  have e3 : (l == "Продан") = false := beq_eq_false_iff_ne.mpr h3
  have e4 : (l == "Снят с продажи") = false := beq_eq_false_iff_ne.mpr h4
  simp only [mapIndex, stringToStatus, List.lookup, e1, e2, e3, e4, Option.getD_none]

/-- C9: the two label tables are mutually inverse over exactly four variants. `statusToString`
has exactly the keys ontheway, stored, sold, withdrawnfromsale (the numbers 0 to 3), its four
labels are pairwise distinct and non-empty and are exactly the keys of `stringToStatus`; the
look-up of a variant's label gives the variant back and the look-up of a label's variant gives
the label back; hence `Scan` after `Value` and `UnmarshalJSON` after `MarshalJSON` return each
of the four variants, without error and whatever the receiver held. -/
theorem C9_status_tables_mutually_inverse :
    statusToString.map Prod.fst = [ontheway, stored, sold, withdrawnfromsale] ∧
    [ontheway, stored, sold, withdrawnfromsale] = [0, 1, 2, 3] ∧
    (statusToString.map Prod.snd).Nodup ∧
    (∀ l ∈ statusToString.map Prod.snd, l ≠ "") ∧
    stringToStatus.map Prod.fst = statusToString.map Prod.snd ∧
    (∀ s ∈ [ontheway, stored, sold, withdrawnfromsale],
      (statusToString.lookup s).isSome = true ∧
      stringToStatus.lookup (mapIndex statusToString s "") = some s) ∧
    (∀ l ∈ stringToStatus.map Prod.fst,
      (stringToStatus.lookup l).isSome = true ∧
      statusToString.lookup (mapIndex stringToStatus l 0) = some l) ∧
    (∀ s ∈ [ontheway, stored, sold, withdrawnfromsale], ∀ s0 : Status,
      (Status.Value s).2 = none ∧ Status.Scan s0 (Status.Value s).1 = (s, none)) ∧
    (∀ s ∈ [ontheway, stored, sold, withdrawnfromsale], ∀ s0 : Status,
      (Status.MarshalJSON s).2 = none ∧
      Status.UnmarshalJSON s0 (Status.MarshalJSON s).1 = (s, none)) := by
  refine ⟨by decide, by decide, by decide, by decide, by decide, by decide, by decide, ?_, ?_⟩
  · intro s hs s0
    simp only [List.mem_cons, List.mem_singleton, List.not_mem_nil, or_false] at hs
    rcases hs with rfl | rfl | rfl | rfl <;> exact ⟨rfl, rfl⟩
  · intro s hs s0
    simp only [List.mem_cons, List.mem_singleton, List.not_mem_nil, or_false] at hs
    rcases hs with rfl | rfl | rfl | rfl <;> exact ⟨rfl, rfl⟩

/-- C10: for every string that is not one of the four labels, `Scan` of the string value and
`UnmarshalJSON` of its JSON text (the literal `Marshal` writes for it, and any other text that
decodes to it) return no error and set the status to `ontheway`, the zero value, whatever the
status was before. -/
theorem C10_unknown_label_gives_zero_variant (l : String) (s0 : Status)
    (h : l ∉ stringToStatus.map Prod.fst) :
    ontheway = 0 ∧
    Status.Scan s0 (DriverValue.string l) = (ontheway, none) ∧
    Status.UnmarshalJSON s0 (encodeString (utf8 l)) = (ontheway, none) ∧
    (∀ b : List Char, jsonUnmarshalString b "" = (l, none) →
      Status.UnmarshalJSON s0 b = (ontheway, none)) := by
  have hz := stringToStatus_unknown l h
  refine ⟨rfl, ?_, ?_, ?_⟩
  · simp [Status.Scan, hz, ontheway]
  · simp [Status.UnmarshalJSON, jsonUnmarshalString_encodeString, hz, ontheway]
  · intro b hb
    simp [Status.UnmarshalJSON, hb, hz, ontheway]

/-- C10, for the label "in repair" over a status that held `sold`. -/
theorem C10_unknown_label_gives_zero_variant_witness :
    Status.Scan sold (DriverValue.string "in repair") = (ontheway, none) ∧
    Status.UnmarshalJSON sold "\"in repair\"".data = (ontheway, none) :=
  have h := C10_unknown_label_gives_zero_variant "in repair" sold (by decide)
  ⟨h.2.1, h.2.2.1⟩

/-! ### JSON objects: one member at a time -/

theorem take_length_sub (a b : List Char) :
    (a ++ b).take ((a ++ b).length - b.length) = a := by
  simp

/-- A member `"key":value` followed by a comma: the member is recorded with the text of its
value, and the scan goes on after the comma. -/
theorem parseMembers_comma (fuel depth : Nat) (key V rest : List Char) (v : JSON)
    (acc : List (List Char × List Char × JSON))
    (hkey : key.flatMap escapeChar = key)
    (hspace : skipSpace (V ++ ',' :: rest) = V ++ ',' :: rest)
    (hV : parseValue fuel depth (V ++ ',' :: rest) = some (v, ',' :: rest)) :
    parseMembers (fuel + 1) depth ('"' :: (key ++ '"' :: ':' :: (V ++ ',' :: rest))) acc
      = parseMembers fuel depth (skipSpace rest) (acc ++ [(key, V, v)]) := by
  have hscan : scanStringBody (key ++ '"' :: ':' :: (V ++ ',' :: rest))
      = some (key, ':' :: (V ++ ',' :: rest)) := by
    have := scanStringFrom_flatMap key (':' :: (V ++ ',' :: rest))
    rw [hkey] at this
    exact this
  have hcolon : skipSpace (':' :: (V ++ ',' :: rest)) = ':' :: (V ++ ',' :: rest) :=
    skipSpace_cons_of_not_space _ _ (by decide)
  have hcomma : skipSpace (',' :: rest) = ',' :: rest :=
    skipSpace_cons_of_not_space _ _ (by decide)
  have htake := take_length_sub V (',' :: rest)
  rw [parseMembers]
  simp only [if_true, hscan, hcolon, hspace, hV, hcomma, htake]

/-- The last member `"key":value` before the closing brace. -/
theorem parseMembers_close (fuel depth : Nat) (key V rest : List Char) (v : JSON)
    (acc : List (List Char × List Char × JSON))
    (hkey : key.flatMap escapeChar = key)
    (hspace : skipSpace (V ++ '}' :: rest) = V ++ '}' :: rest)
    (hV : parseValue fuel depth (V ++ '}' :: rest) = some (v, '}' :: rest)) :
    parseMembers (fuel + 1) depth ('"' :: (key ++ '"' :: ':' :: (V ++ '}' :: rest))) acc
      = some (acc ++ [(key, V, v)], rest) := by
  have hscan : scanStringBody (key ++ '"' :: ':' :: (V ++ '}' :: rest))
      = some (key, ':' :: (V ++ '}' :: rest)) := by
    have := scanStringFrom_flatMap key (':' :: (V ++ '}' :: rest))
    rw [hkey] at this
    exact this
  have hcolon : skipSpace (':' :: (V ++ '}' :: rest)) = ':' :: (V ++ '}' :: rest) :=
    skipSpace_cons_of_not_space _ _ (by decide)
  have hbrace : skipSpace ('}' :: rest) = '}' :: rest :=
    skipSpace_cons_of_not_space _ _ (by decide)
  have htake := take_length_sub V ('}' :: rest)
  have hne : ('}' : Char) ≠ ',' := by decide
  rw [parseMembers]
  simp only [if_true, hscan, hcolon, hspace, hV, hbrace, htake, hne, if_false]

theorem skipSpace_formatInt (i : Int) (rest : List Char) :
    skipSpace (formatInt i ++ rest) = formatInt i ++ rest := by
  obtain ⟨d, tail, hD, hd⟩ := formatInt_head i
  rw [hD, List.cons_append]
  apply skipSpace_cons_of_not_space
  rcases hd with rfl | hd
  · decide
  · have := (isDigit_iff d).mp hd
    simp only [isSpace, Bool.or_eq_false_iff, decide_eq_false_iff_not]
    refine ⟨⟨⟨?_, ?_⟩, ?_⟩, ?_⟩ <;> (intro hh; rw [hh] at this; revert this; decide)

theorem skipSpace_encodeString (s : ByteString) (rest : List Char) :
    skipSpace (encodeString s ++ rest) = encodeString s ++ rest := by
  simp only [encodeString, List.cons_append]
  exact skipSpace_cons_of_not_space _ _ (by decide)

/-! ### JSON round trip of a record -/

/-- The status of a valid variant is written as its label in quotes, and `compact` leaves that
text as it is. -/
theorem marshal_status_valid (s : Status)
    (hs : s ∈ [ontheway, stored, sold, withdrawnfromsale]) :
    Status.MarshalJSON s = (encodeString (utf8 (mapIndex statusToString s "")), none) ∧
    compact (encodeString (utf8 (mapIndex statusToString s "")))
      = some (encodeString (utf8 (mapIndex statusToString s ""))) ∧
    statusToString.lookup s = some (mapIndex statusToString s "") ∧
    mapIndex stringToStatus (mapIndex statusToString s "") 0 = s := by
  simp only [List.mem_cons, List.mem_singleton, List.not_mem_nil, or_false] at hs
  rcases hs with rfl | rfl | rfl | rfl <;> exact ⟨rfl, rfl, rfl, rfl⟩

/-- The text `Marshal` writes for a record whose status is one of the four variants. -/
theorem jsonMarshalCarModel_text (cm : CarModel)
    (hs : cm.Status ∈ [ontheway, stored, sold, withdrawnfromsale]) :
    jsonMarshalCarModel cm =
      ('{' :: '"' :: (['i', 'd'] ++ '"' :: ':' :: (formatInt cm.Id ++ ',' ::
        '"' :: (['b', 'r', 'a', 'n', 'd'] ++ '"' :: ':' :: (encodeString cm.Brand ++ ',' ::
        '"' :: (['m', 'o', 'd', 'e', 'l'] ++ '"' :: ':' :: (encodeString cm.Model ++ ',' ::
        '"' :: (['p', 'r', 'i', 'c', 'e'] ++ '"' :: ':' :: (formatInt cm.Price ++ ',' ::
        '"' :: (['s', 't', 'a', 't', 'u', 's'] ++ '"' :: ':' ::
          (encodeString (utf8 (mapIndex statusToString cm.Status "")) ++ ',' ::
        '"' :: (['m', 'i', 'l', 'e', 'a', 'g', 'e'] ++ '"' :: ':' ::
          (formatInt cm.Mileage ++ ['}'])))))))))))), none) := by
  obtain ⟨hm, hc, _, _⟩ := marshal_status_valid cm.Status hs
  have h1 : "\x7b\"id\":".data = ['{', '"', 'i', 'd', '"', ':'] := rfl
  have h2 : ",\"brand\":".data = [',', '"', 'b', 'r', 'a', 'n', 'd', '"', ':'] := rfl
  have h3 : ",\"model\":".data = [',', '"', 'm', 'o', 'd', 'e', 'l', '"', ':'] := rfl
  have h4 : ",\"price\":".data = [',', '"', 'p', 'r', 'i', 'c', 'e', '"', ':'] := rfl
  have h5 : ",\"status\":".data = [',', '"', 's', 't', 'a', 't', 'u', 's', '"', ':'] := rfl
  have h6 : ",\"mileage\":".data = [',', '"', 'm', 'i', 'l', 'e', 'a', 'g', 'e', '"', ':'] := rfl
  have h7 : "\x7d".data = ['}'] := rfl
  simp only [jsonMarshalCarModel, hm, hc, h1, h2, h3, h4, h5, h6, h7, List.append_assoc,
    List.cons_append, List.nil_append]

/-- The object `Unmarshal` reads from the text `Marshal` wrote for a record whose status is one
of the four variants: the six members in the order of the fields. -/
theorem parseJSON_marshalled (cm : CarModel) (brand model : String)
    (hbrand : cm.Brand = utf8 brand) (hmodel : cm.Model = utf8 model)
    (hs : cm.Status ∈ [ontheway, stored, sold, withdrawnfromsale]) :
    parseJSON (jsonMarshalCarModel cm).1 = some (JSON.object
      [ (['i', 'd'], formatInt cm.Id, JSON.number (formatInt cm.Id)),
        (['b', 'r', 'a', 'n', 'd'], encodeString cm.Brand, JSON.string brand.data),
        (['m', 'o', 'd', 'e', 'l'], encodeString cm.Model, JSON.string model.data),
        (['p', 'r', 'i', 'c', 'e'], formatInt cm.Price, JSON.number (formatInt cm.Price)),
        (['s', 't', 'a', 't', 'u', 's'],
          encodeString (utf8 (mapIndex statusToString cm.Status "")),
          JSON.string (mapIndex statusToString cm.Status "").data),
        (['m', 'i', 'l', 'e', 'a', 'g', 'e'], formatInt cm.Mileage,
          JSON.number (formatInt cm.Mileage)) ]) := by
  rw [jsonMarshalCarModel_text cm hs, hbrand, hmodel]
  simp only
  unfold parseJSON
  rw [skipSpace_cons_of_not_space _ _ (by decide)]
  generalize hlen : List.length _ = len
  obtain ⟨k, hk⟩ : ∃ k, len = k + 1 + 1 + 1 + 1 + 1 + 1 + 1 := by
    refine ⟨len - 7, ?_⟩
    rw [← hlen]
    simp only [List.length_cons, List.length_append]
    omega
  subst hk
  have hq : ∀ cs : List Char, skipSpace ('"' :: cs) = '"' :: cs :=
    fun cs => skipSpace_cons_of_not_space _ _ (by decide)
  have hcomma : (',' : Char).isDigit = false := by decide
  have hbrace : ('}' : Char).isDigit = false := by decide
  rw [parseValue]
  have hdepth : ¬ maxNestingDepth < 0 + 1 := by decide
  simp only [if_true, hq, hdepth, if_false]
  have hne : ('"' : Char) ≠ '}' := by decide
  simp only [hne, if_false]
  rw [parseMembers_comma _ _ _ _ _ _ _ (by decide) (skipSpace_formatInt _ _)
    (parseValue_formatInt _ _ _ _ _ hcomma (by decide) (by decide) (by decide)), hq]
  rw [parseMembers_comma _ _ _ _ _ _ _ (by decide) (skipSpace_encodeString _ _)
    (parseValue_encodeString _ _ _ _), hq]
  rw [parseMembers_comma _ _ _ _ _ _ _ (by decide) (skipSpace_encodeString _ _)
    (parseValue_encodeString _ _ _ _), hq]
  rw [parseMembers_comma _ _ _ _ _ _ _ (by decide) (skipSpace_formatInt _ _)
    (parseValue_formatInt _ _ _ _ _ hcomma (by decide) (by decide) (by decide)), hq]
  rw [parseMembers_comma _ _ _ _ _ _ _ (by decide) (skipSpace_encodeString _ _)
    (parseValue_encodeString _ _ _ _), hq]
  rw [parseMembers_close _ _ _ _ _ _ _ (by decide) (skipSpace_formatInt _ _)
    (parseValue_formatInt _ _ _ _ _ hbrace (by decide) (by decide) (by decide))]
  simp [skipSpace]

theorem storeInt_formatInt (i cur : Int) (h : inInt64 i) :
    storeInt (JSON.number (formatInt i)) cur = .ok i := by
  simp [storeInt, parseInt_formatInt i h]

theorem storeString_string (s : String) (cur : ByteString) :
    storeString (JSON.string s.data) cur = .ok (utf8 s) := rfl

theorem storeStatus_valid (s cur : Status)
    (hs : s ∈ [ontheway, stored, sold, withdrawnfromsale]) :
    storeStatus (encodeString (utf8 (mapIndex statusToString s ""))) cur = .ok s := by
  obtain ⟨_, _, _, hinv⟩ := marshal_status_valid s hs
  simp [storeStatus, Status.UnmarshalJSON, jsonUnmarshalString_encodeString, hinv]

/-- Decoding what `Marshal` wrote for a record whose brand and model are the bytes of texts,
with a valid status and 64-bit numbers, gives the record, whatever the target held before. -/
theorem jsonUnmarshal_marshal (cm cm0 : CarModel) (brand model : String)
    (hbrand : cm.Brand = utf8 brand) (hmodel : cm.Model = utf8 model)
    (hs : cm.Status ∈ [ontheway, stored, sold, withdrawnfromsale])
    (hid : inInt64 cm.Id) (hprice : inInt64 cm.Price) (hmileage : inInt64 cm.Mileage) :
    jsonUnmarshalCarModel (jsonMarshalCarModel cm).1 cm0 = .ok cm := by
  unfold jsonUnmarshalCarModel
  rw [parseJSON_marshalled cm brand model hbrand hmodel hs]
  have k1 : keyIs "id" ['i', 'd'] = true := by decide
  have k2 : keyIs "id" ['b', 'r', 'a', 'n', 'd'] = false := by decide
  have k3 : keyIs "brand" ['b', 'r', 'a', 'n', 'd'] = true := by decide
  have k4 : keyIs "id" ['m', 'o', 'd', 'e', 'l'] = false := by decide
  have k5 : keyIs "brand" ['m', 'o', 'd', 'e', 'l'] = false := by decide
  have k6 : keyIs "model" ['m', 'o', 'd', 'e', 'l'] = true := by decide
  have k7 : keyIs "id" ['p', 'r', 'i', 'c', 'e'] = false := by decide
  have k8 : keyIs "brand" ['p', 'r', 'i', 'c', 'e'] = false := by decide
  have k9 : keyIs "model" ['p', 'r', 'i', 'c', 'e'] = false := by decide
  have k10 : keyIs "price" ['p', 'r', 'i', 'c', 'e'] = true := by decide
  have k11 : keyIs "id" ['s', 't', 'a', 't', 'u', 's'] = false := by decide
  have k12 : keyIs "brand" ['s', 't', 'a', 't', 'u', 's'] = false := by decide
  have k13 : keyIs "model" ['s', 't', 'a', 't', 'u', 's'] = false := by decide
  have k14 : keyIs "price" ['s', 't', 'a', 't', 'u', 's'] = false := by decide
  have k15 : keyIs "status" ['s', 't', 'a', 't', 'u', 's'] = true := by decide
  have k16 : keyIs "id" ['m', 'i', 'l', 'e', 'a', 'g', 'e'] = false := by decide
  have k17 : keyIs "brand" ['m', 'i', 'l', 'e', 'a', 'g', 'e'] = false := by decide
  have k18 : keyIs "model" ['m', 'i', 'l', 'e', 'a', 'g', 'e'] = false := by decide
  have k19 : keyIs "price" ['m', 'i', 'l', 'e', 'a', 'g', 'e'] = false := by decide
  have k20 : keyIs "status" ['m', 'i', 'l', 'e', 'a', 'g', 'e'] = false := by decide
  have k21 : keyIs "mileage" ['m', 'i', 'l', 'e', 'a', 'g', 'e'] = true := by decide
  simp only [CarModel.setFields, CarModel.setField, k1, k2, k3, k4, k5, k6, k7, k8, k9, k10,
    k11, k12, k13, k14, k15, k16, k17, k18, k19, k20, k21, if_true, if_false,
    Bool.false_eq_true, storeInt_formatInt _ _ hid, storeInt_formatInt _ _ hprice,
    storeInt_formatInt _ _ hmileage, storeString_string, storeStatus_valid _ _ hs,
    Except.map, ← hbrand, ← hmodel]

/-! ### C3: JSON round trip -/

/-- C3 as stated fails: `json.Marshal` writes a byte that starts no UTF-8 sequence as the
escape of U+FFFD, so the record whose brand is the single byte 0xFF is read back with the
three bytes of U+FFFD as its brand. -/
theorem C3_round_trip_replaces_invalid_utf8 :
    validString [0xff] = false ∧
    jsonMarshalCarModel ⟨1, [0xff], utf8 "b", 10, sold, 20⟩
      = (("\x7b\"id\":1,\"brand\":\"\\ufffd\",\"model\":\"b\",\"price\":10," ++
          "\"status\":\"Продан\",\"mileage\":20\x7d").data, none) ∧
    jsonUnmarshalCarModel (jsonMarshalCarModel ⟨1, [0xff], utf8 "b", 10, sold, 20⟩).1
        CarModel.zero
      = .ok ⟨1, [0xef, 0xbf, 0xbd], utf8 "b", 10, sold, 20⟩ ∧
    (⟨1, [0xef, 0xbf, 0xbd], utf8 "b", 10, sold, 20⟩ : CarModel)
      ≠ ⟨1, [0xff], utf8 "b", 10, sold, 20⟩ := by
  refine ⟨by decide, by decide, by rfl, by decide⟩

/-- C3, amended: for every record whose brand and model are valid UTF-8
(`utf8.ValidString`), whose status is one of the four variants and whose numbers are 64-bit
integers, `json.Marshal` succeeds, the text carries the status as a member `status` whose value is the
label of the status as a JSON string, and `json.Unmarshal` of the text gives the record back,
equal in Id, Brand, Model, Price, Status and Mileage, whatever the target held before. -/
theorem C3_round_trip_of_valid_record (cm cm0 : CarModel)
    (hvb : validString cm.Brand = true) (hvm : validString cm.Model = true)
    (hs : cm.Status ∈ [ontheway, stored, sold, withdrawnfromsale])
    (hid : inInt64 cm.Id) (hprice : inInt64 cm.Price) (hmileage : inInt64 cm.Mileage) :
    (jsonMarshalCarModel cm).2 = none ∧
    jsonUnmarshalCarModel (jsonMarshalCarModel cm).1 cm0 = .ok cm ∧
    (∃ label members, statusToString.lookup cm.Status = some label ∧
      parseJSON (jsonMarshalCarModel cm).1 = some (JSON.object members) ∧
      (['s', 't', 'a', 't', 'u', 's'], '"' :: (label.data ++ ['"']), JSON.string label.data)
        ∈ members) := by
  obtain ⟨brand, hbrand⟩ := validString_text cm.Brand hvb
  obtain ⟨model, hmodel⟩ := validString_text cm.Model hvm
  refine ⟨?_, jsonUnmarshal_marshal cm cm0 brand model hbrand hmodel hs hid hprice hmileage, ?_⟩
  · rw [jsonMarshalCarModel_text cm hs]
  · obtain ⟨hm, _, hl, _⟩ := marshal_status_valid cm.Status hs
    refine ⟨mapIndex statusToString cm.Status "", _, hl,
      parseJSON_marshalled cm brand model hbrand hmodel hs, ?_⟩
    have he : encodeString (utf8 (mapIndex statusToString cm.Status ""))
        = '"' :: ((mapIndex statusToString cm.Status "").data ++ ['"']) := by
      have := congrArg Prod.fst hm
      simp only [Status.MarshalJSON] at this
      exact this.symm
    rw [he]
    simp

/-- C3, amended, in `TestServer_Get`: the handler `Get` for id 0 on the store of 25 records
answers 200 with a body that decodes to the stored record with id 0 (status `sold`, mileage
37); the same holds for id 7, whose record has the price 266000, the status `stored` and the
mileage 114. A record whose texts hold Cyrillic letters, quotes, `<`, `>` and a character of
four bytes comes back as well. -/
theorem C3_round_trip_of_valid_record_witness :
    (Server.Get setupServer setupDB NewRecorder ⟨([], none), [("id", "0")]⟩).1.Code = 200 ∧
    setupDB.CarModels.head?
      = some ⟨0, utf8 "QwErTyUiOpAsDfGh", utf8 "zXcVbNmLkJhGfDsA", 0, sold, 37⟩ ∧
    jsonUnmarshalCarModel
      (Server.Get setupServer setupDB NewRecorder ⟨([], none), [("id", "0")]⟩).1.Body
      CarModel.zero
      = .ok ⟨0, utf8 "QwErTyUiOpAsDfGh", utf8 "zXcVbNmLkJhGfDsA", 0, sold, 37⟩ ∧
    setupDB.CarModels[7]?
      = some ⟨7, utf8 "QwErTyUiOpAsDfGh", utf8 "zXcVbNmLkJhGfDsA", 266000, stored, 114⟩ ∧
    jsonUnmarshalCarModel
      (Server.Get setupServer setupDB NewRecorder ⟨([], none), [("id", "7")]⟩).1.Body
      CarModel.zero
      = .ok ⟨7, utf8 "QwErTyUiOpAsDfGh", utf8 "zXcVbNmLkJhGfDsA", 266000, stored, 114⟩ ∧
    jsonUnmarshalCarModel
      (jsonMarshalCarModel
        ⟨42, utf8 "Лада \"Нива\"", utf8 "4x4 <🚗>", 1500000, withdrawnfromsale, 98765⟩).1
      CarModel.zero
      = .ok ⟨42, utf8 "Лада \"Нива\"", utf8 "4x4 <🚗>", 1500000, withdrawnfromsale, 98765⟩ := by
  have h42 := C3_round_trip_of_valid_record
    ⟨42, utf8 "Лада \"Нива\"", utf8 "4x4 <🚗>", 1500000, withdrawnfromsale, 98765⟩
    CarModel.zero (by decide) (by decide) (by decide) (by decide) (by decide) (by decide)
  have h0 := C3_round_trip_of_valid_record
    ⟨0, utf8 "QwErTyUiOpAsDfGh", utf8 "zXcVbNmLkJhGfDsA", 0, sold, 37⟩ CarModel.zero
    (by decide) (by decide) (by decide) (by decide) (by decide) (by decide)
  have h7 := C3_round_trip_of_valid_record
    ⟨7, utf8 "QwErTyUiOpAsDfGh", utf8 "zXcVbNmLkJhGfDsA", 266000, stored, 114⟩ CarModel.zero
    (by decide) (by decide) (by decide) (by decide) (by decide) (by decide)
  have hb0 : (Server.Get setupServer setupDB NewRecorder ⟨([], none), [("id", "0")]⟩).1.Body
      = (jsonMarshalCarModel
          ⟨0, utf8 "QwErTyUiOpAsDfGh", utf8 "zXcVbNmLkJhGfDsA", 0, sold, 37⟩).1 := by
    decide
  have hb7 : (Server.Get setupServer setupDB NewRecorder ⟨([], none), [("id", "7")]⟩).1.Body
      = (jsonMarshalCarModel
          ⟨7, utf8 "QwErTyUiOpAsDfGh", utf8 "zXcVbNmLkJhGfDsA", 266000, stored, 114⟩).1 := by
    decide
  rw [hb0, hb7]
  exact ⟨by decide, by decide, h0.2.1, by decide, h7.2.1, h42.2.1⟩
/-! ### C6: the handler `Delete` on the in-memory store -/

/-- The call `Delete` of an id present in a store without duplicate ids: no error, the slice is one
shorter and holds exactly the records with another id. -/
theorem mockDelete_present (cms : List CarModel) (n id : Int)
    (hnd : (cms.map (fun cm => cm.Id)).Nodup) (hex : ∃ cm ∈ cms, cm.Id = id) :
    ∃ cms1, mockDB.Delete ⟨cms, n⟩ id = (none, ⟨cms1, n⟩) ∧
      cms1.length + 1 = cms.length ∧
      (∀ x, x ∈ cms1 ↔ x ∈ cms ∧ x.Id ≠ id) := by
  obtain ⟨l1, cm, l2, hsplit, hid, hl1, _⟩ := findFrom_present id cms 0 hex
  subst hsplit
  have hrest : ∀ x ∈ l2, x.Id ≠ id := by
    intro x hx hxid
    simp only [List.map_append, List.map_cons] at hnd
    have h2 := (List.nodup_append.mp hnd).2.1
    have h3 := (List.nodup_cons.mp h2).1
    apply h3
    rw [hid, ← hxid]
    exact List.mem_map_of_mem _ hx
  rcases List.eq_nil_or_concat l2 with rfl | ⟨l3, b, rfl⟩
  · refine ⟨l1, mockDelete_last l1 cm n id hid hl1, by simp, ?_⟩
    intro x
    simp only [List.mem_append, List.mem_singleton]
    constructor
    · intro hx
      exact ⟨Or.inl hx, hl1 x hx⟩
    · rintro ⟨hx | rfl, hne⟩
      · exact hx
      · exact absurd hid hne
  · rw [List.concat_eq_append] at *
    refine ⟨l1 ++ b :: l3, mockDelete_inner l1 l3 cm b n id hid hl1, by simp; omega, ?_⟩
    intro x
    simp only [List.mem_append, List.mem_cons, List.mem_singleton, List.not_mem_nil, or_false]
    constructor
    · rintro (hx | rfl | hx)
      · exact ⟨Or.inl hx, hl1 x hx⟩
      · exact ⟨Or.inr (Or.inr (Or.inr rfl)), hrest _ (by simp)⟩
      · exact ⟨Or.inr (Or.inr (Or.inl hx)), hrest _ (by simp [hx])⟩
    · rintro ⟨hx | rfl | hx | rfl, hne⟩
      · exact Or.inl hx
      · exact absurd hid hne
      · exact Or.inr (Or.inr hx)
      · exact Or.inr (Or.inl rfl)

/-- C6: in every state of the in-memory store reached from the empty store in fewer than
`2^63` calls of push, Create, Update and Delete that holds a record with the id the route
variable `id` denotes, the handler `Delete` answers 204 with an empty body, the store is one
record shorter and holds exactly the records with another id (the counter is untouched), and
the handler `Get` called next with the same request answers 500, not 200. -/
theorem C6_delete_handler_removes_record (ops : List mockOp) (r : Request) (id : Int)
    (hlen : (ops.length : Int) < 2 ^ 63)
    (hvar : strconvAtoi (mapIndex r.Vars "id" "") = some id)
    (hex : ∃ cm ∈ (mockRun ops).CarModels, cm.Id = id) :
    (Server.Delete setupServer (mockRun ops) NewRecorder r).1 = ⟨204, []⟩ ∧
    (Server.Delete setupServer (mockRun ops) NewRecorder r).2.CarModels.length + 1
      = (mockRun ops).CarModels.length ∧
    (∀ cm, cm ∈ (Server.Delete setupServer (mockRun ops) NewRecorder r).2.CarModels ↔
      cm ∈ (mockRun ops).CarModels ∧ cm.Id ≠ id) ∧
    (Server.Delete setupServer (mockRun ops) NewRecorder r).2.LastID = (mockRun ops).LastID ∧
    (Server.Get setupServer (Server.Delete setupServer (mockRun ops) NewRecorder r).2
      NewRecorder r).1.Code = 500 := by
  have hinv := (mockInv_run ops hlen).1
  obtain ⟨cms1, hdel, hlen1, hmem⟩ :=
    mockDelete_present (mockRun ops).CarModels (mockRun ops).LastID id hinv.2.2 hex
  have hres : Server.Delete setupServer (mockRun ops) NewRecorder r
      = (⟨204, []⟩, ⟨cms1, (mockRun ops).LastID⟩) := by
    simp only [Server.Delete, hvar, setupServer, mockDB.asDB]
    rw [hdel]
    rfl
  rw [hres]
  refine ⟨rfl, hlen1, hmem, rfl, ?_⟩
  have habsent : ∀ cm ∈ cms1, cm.Id ≠ id := fun cm hcm => ((hmem cm).mp hcm).2
  simp [Server.Get, hvar, setupServer, mockDB.asDB, mockDB.Get, mockDB.find,
    findFrom_absent id cms1 0 habsent, handleErrors, httpError, ResponseRecorder.WriteHeader,
    ResponseRecorder.Write, StatusInternalServerError]

/-- C6, in `TestServer_Delete`: id 0 is deleted from the store of 25 records, which leaves 24
records, none with id 0, and `Get` for id 0 then answers 500. -/
theorem C6_delete_handler_removes_record_witness :
    setupDB.CarModels.length = 25 ∧
    (Server.Delete setupServer setupDB NewRecorder ⟨([], none), [("id", "0")]⟩).1
      = ⟨204, []⟩ ∧
    (Server.Delete setupServer setupDB NewRecorder
      ⟨([], none), [("id", "0")]⟩).2.CarModels.length + 1 = 25 ∧
    (Server.Get setupServer
      (Server.Delete setupServer setupDB NewRecorder ⟨([], none), [("id", "0")]⟩).2
      NewRecorder ⟨([], none), [("id", "0")]⟩).1.Code = 500 := by
  have h := C6_delete_handler_removes_record setupOps ⟨([], none), [("id", "0")]⟩ 0
    (by decide) (by decide)
    ⟨⟨0, utf8 "QwErTyUiOpAsDfGh", utf8 "zXcVbNmLkJhGfDsA", 0, sold, 37⟩, by decide, rfl⟩
  exact ⟨by decide, h.1, h.2.1, h.2.2.2.2⟩

/-! ### What a decoded request can hold -/

theorem parseInt_range (neg : Bool) (v : Nat) (n : Int)
    (h : (if neg = true then (if v ≤ 2 ^ 63 then some (-(v : Int)) else none)
          else (if v < 2 ^ 63 then some (v : Int) else none)) = some n) : inInt64 n := by
  unfold inInt64
  split at h
  · split at h
    · simp only [Option.some.injEq] at h
      rename_i hle
      have : (v : Int) ≤ 2 ^ 63 := by exact_mod_cast hle
      constructor <;> omega
    · simp at h
  · split at h
    · simp only [Option.some.injEq] at h
      rename_i hlt
      have : (v : Int) < 2 ^ 63 := by exact_mod_cast hlt
      constructor <;> omega
    · simp at h

theorem parseInt_inInt64 (s : List Char) (n : Int) (h : parseInt s = some n) : inInt64 n := by
  unfold parseInt at h
  split at h
  · simp at h
  · rename_i c rest
    dsimp only at h
    by_cases hsign : c = '-' ∨ c = '+'
    · rw [if_pos hsign] at h
      split at h
      · exact absurd h (by simp)
      · exact parseInt_range _ _ _ h
    · rw [if_neg hsign] at h
      split at h
      · exact absurd h (by simp)
      · exact parseInt_range _ _ _ h

theorem storeInt_inInt64 (v : JSON) (cur n : Int) (hcur : inInt64 cur)
    (h : storeInt v cur = .ok n) : inInt64 n := by
  unfold storeInt at h
  split at h
  · split at h
    · rename_i hp
      simp only [Except.ok.injEq] at h
      subst h
      exact parseInt_inInt64 _ _ hp
    · simp at h
  · simp only [Except.ok.injEq] at h
    subst h
    exact hcur
  · simp at h

theorem stringToStatus_mem (str : String) :
    mapIndex stringToStatus str 0 ∈ [ontheway, stored, sold, withdrawnfromsale] := by
  simp only [mapIndex, stringToStatus, List.lookup]
  split
  · simp
  · split
    · simp
    · split
      · simp
      · split <;> simp [ontheway]

theorem storeStatus_mem (raw : List Char) (cur s : Status)
    (h : storeStatus raw cur = .ok s) :
    s ∈ [ontheway, stored, sold, withdrawnfromsale] := by
  unfold storeStatus Status.UnmarshalJSON at h
  split at h
  · simp at h
  · rename_i s1 heq
    simp only [Except.ok.injEq] at h
    subst h
    split at heq
    · simp at heq
    · simp only [Prod.mk.injEq, and_true] at heq
      rw [← heq]
      exact stringToStatus_mem _

/-- The property of a request that decoding keeps: a status among the four variants and
64-bit numbers. -/
theorem request_setField_valid (req req1 : request) (key raw : List Char) (v : JSON)
    (hs : req.Status ∈ [ontheway, stored, sold, withdrawnfromsale])
    (hp : inInt64 req.Price) (hm : inInt64 req.Mileage)
    (h : request.setField req key raw v = .ok req1) :
    req1.Status ∈ [ontheway, stored, sold, withdrawnfromsale] ∧ inInt64 req1.Price ∧
      inInt64 req1.Mileage := by
  unfold request.setField at h
  split at h
  · cases hst : storeString v req.Brand with
    | error e => simp [hst, Except.map] at h
    | ok x =>
      simp only [hst, Except.map, Except.ok.injEq] at h
      subst h
      exact ⟨hs, hp, hm⟩
  split at h
  · cases hst : storeString v req.Model with
    | error e => simp [hst, Except.map] at h
    | ok x =>
      simp only [hst, Except.map, Except.ok.injEq] at h
      subst h
      exact ⟨hs, hp, hm⟩
  split at h
  · cases hst : storeInt v req.Price with
    | error e => simp [hst, Except.map] at h
    | ok x =>
      simp only [hst, Except.map, Except.ok.injEq] at h
      subst h
      exact ⟨hs, storeInt_inInt64 _ _ _ hp hst, hm⟩
  split at h
  · cases hst : storeStatus raw req.Status with
    | error e => simp [hst, Except.map] at h
    | ok x =>
      simp only [hst, Except.map, Except.ok.injEq] at h
      subst h
      exact ⟨storeStatus_mem _ _ _ hst, hp, hm⟩
  split at h
  · cases hst : storeInt v req.Mileage with
    | error e => simp [hst, Except.map] at h
    | ok x =>
      simp only [hst, Except.map, Except.ok.injEq] at h
      subst h
      exact ⟨hs, hp, storeInt_inInt64 _ _ _ hm hst⟩
  · simp only [Except.ok.injEq] at h
    subst h
    exact ⟨hs, hp, hm⟩

theorem request_setFields_valid (members : List (List Char × List Char × JSON))
    (req req1 : request)
    (hs : req.Status ∈ [ontheway, stored, sold, withdrawnfromsale])
    (hp : inInt64 req.Price) (hm : inInt64 req.Mileage)
    (h : request.setFields members req = .ok req1) :
    req1.Status ∈ [ontheway, stored, sold, withdrawnfromsale] ∧ inInt64 req1.Price ∧
      inInt64 req1.Mileage := by
  induction members generalizing req with
  | nil =>
    simp only [request.setFields, Except.ok.injEq] at h
    subst h
    exact ⟨hs, hp, hm⟩
  | cons m rest ih =>
    obtain ⟨key, raw, v⟩ := m
    simp only [request.setFields] at h
    cases hst : request.setField req key raw v with
    | error e => simp [hst] at h
    | ok req2 =>
      simp only [hst] at h
      obtain ⟨hs2, hp2, hm2⟩ := request_setField_valid req req2 key raw v hs hp hm hst
      exact ih req2 hs2 hp2 hm2 h

/-- Every request `json.Unmarshal` decodes into the zero request has a status among the four
variants and a price and a mileage in the 64-bit range. -/
theorem jsonUnmarshalRequest_valid (data : List Char) (req : request)
    (h : jsonUnmarshalRequest data request.zero = .ok req) :
    req.Status ∈ [ontheway, stored, sold, withdrawnfromsale] ∧ inInt64 req.Price ∧
      inInt64 req.Mileage := by
  have h0 : request.zero.Status ∈ [ontheway, stored, sold, withdrawnfromsale] := by decide
  have h1 : inInt64 request.zero.Price := by decide
  have h2 : inInt64 request.zero.Mileage := by decide
  unfold jsonUnmarshalRequest at h
  split at h
  · simp at h
  · exact request_setFields_valid _ _ _ h0 h1 h2 h
  · simp only [Except.ok.injEq] at h
    subst h
    exact ⟨h0, h1, h2⟩
  · simp at h

/-! ### The text fields of a decoded request -/

/-- What `json.Unmarshal` stores in a `string` field is the bytes of a text. -/
theorem storeString_text (v : JSON) (cur x : ByteString) (hcur : ∃ s : String, cur = utf8 s)
    (h : storeString v cur = .ok x) : ∃ s : String, x = utf8 s := by
  unfold storeString at h
  split at h
  · simp only [Except.ok.injEq] at h
    exact ⟨_, h.symm⟩
  · simp only [Except.ok.injEq] at h
    subst h
    exact hcur
  · simp at h

theorem request_setField_text (req req1 : request) (key raw : List Char) (v : JSON)
    (hb : ∃ s : String, req.Brand = utf8 s) (hm : ∃ s : String, req.Model = utf8 s)
    (h : request.setField req key raw v = .ok req1) :
    (∃ s : String, req1.Brand = utf8 s) ∧ (∃ s : String, req1.Model = utf8 s) := by
  unfold request.setField at h
  split at h
  · cases hst : storeString v req.Brand with
    | error e => simp [hst, Except.map] at h
    | ok x =>
      simp only [hst, Except.map, Except.ok.injEq] at h
      subst h
      exact ⟨storeString_text _ _ _ hb hst, hm⟩
  split at h
  · cases hst : storeString v req.Model with
    | error e => simp [hst, Except.map] at h
    | ok x =>
      simp only [hst, Except.map, Except.ok.injEq] at h
      subst h
      exact ⟨hb, storeString_text _ _ _ hm hst⟩
  split at h
  · cases hst : storeInt v req.Price with
    | error e => simp [hst, Except.map] at h
    | ok x =>
      simp only [hst, Except.map, Except.ok.injEq] at h
      subst h
      exact ⟨hb, hm⟩
  split at h
  · cases hst : storeStatus raw req.Status with
    | error e => simp [hst, Except.map] at h
    | ok x =>
      simp only [hst, Except.map, Except.ok.injEq] at h
      subst h
      exact ⟨hb, hm⟩
  split at h
  · cases hst : storeInt v req.Mileage with
    | error e => simp [hst, Except.map] at h
    | ok x =>
      simp only [hst, Except.map, Except.ok.injEq] at h
      subst h
      exact ⟨hb, hm⟩
  · simp only [Except.ok.injEq] at h
    subst h
    exact ⟨hb, hm⟩

theorem request_setFields_text (members : List (List Char × List Char × JSON))
    (req req1 : request)
    (hb : ∃ s : String, req.Brand = utf8 s) (hm : ∃ s : String, req.Model = utf8 s)
    (h : request.setFields members req = .ok req1) :
    (∃ s : String, req1.Brand = utf8 s) ∧ (∃ s : String, req1.Model = utf8 s) := by
  induction members generalizing req with
  | nil =>
    simp only [request.setFields, Except.ok.injEq] at h
    subst h
    exact ⟨hb, hm⟩
  | cons m rest ih =>
    obtain ⟨key, raw, v⟩ := m
    simp only [request.setFields] at h
    cases hst : request.setField req key raw v with
    | error e => simp [hst] at h
    | ok req2 =>
      simp only [hst] at h
      obtain ⟨hb2, hm2⟩ := request_setField_text req req2 key raw v hb hm hst
      exact ih req2 hb2 hm2 h

/-- The brand and the model of every request `json.Unmarshal` decodes into the zero request
are the bytes of texts: valid UTF-8. -/
theorem jsonUnmarshalRequest_text (data : List Char) (req : request)
    (h : jsonUnmarshalRequest data request.zero = .ok req) :
    (∃ s : String, req.Brand = utf8 s) ∧ (∃ s : String, req.Model = utf8 s) := by
  have h0 : ∃ s : String, request.zero.Brand = utf8 s := ⟨"", rfl⟩
  have h1 : ∃ s : String, request.zero.Model = utf8 s := ⟨"", rfl⟩
  unfold jsonUnmarshalRequest at h
  split at h
  · simp at h
  · exact request_setFields_text _ _ _ h0 h1 h
  · simp only [Except.ok.injEq] at h
    subst h
    exact ⟨h0, h1⟩
  · simp at h
/-! ### The limit of nesting -/

/-- A run of opening brackets that takes the number of open arrays and objects above
`maxNestingDepth` is a syntax error, whatever follows and whatever the bound of the scan. -/
theorem parseValue_too_deep (k : Nat) : ∀ (fuel depth : Nat) (rest : List Char),
    maxNestingDepth < depth + (k + 1) →
    parseValue fuel depth (List.replicate (k + 1) '[' ++ rest) = none := by
  induction k with
  | zero =>
    intro fuel depth rest h
    cases fuel with
    | zero => rfl
    | succ fuel =>
      have hne : ('[' : Char) ≠ '{' := by decide
      simp only [List.replicate, List.cons_append, List.nil_append]
      rw [parseValue]
      simp only [hne, if_false, if_true]
      rw [if_pos h]
  | succ k ih =>
    intro fuel depth rest h
    cases fuel with
    | zero => rfl
    | succ fuel =>
      have hne : ('[' : Char) ≠ '{' := by decide
      have hnb : ('[' : Char) ≠ ']' := by decide
      have hrep : List.replicate (k + 1 + 1) '[' ++ rest
          = '[' :: '[' :: (List.replicate k '[' ++ rest) := by
        simp [List.replicate]
      have hrep1 : '[' :: (List.replicate k '[' ++ rest)
          = List.replicate (k + 1) '[' ++ rest := by
        simp [List.replicate]
      rw [hrep, parseValue]
      simp only [hne, if_false, if_true]
      by_cases hd : maxNestingDepth < depth + 1
      · rw [if_pos hd]
      · rw [if_neg hd, skipSpace_cons_of_not_space _ _ (by decide)]
        simp only [hnb, if_false]
        cases fuel with
        | zero => rfl
        | succ fuel =>
          rw [parseElements, hrep1, ih fuel (depth + 1) rest (by omega)]

/-- A body that is an object whose first member holds 10000 or more arrays, one inside the
other, is not decoded: `json.Unmarshal` returns the syntax error. -/
theorem jsonUnmarshalRequest_too_deep (k : Nat) (rest : List Char) (req : request)
    (hk : maxNestingDepth ≤ k + 1) :
    jsonUnmarshalRequest ("\x7b\"a\":".data ++ (List.replicate (k + 1) '[' ++ rest)) req
      = .error jsonSyntaxError := by
  have hdata : "\x7b\"a\":".data ++ (List.replicate (k + 1) '[' ++ rest)
      = '{' :: '"' :: 'a' :: '"' :: ':' :: (List.replicate (k + 1) '[' ++ rest) := rfl
  have hparse : parseJSON ("\x7b\"a\":".data ++ (List.replicate (k + 1) '[' ++ rest)) = none := by
    rw [hdata]
    unfold parseJSON
    rw [skipSpace_cons_of_not_space _ _ (by decide)]
    simp only [List.length_cons]
    rw [parseValue]
    have hd : ¬ maxNestingDepth < 0 + 1 := by decide
    have hq : ('"' : Char) ≠ '}' := by decide
    simp only [if_true, hd, if_false, skipSpace_cons_of_not_space '"' _ (by decide), hq]
    rw [parseMembers]
    have hkey : scanStringBody ('a' :: '"' :: ':' :: (List.replicate (k + 1) '[' ++ rest))
        = some (['a'], ':' :: (List.replicate (k + 1) '[' ++ rest)) := by
      have := scanStringFrom_flatMap ['a'] (':' :: (List.replicate (k + 1) '[' ++ rest))
      exact this
    have hsp : skipSpace (List.replicate (k + 1) '[' ++ rest)
        = List.replicate (k + 1) '[' ++ rest := by
      simp only [List.replicate, List.cons_append]
      exact skipSpace_cons_of_not_space _ _ (by decide)
    simp only [if_true, hkey, skipSpace_cons_of_not_space ':' _ (by decide), hsp]
    rw [parseValue_too_deep k _ 1 rest (by omega)]
  unfold jsonUnmarshalRequest
  rw [hparse]
/-! ### C8: errors of the store in the handlers -/

theorem handleErrors_NewRecorder (err : Error) :
    handleErrors NewRecorder err = ⟨500, err.Error.data ++ ['\n']⟩ := by
  simp [handleErrors, httpError, ResponseRecorder.WriteHeader, ResponseRecorder.Write,
    NewRecorder, StatusInternalServerError]

/-- The handler `Create` when the store returns an error. -/
theorem create_handler_store_error {σ : Type} (s : Server σ) (st st1 : σ) (bytes : List Char)
    (vars : List (String × String)) (req : request) (cm : Option CarModel) (err : Error)
    (hreq : jsonUnmarshalRequest bytes request.zero = .ok req)
    (h : s.DB.Create st req.Brand req.Model req.Price req.Status req.Mileage
      = ((cm, some err), st1)) :
    Server.Create s st NewRecorder ⟨(bytes, none), vars⟩
      = (⟨500, err.Error.data ++ ['\n']⟩, st1) := by
  simp only [Server.Create, hreq, h, handleErrors_NewRecorder]

/-- C8 as stated fails: for an id no record has, the handler `Get` answers 500, but the body is
the text of `ErrNotFound` followed by a line feed (`http.Error` writes the text as a line), not
the text alone. -/
theorem C8_error_body_is_text_with_newline :
    (Server.Get setupServer setupDB NewRecorder ⟨([], none), [("id", "99")]⟩).1
      = ⟨500, "car model not found\n".data⟩ ∧
    Error.ErrNotFound.Error = "car model not found" ∧
    (Server.Get setupServer setupDB NewRecorder ⟨([], none), [("id", "99")]⟩).1.Body
      ≠ Error.ErrNotFound.Error.data := by
  decide

/-- C8, amended: in each of the handlers List, Get, Create, Update and Delete, when the call
of the store is reached and returns an error (`ErrNotFound`, `ErrBadPrice`, `ErrBadMileage` or
any other), the response has status 500 and its body is the text of the error followed by a
line feed; the store is left as the call left it. For `Update` the call of the store is the
one the handler makes, with `req.Brand` in both text positions. -/
theorem C8_store_error_answers_500 {σ : Type} (s : Server σ) (st st1 : σ) (r : Request)
    (err : Error) :
    (∀ cms, s.DB.List st = ((cms, some err), st1) →
      Server.List s st NewRecorder r = (⟨500, err.Error.data ++ ['\n']⟩, st1)) ∧
    (∀ id cm, strconvAtoi (mapIndex r.Vars "id" "") = some id →
      s.DB.Get st id = ((cm, some err), st1) →
      Server.Get s st NewRecorder r = (⟨500, err.Error.data ++ ['\n']⟩, st1)) ∧
    (∀ bytes req cm, r.Body = (bytes, none) →
      jsonUnmarshalRequest bytes request.zero = .ok req →
      s.DB.Create st req.Brand req.Model req.Price req.Status req.Mileage
        = ((cm, some err), st1) →
      Server.Create s st NewRecorder r = (⟨500, err.Error.data ++ ['\n']⟩, st1)) ∧
    (∀ bytes req id cm, r.Body = (bytes, none) →
      jsonUnmarshalRequest bytes request.zero = .ok req →
      strconvAtoi (mapIndex r.Vars "id" "") = some id →
      s.DB.Update st id req.Brand req.Brand req.Price req.Status req.Mileage
        = ((cm, some err), st1) →
      Server.Update s st NewRecorder r = (⟨500, err.Error.data ++ ['\n']⟩, st1)) ∧
    (∀ id, strconvAtoi (mapIndex r.Vars "id" "") = some id →
      s.DB.Delete st id = (some err, st1) →
      Server.Delete s st NewRecorder r = (⟨500, err.Error.data ++ ['\n']⟩, st1)) := by
  have hresp := handleErrors_NewRecorder err
  refine ⟨?_, ?_, ?_, ?_, ?_⟩
  · intro cms h
    simp only [Server.List, h, hresp]
  · intro id cm hid h
    simp only [Server.Get, hid, h, hresp]
  · intro bytes req cm hbody hreq h
    simp only [Server.Create, hbody, hreq, h, hresp]
  · intro bytes req id cm hbody hreq hid h
    simp only [Server.Update, hbody, hreq, hid, h, hresp]
  · intro id hid h
    simp only [Server.Delete, hid, h, hresp]

/-- C8, amended, on the store of the tests: `Delete` of the absent id 99 (`ErrNotFound`) and
`Create` with a negative price (`ErrBadPrice`). -/
theorem C8_store_error_answers_500_witness :
    Server.Delete setupServer setupDB NewRecorder ⟨([], none), [("id", "99")]⟩
      = (⟨500, "car model not found\n".data⟩, setupDB) ∧
    Server.Create setupServer setupDB NewRecorder
        ⟨("\x7b\"brand\":\"b\",\"model\":\"m\",\"price\":-1\x7d".data, none), []⟩
      = (⟨500, "\x27price\x27 field is invalid\n".data⟩, setupDB) :=
  ⟨(C8_store_error_answers_500 setupServer setupDB setupDB
      ⟨([], none), [("id", "99")]⟩ Error.ErrNotFound).2.2.2.2 99 (by decide) (by decide),
   (C8_store_error_answers_500 setupServer setupDB setupDB
      ⟨("\x7b\"brand\":\"b\",\"model\":\"m\",\"price\":-1\x7d".data, none), []⟩
      Error.ErrBadPrice).2.2.1 _ ⟨utf8 "b", utf8 "m", -1, 0, 0⟩ none rfl (by rfl) (by decide)⟩

/-! ### C7: the handler `Create` -/

/-- The handler `Create` when the store returns a record that carries the request fields. -/
theorem create_handler_store_ok {σ : Type} (s : Server σ) (st st1 : σ) (bytes : List Char)
    (vars : List (String × String)) (req : request) (id : Int)
    (hreq : jsonUnmarshalRequest bytes request.zero = .ok req)
    (h : s.DB.Create st req.Brand req.Model req.Price req.Status req.Mileage
      = ((some ⟨id, req.Brand, req.Model, req.Price, req.Status, req.Mileage⟩, none), st1))
    (hid : inInt64 id) :
    (Server.Create s st NewRecorder ⟨(bytes, none), vars⟩).1.Code = 202 ∧
    (Server.Create s st NewRecorder ⟨(bytes, none), vars⟩).2 = st1 ∧
    jsonUnmarshalCarModel (Server.Create s st NewRecorder ⟨(bytes, none), vars⟩).1.Body
      CarModel.zero
      = .ok ⟨id, req.Brand, req.Model, req.Price, req.Status, req.Mileage⟩ := by
  obtain ⟨hs, hp, hm⟩ := jsonUnmarshalRequest_valid bytes req hreq
  obtain ⟨⟨brand, hbrand⟩, ⟨model, hmodel⟩⟩ := jsonUnmarshalRequest_text bytes req hreq
  have hmarshal := jsonMarshalCarModel_text
    ⟨id, req.Brand, req.Model, req.Price, req.Status, req.Mileage⟩ hs
  have hround := jsonUnmarshal_marshal
    ⟨id, req.Brand, req.Model, req.Price, req.Status, req.Mileage⟩ CarModel.zero brand model
    hbrand hmodel hs hid hp hm
  have hres : Server.Create s st NewRecorder ⟨(bytes, none), vars⟩
      = (⟨202, (jsonMarshalCarModel
          ⟨id, req.Brand, req.Model, req.Price, req.Status, req.Mileage⟩).1⟩, st1) := by
    simp only [Server.Create, hreq, h, jsonMarshalRecord]
    rw [hmarshal]
    simp [ResponseRecorder.WriteHeader, ResponseRecorder.Write, NewRecorder, StatusAccepted]
  rw [hres]
  exact ⟨rfl, rfl, hround⟩

/-- C7: for every request body, the handler `Create` answers 422 (with the store untouched)
when the body does not decode into the request type, which includes every body that nests
arrays and objects deeper than `maxNestingDepth` (an object whose member holds 10000 arrays,
one inside the other, for one); otherwise 500 when `Create` of the store
returns an error; otherwise, when the store returns a record with the five request fields and
a 64-bit id, 202 with a body that decodes to that record: Brand, Model, Price, Status and
Mileage of the decoded request and the Id the store assigned. For the in-memory store (with a
64-bit counter) and for the relational store over any pool this reads: 500 for a negative
price or mileage (and, relational store, when the INSERT fails), else 202 with a body that
decodes to the request fields with the id `LastID`, respectively the id the INSERT returned. -/
theorem C7_create_handler_responses {σ : Type} (s : Server σ) (st : σ) (bytes : List Char)
    (vars : List (String × String)) :
    (∀ err, jsonUnmarshalRequest bytes request.zero = .error err →
      Server.Create s st NewRecorder ⟨(bytes, none), vars⟩
        = (⟨422, err.Error.data ++ ['\n']⟩, st)) ∧
    (∀ (k : Nat) (rest : List Char), 10000 ≤ k + 1 →
      Server.Create s st NewRecorder
          ⟨("\x7b\"a\":".data ++ (List.replicate (k + 1) '[' ++ rest), none), vars⟩
        = (⟨422, jsonSyntaxError.Error.data ++ ['\n']⟩, st)) ∧
    (∀ req, jsonUnmarshalRequest bytes request.zero = .ok req →
      (∀ cm err st1,
        s.DB.Create st req.Brand req.Model req.Price req.Status req.Mileage
          = ((cm, some err), st1) →
        (Server.Create s st NewRecorder ⟨(bytes, none), vars⟩).1.Code = 500 ∧
        (Server.Create s st NewRecorder ⟨(bytes, none), vars⟩).2 = st1) ∧
      (∀ id st1,
        s.DB.Create st req.Brand req.Model req.Price req.Status req.Mileage
          = ((some ⟨id, req.Brand, req.Model, req.Price, req.Status, req.Mileage⟩, none),
             st1) →
        inInt64 id →
        (Server.Create s st NewRecorder ⟨(bytes, none), vars⟩).1.Code = 202 ∧
        (Server.Create s st NewRecorder ⟨(bytes, none), vars⟩).2 = st1 ∧
        jsonUnmarshalCarModel (Server.Create s st NewRecorder ⟨(bytes, none), vars⟩).1.Body
          CarModel.zero
          = .ok ⟨id, req.Brand, req.Model, req.Price, req.Status, req.Mileage⟩) ∧
      (∀ db : mockDB, inInt64 db.LastID →
        ((req.Price < 0 ∨ req.Mileage < 0) →
          (Server.Create ⟨mockDB.asDB⟩ db NewRecorder ⟨(bytes, none), vars⟩).1.Code = 500 ∧
          (Server.Create ⟨mockDB.asDB⟩ db NewRecorder ⟨(bytes, none), vars⟩).2 = db) ∧
        (0 ≤ req.Price → 0 ≤ req.Mileage →
          (Server.Create ⟨mockDB.asDB⟩ db NewRecorder ⟨(bytes, none), vars⟩).1.Code = 202 ∧
          jsonUnmarshalCarModel
            (Server.Create ⟨mockDB.asDB⟩ db NewRecorder ⟨(bytes, none), vars⟩).1.Body
            CarModel.zero
            = .ok ⟨db.LastID, req.Brand, req.Model, req.Price, req.Status, req.Mileage⟩)) ∧
      (∀ (τ : Type) (pool : Pool τ) (t : τ),
        ((req.Price < 0 ∨ req.Mileage < 0) →
          (Server.Create ⟨PSQLdb.asDB pool⟩ t NewRecorder ⟨(bytes, none), vars⟩).1.Code = 500 ∧
          (Server.Create ⟨PSQLdb.asDB pool⟩ t NewRecorder ⟨(bytes, none), vars⟩).2 = t) ∧
        (0 ≤ req.Price → 0 ≤ req.Mileage →
          (∀ err t1,
            pool.insertReturningId t req.Brand req.Model req.Price req.Status req.Mileage
              = (.error err, t1) →
            (Server.Create ⟨PSQLdb.asDB pool⟩ t NewRecorder ⟨(bytes, none), vars⟩).1.Code
              = 500) ∧
          (∀ id t1,
            pool.insertReturningId t req.Brand req.Model req.Price req.Status req.Mileage
              = (.ok id, t1) →
            inInt64 id →
            (Server.Create ⟨PSQLdb.asDB pool⟩ t NewRecorder ⟨(bytes, none), vars⟩).1.Code
              = 202 ∧
            jsonUnmarshalCarModel
              (Server.Create ⟨PSQLdb.asDB pool⟩ t NewRecorder ⟨(bytes, none), vars⟩).1.Body
              CarModel.zero
              = .ok ⟨id, req.Brand, req.Model, req.Price, req.Status, req.Mileage⟩)))) := by
  refine ⟨?_, ?_, ?_⟩
  · intro err herr
    simp [Server.Create, herr, httpError, ResponseRecorder.WriteHeader, ResponseRecorder.Write,
      NewRecorder, StatusUnprocessableEntity]
  · intro k rest hk
    have herr := jsonUnmarshalRequest_too_deep k rest request.zero hk
    simp only [Server.Create, herr, httpError, ResponseRecorder.WriteHeader,
      ResponseRecorder.Write, NewRecorder, StatusUnprocessableEntity, List.nil_append]
  · intro req hreq
    refine ⟨?_, ?_, ?_, ?_⟩
    · intro cm err st1 h
      rw [create_handler_store_error s st st1 bytes vars req cm err hreq h]
      exact ⟨rfl, rfl⟩
    · intro id st1 h hid
      exact create_handler_store_ok s st st1 bytes vars req id hreq h hid
    · intro db hlast
      constructor
      · intro hneg
        have hc : ∃ err, mockDB.asDB.Create db req.Brand req.Model req.Price req.Status
            req.Mileage = ((none, some err), db) := by
          by_cases hprice : req.Price < 0
          · exact ⟨Error.ErrBadPrice, by simp [mockDB.asDB, mockDB.Create, hprice]⟩
          · have hmil : req.Mileage < 0 := by omega
            exact ⟨Error.ErrBadMileage, by simp [mockDB.asDB, mockDB.Create, hprice, hmil]⟩
        obtain ⟨err, herr⟩ := hc
        rw [create_handler_store_error ⟨mockDB.asDB⟩ db db bytes vars req none err hreq herr]
        exact ⟨rfl, rfl⟩
      · intro hprice hmil
        have hp : ¬ req.Price < 0 := by omega
        have hm : ¬ req.Mileage < 0 := by omega
        have hc : mockDB.asDB.Create db req.Brand req.Model req.Price req.Status req.Mileage
            = ((some ⟨db.LastID, req.Brand, req.Model, req.Price, req.Status, req.Mileage⟩,
                none), (mockDB.push db req.Brand req.Model req.Price req.Status
                  req.Mileage).2) := by
          simp [mockDB.asDB, mockDB.Create, mockDB.push, hp, hm]
        have := create_handler_store_ok ⟨mockDB.asDB⟩ db _ bytes vars req db.LastID hreq hc
          hlast
        exact ⟨this.1, this.2.2⟩
    · intro τ pool t
      constructor
      · intro hneg
        have hc : ∃ err, (PSQLdb.asDB pool).Create t req.Brand req.Model req.Price req.Status
            req.Mileage = ((none, some err), t) := by
          by_cases hprice : req.Price < 0
          · exact ⟨Error.ErrBadPrice, by simp [PSQLdb.asDB, PSQLdb.Create, hprice]⟩
          · have hmil : req.Mileage < 0 := by omega
            exact ⟨Error.ErrBadMileage, by simp [PSQLdb.asDB, PSQLdb.Create, hprice, hmil]⟩
        obtain ⟨err, herr⟩ := hc
        rw [create_handler_store_error ⟨PSQLdb.asDB pool⟩ t t bytes vars req none err hreq
          herr]
        exact ⟨rfl, rfl⟩
      · intro hprice hmil
        have hp : ¬ req.Price < 0 := by omega
        have hm : ¬ req.Mileage < 0 := by omega
        constructor
        · intro err t1 hins
          have hc : (PSQLdb.asDB pool).Create t req.Brand req.Model req.Price req.Status
              req.Mileage = ((none, some err), t1) := by
            simp [PSQLdb.asDB, PSQLdb.Create, hp, hm, hins]
          rw [create_handler_store_error ⟨PSQLdb.asDB pool⟩ t t1 bytes vars req none err hreq
            hc]
        · intro id t1 hins hid
          have hc : (PSQLdb.asDB pool).Create t req.Brand req.Model req.Price req.Status
              req.Mileage
              = ((some ⟨id, req.Brand, req.Model, req.Price, req.Status, req.Mileage⟩, none),
                 t1) := by
            simp [PSQLdb.asDB, PSQLdb.Create, hp, hm, hins]
          have := create_handler_store_ok ⟨PSQLdb.asDB pool⟩ t t1 bytes vars req id hreq hc hid
          exact ⟨this.1, this.2.2⟩

/-- C7, in `TestServer_Create`: the body of the test against the store of 25 records gives
202 and a body that decodes to the record with the request fields (price 123456, mileage
123456, status `ontheway`) and the id 25, which is not zero; the store then holds 26 records.
The body that puts 10000 opening brackets in an object gives 422 and leaves the store as it
is. -/
theorem C7_create_handler_responses_witness :
    jsonUnmarshalRequest testBody request.zero
      = .ok ⟨utf8 "brand", utf8 "model", 123456, ontheway, 123456⟩ ∧
    (Server.Create setupServer setupDB NewRecorder ⟨(testBody, none), []⟩).1.Code = 202 ∧
    (Server.Create setupServer setupDB NewRecorder ⟨(testBody, none), []⟩).2.CarModels.length
      = 26 ∧
    jsonUnmarshalCarModel
      (Server.Create setupServer setupDB NewRecorder ⟨(testBody, none), []⟩).1.Body
      CarModel.zero
      = .ok ⟨25, utf8 "brand", utf8 "model", 123456, ontheway, 123456⟩ ∧
    (25 : Int) ≠ 0 ∧
    Server.Create setupServer setupDB NewRecorder
        ⟨("\x7b\"a\":".data ++ (List.replicate (9999 + 1) '[' ++ []), none), []⟩
      = (⟨422, "json: invalid JSON text\n".data⟩, setupDB) := by
  have hc := C7_create_handler_responses setupServer setupDB testBody []
  have h := (hc.2.2 ⟨utf8 "brand", utf8 "model", 123456, ontheway, 123456⟩ (by rfl)).2.1 25
    (mockDB.Create setupDB (utf8 "brand") (utf8 "model") 123456 ontheway 123456).2 (by rfl)
    (by decide)
  refine ⟨by rfl, h.1, ?_, h.2.2, by decide, hc.2.1 9999 [] (by decide)⟩
  rw [h.2.1]
  decide
/-! ### The bound of the parser is never the reason for a rejection -/

theorem consChar_eq_some (c : Char) (x : Option (List Char × List Char)) (s rest : List Char)
    (h : consChar c x = some (s, rest)) : ∃ s1, x = some (s1, rest) := by
  cases x with
  | none => simp [consChar] at h
  | some p =>
    obtain ⟨s1, r1⟩ := p
    simp only [consChar, Option.some.injEq, Prod.mk.injEq] at h
    exact ⟨s1, by rw [h.2]⟩

/-- A scanned string literal ends before the end of the input: at least the closing quote and
the characters passed over are consumed. -/
theorem scanStringFrom_length (n : Nat) : ∀ (k : Nat) (cs s rest : List Char),
    cs.length ≤ n → scanStringFrom k cs = some (s, rest) → rest.length + k + 1 ≤ cs.length := by
  induction n with
  | zero =>
    intro k cs s rest hlen h
    have : cs = [] := List.length_eq_zero.mp (by omega)
    subst this
    simp [scanStringFrom] at h
  | succ n ih =>
    intro k cs s rest hlen h
    cases cs with
    | nil => simp [scanStringFrom] at h
    | cons c cs1 =>
      simp only [List.length_cons] at hlen ⊢
      cases k with
      | succ k =>
        rw [scanStringFrom] at h
        have := ih k cs1 s rest (by omega) h
        omega
      | zero =>
        rw [scanStringFrom.eq_def] at h
        simp only at h
        split at h
        · simp only [Option.some.injEq, Prod.mk.injEq] at h
          have hr := h.2
          subst hr
          omega
        split at h
        · split at h
          · simp at h
          · rename_i e cs2
            split at h
            · split at h
              · rename_i h1 h2 h3 h4 cs3
                simp only [List.length_cons] at hlen ⊢
                split at h
                · simp at h
                · split at h
                  · split at h
                    · split at h
                      · obtain ⟨s1, hs1⟩ := consChar_eq_some _ _ _ _ h
                        have := ih 6 cs3 s1 rest (by omega) hs1
                        omega
                      · obtain ⟨s1, hs1⟩ := consChar_eq_some _ _ _ _ h
                        have := ih 0 cs3 s1 rest (by omega) hs1
                        omega
                    · obtain ⟨s1, hs1⟩ := consChar_eq_some _ _ _ _ h
                      have := ih 0 cs3 s1 rest (by omega) hs1
                      omega
                  · obtain ⟨s1, hs1⟩ := consChar_eq_some _ _ _ _ h
                    have := ih 0 cs3 s1 rest (by omega) hs1
                    omega
              · simp at h
            · split at h
              · obtain ⟨s1, hs1⟩ := consChar_eq_some _ _ _ _ h
                simp only [List.length_cons] at hlen ⊢
                have := ih 0 cs2 s1 rest (by omega) hs1
                omega
              · simp at h
        split at h
        · simp at h
        · obtain ⟨s1, hs1⟩ := consChar_eq_some _ _ _ _ h
          have := ih 0 cs1 s1 rest (by omega) hs1
          omega

theorem scanStringBody_length (cs s rest : List Char) (h : scanStringBody cs = some (s, rest)) :
    rest.length < cs.length := by
  have := scanStringFrom_length cs.length 0 cs s rest (le_refl _) h
  omega

theorem skipSpace_length (cs : List Char) : (skipSpace cs).length ≤ cs.length := by
  induction cs with
  | nil => simp [skipSpace]
  | cons c cs ih =>
    simp only [skipSpace]
    split
    · simp only [List.length_cons]; omega
    · exact le_refl _

theorem span_snd_length (p : Char → Bool) (cs : List Char) :
    (cs.span p).2.length ≤ cs.length := by
  rw [List.span_eq_take_drop]
  simp only
  induction cs with
  | nil => simp
  | cons c cs ih =>
    simp only [List.dropWhile_cons]
    split
    · simp only [List.length_cons]; omega
    · exact le_refl _

theorem scanDigits_length (cs ds rest : List Char) (h : scanDigits cs = some (ds, rest)) :
    rest.length ≤ cs.length := by
  unfold scanDigits at h
  split at h
  · simp at h
  · simp only [Option.some.injEq] at h
    have := span_snd_length Char.isDigit cs
    rw [h] at this
    exact this

theorem scanFracExp_length (cs t rest : List Char) (h : scanFracExp cs = some (t, rest)) :
    rest.length ≤ cs.length := by
  unfold scanFracExp at h
  simp only at h
  split at h
  · simp at h
  · rename_i f r1 hfrac
    have hr1 : r1.length ≤ cs.length := by
      split at hfrac
      · rename_i r
        split at hfrac
        · rename_i ds r2 hd
          simp only [Option.some.injEq, Prod.mk.injEq] at hfrac
          have := scanDigits_length _ _ _ hd
          rw [← hfrac.2]
          simp only [List.length_cons]
          omega
        · simp at hfrac
      · simp only [Option.some.injEq, Prod.mk.injEq] at hfrac
        rw [← hfrac.2]
    split at h
    · simp only [Option.some.injEq, Prod.mk.injEq] at h
      rw [← h.2]
      exact hr1
    · rename_i e r2
      simp only [List.length_cons] at hr1
      split at h
      · split at h
        · simp at h
        · rename_i sg r3
          simp only [List.length_cons] at hr1
          split at h
          · split at h
            · rename_i ds r4 hd
              simp only [Option.some.injEq, Prod.mk.injEq] at h
              have := scanDigits_length _ _ _ hd
              have hr := h.2
              subst hr
              omega
            · simp at h
          · split at h
            · rename_i ds r4 hd
              simp only [Option.some.injEq, Prod.mk.injEq] at h
              have := scanDigits_length _ _ _ hd
              simp only [List.length_cons] at this
              have hr := h.2
              subst hr
              omega
            · simp at h
      · simp only [Option.some.injEq, Prod.mk.injEq] at h
        rw [← h.2]
        simp only [List.length_cons]
        exact hr1

theorem scanUnsigned_length (cs t rest : List Char) (h : scanUnsigned cs = some (t, rest)) :
    rest.length < cs.length := by
  unfold scanUnsigned at h
  split at h
  · simp at h
  · rename_i d r
    simp only [List.length_cons]
    split at h
    · split at h
      · rename_i t1 r1 hf
        simp only [Option.some.injEq, Prod.mk.injEq] at h
        have := scanFracExp_length _ _ _ hf
        have hr := h.2
        subst hr
        omega
      · simp at h
    · split at h
      · split at h
        · rename_i t1 r1 hf
          simp only [Option.some.injEq, Prod.mk.injEq] at h
          have h1 := scanFracExp_length _ _ _ hf
          have h2 := span_snd_length Char.isDigit r
          have hr := h.2
          subst hr
          omega
        · simp at h
      · simp at h

theorem scanNumber_length (cs t rest : List Char) (h : scanNumber cs = some (t, rest)) :
    rest.length < cs.length := by
  unfold scanNumber at h
  split at h
  · simp at h
  · rename_i c r
    split at h
    · split at h
      · rename_i t1 r1 hu
        simp only [Option.some.injEq, Prod.mk.injEq] at h
        have := scanUnsigned_length _ _ _ hu
        rw [← h.2]
        simp only [List.length_cons]
        omega
      · simp at h
    · exact scanUnsigned_length _ _ _ h

theorem scanWord_length (w cs rest : List Char) (hw : w ≠ []) (h : scanWord w cs = some rest) :
    rest.length < cs.length := by
  unfold scanWord at h
  split at h
  · rename_i hpre
    simp only [Option.some.injEq] at h
    have hp := List.isPrefixOf_iff_prefix.mp hpre
    have hl := hp.length_le
    have hpos : 0 < w.length := List.length_pos.mpr hw
    rw [← h, List.length_drop]
    omega
  · simp at h

theorem skipSpace_eq_cons_length (cs rest : List Char) (c : Char)
    (h : skipSpace cs = c :: rest) : rest.length < cs.length := by
  have := skipSpace_length cs
  rw [h] at this
  simp only [List.length_cons] at this
  omega

/-- A successful parse consumes at least one character, and it succeeds with the same result
under every bound that is at least the number of characters consumed. -/
theorem parse_bound (f : Nat) :
    (∀ d cs v rest, parseValue f d cs = some (v, rest) →
      rest.length < cs.length ∧
      ∀ g, cs.length - rest.length ≤ g → parseValue g d cs = some (v, rest)) ∧
    (∀ d cs acc es rest, parseElements f d cs acc = some (es, rest) →
      rest.length < cs.length ∧
      ∀ g, cs.length - rest.length ≤ g → parseElements g d cs acc = some (es, rest)) ∧
    (∀ d cs acc ms rest, parseMembers f d cs acc = some (ms, rest) →
      rest.length < cs.length ∧
      ∀ g, cs.length - rest.length ≤ g → parseMembers g d cs acc = some (ms, rest)) := by
  induction f with
  | zero =>
    refine ⟨?_, ?_, ?_⟩
    · intro d cs v rest h; simp [parseValue] at h
    · intro d cs acc es rest h; simp [parseElements] at h
    · intro d cs acc ms rest h; simp [parseMembers] at h
  | succ f ih =>
    obtain ⟨ihV, ihE, ihM⟩ := ih
    refine ⟨?_, ?_, ?_⟩
    · intro d cs v rest h
      cases cs with
      | nil => simp [parseValue] at h
      | cons c r0 =>
        rw [parseValue] at h
        simp only [List.length_cons]
        by_cases hc1 : c = '{'
        · simp only [hc1, if_true] at h
          by_cases hd : maxNestingDepth < d + 1
          · simp [hd] at h
          simp only [hd, if_false] at h
          cases hsk : skipSpace r0 with
          | nil => simp [hsk] at h
          | cons c1 rest1 =>
            have hlen1 := skipSpace_eq_cons_length _ _ _ hsk
            simp only [hsk] at h
            by_cases hc2 : c1 = '}'
            · simp only [hc2, if_true, Option.some.injEq, Prod.mk.injEq] at h
              obtain ⟨hv, hr⟩ := h
              subst hv hr
              refine ⟨by omega, ?_⟩
              intro g hg
              obtain ⟨g1, rfl⟩ : ∃ g1, g = g1 + 1 := ⟨g - 1, by omega⟩
              subst hc1 hc2
              rw [parseValue]
              simp [hsk, hd]
            · simp only [hc2, if_false] at h
              cases hpm : parseMembers f (d + 1) (c1 :: rest1) [] with
              | none => simp [hpm] at h
              | some p =>
                obtain ⟨ms, r⟩ := p
                simp only [hpm, Option.some.injEq, Prod.mk.injEq] at h
                obtain ⟨hv, hr⟩ := h
                subst hv hr
                obtain ⟨hl, hg1⟩ := ihM _ _ _ _ _ hpm
                simp only [List.length_cons] at hl hg1
                refine ⟨by omega, ?_⟩
                intro g hg
                obtain ⟨g1, rfl⟩ : ∃ g1, g = g1 + 1 := ⟨g - 1, by omega⟩
                subst hc1
                rw [parseValue]
                simp [hsk, hc2, hd, hg1 g1 (by omega)]
        · simp only [hc1, if_false] at h
          by_cases hc3 : c = '['
          · simp only [hc3, if_true] at h
            by_cases hd : maxNestingDepth < d + 1
            · simp [hd] at h
            simp only [hd, if_false] at h
            cases hsk : skipSpace r0 with
            | nil => simp [hsk] at h
            | cons c1 rest1 =>
              have hlen1 := skipSpace_eq_cons_length _ _ _ hsk
              simp only [hsk] at h
              by_cases hc2 : c1 = ']'
              · simp only [hc2, if_true, Option.some.injEq, Prod.mk.injEq] at h
                obtain ⟨hv, hr⟩ := h
                subst hv hr
                refine ⟨by omega, ?_⟩
                intro g hg
                obtain ⟨g1, rfl⟩ : ∃ g1, g = g1 + 1 := ⟨g - 1, by omega⟩
                subst hc3 hc2
                rw [parseValue]
                simp [hsk, hd]
              · simp only [hc2, if_false] at h
                cases hpe : parseElements f (d + 1) (c1 :: rest1) [] with
                | none => simp [hpe] at h
                | some p =>
                  obtain ⟨es, r⟩ := p
                  simp only [hpe, Option.some.injEq, Prod.mk.injEq] at h
                  obtain ⟨hv, hr⟩ := h
                  subst hv hr
                  obtain ⟨hl, hg1⟩ := ihE _ _ _ _ _ hpe
                  simp only [List.length_cons] at hl hg1
                  refine ⟨by omega, ?_⟩
                  intro g hg
                  obtain ⟨g1, rfl⟩ : ∃ g1, g = g1 + 1 := ⟨g - 1, by omega⟩
                  subst hc3
                  rw [parseValue]
                  simp [hsk, hc2, hd, hg1 g1 (by omega)]
          · simp only [hc3, if_false] at h
            have hrest : rest.length < r0.length + 1 := by
              split at h
              · split at h
                · rename_i s r hs
                  simp only [Option.some.injEq, Prod.mk.injEq] at h
                  have := scanStringBody_length _ _ _ hs
                  rw [← h.2]
                  omega
                · simp at h
              split at h
              · split at h
                · rename_i lit r hs
                  simp only [Option.some.injEq, Prod.mk.injEq] at h
                  have := scanNumber_length _ _ _ hs
                  simp only [List.length_cons] at this
                  rw [← h.2]
                  exact this
                · simp at h
              split at h
              · split at h
                · rename_i r hs
                  simp only [Option.some.injEq, Prod.mk.injEq] at h
                  have := scanWord_length _ _ _ (by simp) hs
                  simp only [List.length_cons] at this
                  rw [← h.2]
                  exact this
                · simp at h
              split at h
              · split at h
                · rename_i r hs
                  simp only [Option.some.injEq, Prod.mk.injEq] at h
                  have := scanWord_length _ _ _ (by simp) hs
                  simp only [List.length_cons] at this
                  rw [← h.2]
                  exact this
                · simp at h
              split at h
              · split at h
                · rename_i r hs
                  simp only [Option.some.injEq, Prod.mk.injEq] at h
                  have := scanWord_length _ _ _ (by simp) hs
                  simp only [List.length_cons] at this
                  rw [← h.2]
                  exact this
                · simp at h
              · simp at h
            refine ⟨hrest, ?_⟩
            intro g hg
            obtain ⟨g1, rfl⟩ : ∃ g1, g = g1 + 1 := ⟨g - 1, by omega⟩
            rw [parseValue]
            simp only [hc1, if_false, hc3]
            exact h
    · intro d cs acc es rest h
      rw [parseElements] at h
      cases hpv : parseValue f d cs with
      | none => simp [hpv] at h
      | some p =>
        obtain ⟨v, rest0⟩ := p
        obtain ⟨hl0, hg0⟩ := ihV _ _ _ _ hpv
        simp only [hpv] at h
        cases hsk : skipSpace rest0 with
        | nil => simp [hsk] at h
        | cons c rest1 =>
          have hlen1 := skipSpace_eq_cons_length _ _ _ hsk
          simp only [hsk] at h
          by_cases hc1 : c = ','
          · simp only [hc1, if_true] at h
            obtain ⟨hl2, hg2⟩ := ihE _ _ _ _ _ h
            have hl3 := skipSpace_length rest1
            refine ⟨by omega, ?_⟩
            intro g hg
            obtain ⟨g1, rfl⟩ : ∃ g1, g = g1 + 1 := ⟨g - 1, by omega⟩
            subst hc1
            rw [parseElements]
            simp [hg0 g1 (by omega), hsk, hg2 g1 (by omega)]
          · simp only [hc1, if_false] at h
            by_cases hc2 : c = ']'
            · simp only [hc2, if_true, Option.some.injEq, Prod.mk.injEq] at h
              obtain ⟨hv, hr⟩ := h
              subst hv hr
              refine ⟨by omega, ?_⟩
              intro g hg
              obtain ⟨g1, rfl⟩ : ∃ g1, g = g1 + 1 := ⟨g - 1, by omega⟩
              subst hc2
              rw [parseElements]
              simp [hg0 g1 (by omega), hsk]
            · simp [hc2] at h
    · intro d cs acc ms rest h
      cases cs with
      | nil => simp [parseMembers] at h
      | cons q afterQuote =>
        rw [parseMembers] at h
        simp only [List.length_cons]
        by_cases hq : q = '"'
        · simp only [hq, if_true] at h
          cases hkey : scanStringBody afterQuote with
          | none => simp [hkey] at h
          | some p =>
            obtain ⟨key, afterKey⟩ := p
            have hlk := scanStringBody_length _ _ _ hkey
            simp only [hkey] at h
            cases hsk : skipSpace afterKey with
            | nil => simp [hsk] at h
            | cons colon afterColon =>
              have hlc := skipSpace_eq_cons_length _ _ _ hsk
              simp only [hsk] at h
              by_cases hcol : colon = ':'
              · simp only [hcol, if_true] at h
                have hls := skipSpace_length afterColon
                cases hpv : parseValue f d (skipSpace afterColon) with
                | none => simp [hpv] at h
                | some p =>
                  obtain ⟨v, rest0⟩ := p
                  obtain ⟨hl0, hg0⟩ := ihV _ _ _ _ hpv
                  simp only [hpv] at h
                  cases hsk2 : skipSpace rest0 with
                  | nil => simp [hsk2] at h
                  | cons c rest1 =>
                    have hlen1 := skipSpace_eq_cons_length _ _ _ hsk2
                    simp only [hsk2] at h
                    by_cases hc1 : c = ','
                    · simp only [hc1, if_true] at h
                      obtain ⟨hl2, hg2⟩ := ihM _ _ _ _ _ h
                      have hl3 := skipSpace_length rest1
                      refine ⟨by omega, ?_⟩
                      intro g hg
                      obtain ⟨g1, rfl⟩ : ∃ g1, g = g1 + 1 := ⟨g - 1, by omega⟩
                      subst hc1 hq hcol
                      rw [parseMembers]
                      simp [hkey, hsk, hg0 g1 (by omega), hsk2, hg2 g1 (by omega)]
                    · simp only [hc1, if_false] at h
                      by_cases hc2 : c = '}'
                      · simp only [hc2, if_true, Option.some.injEq, Prod.mk.injEq] at h
                        obtain ⟨hv, hr⟩ := h
                        subst hv hr
                        refine ⟨by omega, ?_⟩
                        intro g hg
                        obtain ⟨g1, rfl⟩ : ∃ g1, g = g1 + 1 := ⟨g - 1, by omega⟩
                        subst hc2 hq hcol
                        rw [parseMembers]
                        simp [hkey, hsk, hg0 g1 (by omega), hsk2]
                      · simp [hc2] at h
              · simp [hcol] at h
        · simp [hq] at h

/-- The bound `parseJSON` passes is enough: a text that parses as one value under any bound
parses under it with the same result, so `parseJSON` rejects syntax errors only. -/
theorem parseJSON_bound_enough (data : List Char) (f : Nat) (v : JSON) (rest : List Char)
    (h : parseValue f 0 (skipSpace data) = some (v, rest)) (hrest : skipSpace rest = []) :
    parseJSON data = some v := by
  obtain ⟨hl, hg⟩ := (parse_bound f).1 _ _ _ _ h
  unfold parseJSON
  rw [hg _ (by omega)]
  simp [hrest]

/-! ### C11: the handler `Update` and the arguments it hands to the store -/

/-- The handler `Update`, once the body is decoded and the route variable is read, is the call
of the store with `req.Brand` in the place of the brand and in the place of the model, followed
by the answer to its result; `req.Model` does not occur. -/
theorem update_handler_call {σ : Type} (s : Server σ) (st : σ) (bytes : List Char)
    (vars : List (String × String)) (req : request) (id : Int)
    (hreq : jsonUnmarshalRequest bytes request.zero = .ok req)
    (hid : strconvAtoi (mapIndex vars "id" "") = some id) :
    Server.Update s st NewRecorder ⟨(bytes, none), vars⟩ =
      (match s.DB.Update st id req.Brand req.Brand req.Price req.Status req.Mileage with
       | ((_, some err), st1) => (handleErrors NewRecorder err, st1)
       | ((cm, none), st1) =>
         match jsonMarshalRecord cm with
         | (_, some err) => (handleErrors NewRecorder err, st1)
         | (json, none) => ((NewRecorder.WriteHeader StatusAccepted).Write json, st1)) := by
  simp only [Server.Update, hreq, hid]

/-- The handler `Update` when the store returns the record with the arguments it was given. -/
theorem update_handler_store_ok {σ : Type} (s : Server σ) (st st1 : σ) (bytes : List Char)
    (vars : List (String × String)) (req : request) (id : Int)
    (hreq : jsonUnmarshalRequest bytes request.zero = .ok req)
    (hid : strconvAtoi (mapIndex vars "id" "") = some id)
    (h : s.DB.Update st id req.Brand req.Brand req.Price req.Status req.Mileage
      = ((some ⟨id, req.Brand, req.Brand, req.Price, req.Status, req.Mileage⟩, none), st1)) :
    (Server.Update s st NewRecorder ⟨(bytes, none), vars⟩).1.Code = 202 ∧
    (Server.Update s st NewRecorder ⟨(bytes, none), vars⟩).2 = st1 ∧
    jsonUnmarshalCarModel (Server.Update s st NewRecorder ⟨(bytes, none), vars⟩).1.Body
      CarModel.zero
      = .ok ⟨id, req.Brand, req.Brand, req.Price, req.Status, req.Mileage⟩ := by
  obtain ⟨hs, hp, hm⟩ := jsonUnmarshalRequest_valid bytes req hreq
  have hrange : inInt64 id := parseInt_inInt64 _ _ hid
  have hmarshal := jsonMarshalCarModel_text
    ⟨id, req.Brand, req.Brand, req.Price, req.Status, req.Mileage⟩ hs
  obtain ⟨⟨brand, hbrand⟩, _⟩ := jsonUnmarshalRequest_text bytes req hreq
  have hround := jsonUnmarshal_marshal
    ⟨id, req.Brand, req.Brand, req.Price, req.Status, req.Mileage⟩ CarModel.zero brand brand
    hbrand hbrand hs hrange hp hm
  have hres : Server.Update s st NewRecorder ⟨(bytes, none), vars⟩
      = (⟨202, (jsonMarshalCarModel
          ⟨id, req.Brand, req.Brand, req.Price, req.Status, req.Mileage⟩).1⟩, st1) := by
    rw [update_handler_call s st bytes vars req id hreq hid]
    simp only [h, jsonMarshalRecord]
    rw [hmarshal]
    simp [ResponseRecorder.WriteHeader, ResponseRecorder.Write, NewRecorder, StatusAccepted]
  rw [hres]
  exact ⟨rfl, rfl, hround⟩

/-- The function `Update` of the in-memory store on an id that a record carries: the record
returned carries the id and the five arguments, and it is in the store afterwards. -/
theorem mockUpdate_present (db : mockDB) (id : Int) (brand model : ByteString) (price : Int)
    (status : Status) (mileage : Int) (hprice : 0 ≤ price) (hmileage : 0 ≤ mileage)
    (hex : ∃ cm ∈ db.CarModels, cm.Id = id) :
    (mockDB.Update db id brand model price status mileage).1
      = (some ⟨id, brand, model, price, status, mileage⟩, none) ∧
    (⟨id, brand, model, price, status, mileage⟩ : CarModel)
      ∈ (mockDB.Update db id brand model price status mileage).2.CarModels := by
  have hp : ¬ price < 0 := by omega
  have hm : ¬ mileage < 0 := by omega
  obtain ⟨l1, cm, l2, hsplit, hcm, _, hfind⟩ := findFrom_present id db.CarModels 0 hex
  have hset : db.CarModels.set (0 + (l1.length : Int)).toNat
      ⟨id, brand, model, price, status, mileage⟩
      = l1 ++ ⟨id, brand, model, price, status, mileage⟩ :: l2 := by
    rw [hsplit]
    simp
  simp only [mockDB.Update, hp, hm, if_false, mockDB.find, hfind, hcm, hset]
  simp

/-- C11: for every request of the handler `Update` whose body decodes to `req` and whose route
variable `id` parses, the handler calls `Update` of the store with `req.Brand` as the brand
argument and as the model argument (with the id, price, status and mileage of the request) and
answers to the result of that call; `req.Model` is never passed: a body that decodes to the
same brand, price, status and mileage gives the same response and the same store, whatever
its model. On success the record of the 202 response has Model equal to the brand of the body:
whenever the store returns the record of its arguments, and so for the in-memory store holding
a record of that id and for the relational store whose UPDATE affected a row (price and
mileage not negative), where the stored record carries the brand as its model too. -/
theorem C11_update_handler_passes_brand_as_model {σ : Type} (s : Server σ) (st : σ)
    (bytes : List Char) (vars : List (String × String)) (req : request) (id : Int)
    (hreq : jsonUnmarshalRequest bytes request.zero = .ok req)
    (hid : strconvAtoi (mapIndex vars "id" "") = some id) :
    Server.Update s st NewRecorder ⟨(bytes, none), vars⟩ =
      (match s.DB.Update st id req.Brand req.Brand req.Price req.Status req.Mileage with
       | ((_, some err), st1) => (handleErrors NewRecorder err, st1)
       | ((cm, none), st1) =>
         match jsonMarshalRecord cm with
         | (_, some err) => (handleErrors NewRecorder err, st1)
         | (json, none) => ((NewRecorder.WriteHeader StatusAccepted).Write json, st1)) ∧
    (∀ bytes1 req1, jsonUnmarshalRequest bytes1 request.zero = .ok req1 →
      req1.Brand = req.Brand → req1.Price = req.Price → req1.Status = req.Status →
      req1.Mileage = req.Mileage →
      Server.Update s st NewRecorder ⟨(bytes1, none), vars⟩
        = Server.Update s st NewRecorder ⟨(bytes, none), vars⟩) ∧
    (∀ st1,
      s.DB.Update st id req.Brand req.Brand req.Price req.Status req.Mileage
        = ((some ⟨id, req.Brand, req.Brand, req.Price, req.Status, req.Mileage⟩, none), st1) →
      (Server.Update s st NewRecorder ⟨(bytes, none), vars⟩).1.Code = 202 ∧
      (Server.Update s st NewRecorder ⟨(bytes, none), vars⟩).2 = st1 ∧
      jsonUnmarshalCarModel (Server.Update s st NewRecorder ⟨(bytes, none), vars⟩).1.Body
        CarModel.zero
        = .ok ⟨id, req.Brand, req.Brand, req.Price, req.Status, req.Mileage⟩) ∧
    (∀ db : mockDB, (∃ cm ∈ db.CarModels, cm.Id = id) → 0 ≤ req.Price → 0 ≤ req.Mileage →
      (Server.Update ⟨mockDB.asDB⟩ db NewRecorder ⟨(bytes, none), vars⟩).1.Code = 202 ∧
      jsonUnmarshalCarModel
        (Server.Update ⟨mockDB.asDB⟩ db NewRecorder ⟨(bytes, none), vars⟩).1.Body CarModel.zero
        = .ok ⟨id, req.Brand, req.Brand, req.Price, req.Status, req.Mileage⟩ ∧
      (⟨id, req.Brand, req.Brand, req.Price, req.Status, req.Mileage⟩ : CarModel)
        ∈ (Server.Update ⟨mockDB.asDB⟩ db NewRecorder ⟨(bytes, none), vars⟩).2.CarModels) ∧
    (∀ (τ : Type) (pool : Pool τ) (t t1 : τ) (n : Nat),
      pool.execUpdate t req.Brand req.Brand req.Price req.Status req.Mileage id
        = (.ok (n + 1), t1) →
      0 ≤ req.Price → 0 ≤ req.Mileage →
      (Server.Update ⟨PSQLdb.asDB pool⟩ t NewRecorder ⟨(bytes, none), vars⟩).1.Code = 202 ∧
      (Server.Update ⟨PSQLdb.asDB pool⟩ t NewRecorder ⟨(bytes, none), vars⟩).2 = t1 ∧
      jsonUnmarshalCarModel
        (Server.Update ⟨PSQLdb.asDB pool⟩ t NewRecorder ⟨(bytes, none), vars⟩).1.Body
        CarModel.zero
        = .ok ⟨id, req.Brand, req.Brand, req.Price, req.Status, req.Mileage⟩) := by
  refine ⟨update_handler_call s st bytes vars req id hreq hid, ?_, ?_, ?_, ?_⟩
  · intro bytes1 req1 hreq1 hb hp hs hm
    rw [update_handler_call s st bytes1 vars req1 id hreq1 hid,
      update_handler_call s st bytes vars req id hreq hid, hb, hp, hs, hm]
  · intro st1 h
    exact update_handler_store_ok s st st1 bytes vars req id hreq hid h
  · intro db hex hprice hmileage
    obtain ⟨hres, hmem⟩ := mockUpdate_present db id req.Brand req.Brand req.Price req.Status
      req.Mileage hprice hmileage hex
    have hcall : mockDB.asDB.Update db id req.Brand req.Brand req.Price req.Status req.Mileage
        = ((some ⟨id, req.Brand, req.Brand, req.Price, req.Status, req.Mileage⟩, none),
           (mockDB.Update db id req.Brand req.Brand req.Price req.Status req.Mileage).2) :=
      Prod.ext hres rfl
    obtain ⟨hcode, hstate, hbody⟩ := update_handler_store_ok ⟨mockDB.asDB⟩ db _ bytes vars req
      id hreq hid hcall
    refine ⟨hcode, hbody, ?_⟩
    rw [hstate]
    exact hmem
  · intro τ pool t t1 n hexec hprice hmileage
    have hp : ¬ req.Price < 0 := by omega
    have hm : ¬ req.Mileage < 0 := by omega
    have hcall : (PSQLdb.asDB pool).Update t id req.Brand req.Brand req.Price req.Status
        req.Mileage
        = ((some ⟨id, req.Brand, req.Brand, req.Price, req.Status, req.Mileage⟩, none), t1) := by
      simp [PSQLdb.asDB, PSQLdb.Update, hp, hm, hexec]
    exact update_handler_store_ok ⟨PSQLdb.asDB pool⟩ t t1 bytes vars req id hreq hid hcall

/-- C11, in `TestServer_Update`: the body with brand "brand" and model "model" for id 0
against the store of 25 records gives 202, the body decodes to the record with id 0 whose Brand
and Model are both "brand", and that is the record the store holds for id 0 afterwards. -/
theorem C11_update_handler_passes_brand_as_model_witness :
    jsonUnmarshalRequest testBody request.zero
      = .ok ⟨utf8 "brand", utf8 "model", 123456, ontheway, 123456⟩ ∧
    utf8 "model" ≠ utf8 "brand" ∧
    strconvAtoi (mapIndex [("id", "0")] "id" "") = some 0 ∧
    (Server.Update setupServer setupDB NewRecorder ⟨(testBody, none), [("id", "0")]⟩).1.Code
      = 202 ∧
    jsonUnmarshalCarModel
      (Server.Update setupServer setupDB NewRecorder ⟨(testBody, none), [("id", "0")]⟩).1.Body
      CarModel.zero
      = .ok ⟨0, utf8 "brand", utf8 "brand", 123456, ontheway, 123456⟩ ∧
    (⟨0, utf8 "brand", utf8 "brand", 123456, ontheway, 123456⟩ : CarModel)
      ∈ (Server.Update setupServer setupDB NewRecorder
          ⟨(testBody, none), [("id", "0")]⟩).2.CarModels := by
  have h := (C11_update_handler_passes_brand_as_model setupServer setupDB testBody
    [("id", "0")] ⟨utf8 "brand", utf8 "model", 123456, ontheway, 123456⟩ 0 (by rfl)
    (by decide)).2.2.2.1 setupDB
    ⟨⟨0, utf8 "QwErTyUiOpAsDfGh", utf8 "zXcVbNmLkJhGfDsA", 0, sold, 37⟩, by decide, rfl⟩
    (by decide) (by decide)
  exact ⟨by rfl, by decide, by decide, h.1, h.2.1, h.2.2⟩


end api
